import Mathlib

/-!
# eir: protocol line parser, dispatcher and membership reconciliation

A shallow embedding of `src/bot.cpp`, `src/command.cpp` and
`modules/core/channel.cpp`.

* `std::string` is `List Char`; `std::string::size_type` is a natural number
  below `2 ^ 64`, with `npos = 2 ^ 64 - 1` and wrap-around arithmetic.
* Operations whose behaviour is undefined or that throw in C++ return `none`.
* Objects owned through `shared_ptr` live in per-type heaps inside `Bot`,
  addressed by their index; pointer equality is index equality.
-/

namespace Eir

/-- A `std::string`. -/
abbrev Str := List Char

/-! ## `std::string` primitives -/

/-- The value of `std::string::npos` for a 64-bit `size_type`. -/
def npos : Nat := 18446744073709551615

/-- Addition on `size_type` (wraps at `2 ^ 64`). -/
def size_add (a b : Nat) : Nat := (a + b) % 18446744073709551616

/-- Subtraction on `size_type` (wraps at `2 ^ 64`). -/
def size_sub (a b : Nat) : Nat := (a + 18446744073709551616 - b % 18446744073709551616) % 18446744073709551616

/-- Scan for `c`, the head of the list being at index `i`. -/
def find_in (c : Char) : Str → Nat → Nat
  | [], _ => npos
  | x :: xs, i => if x = c then i else find_in c xs (i + 1)

/-- The call `s.find(c, pos)`: index of the first `c` at or after `pos`, else `npos`. -/
def find (s : Str) (c : Char) (pos : Nat) : Nat := find_in c (s.drop pos) pos

/-- Scan for any character of `cs`, the head of the list being at index `i`. -/
def find_first_of_in (cs : Str) : Str → Nat → Nat
  | [], _ => npos
  | x :: xs, i => if x ∈ cs then i else find_first_of_in cs xs (i + 1)

/-- The call `s.find_first_of(cs)`. -/
def find_first_of (s : Str) (cs : Str) : Nat := find_first_of_in cs s 0

/-- The call `s.substr(pos, n)`; throws `out_of_range` (here `none`) when `pos > s.size()`. -/
def substr (s : Str) (pos n : Nat) : Option Str :=
  if s.length < pos then none else some ((s.drop pos).take n)

/-- The expression `s[i]`: the terminating NUL at `i = s.size()`, undefined beyond. -/
def str_at (s : Str) (i : Nat) : Option Char :=
  if i < s.length then s.get? i
  else if i = s.length then some (Char.ofNat 0)
  else none

/-- The statements `e = line.end(); if (*--e == c) line.erase(e);`.
Decrementing `end()` of an empty string is undefined. -/
def strip_last (line : Str) (c : Char) : Option Str :=
  match line.getLast? with
  | none => none
  | some x => if x = c then some line.dropLast else some line

/-! ## Messages -/

/-- The part of `Message::source` that the parser fills in.  `client` is the
resolved `Client::ptr` (a heap index) and `reply_func` / `error_func` hold the
destination bound into `notice_to`. -/
structure Source where
  raw : Str
  name : Str
  client : Option Nat
  destination : Str
  reply_func : Str
  error_func : Str
  deriving DecidableEq, Repr

/-- A `Message`. -/
structure Message where
  raw : Str
  source : Source
  command : Str
  args : List Str
  deriving DecidableEq, Repr

/-! ## Entity graph -/

/-- Modelled from the spec: the `Client` class (client.h / client.cpp are not in
src).  §3: nick, user, host, account (empty = unknown) and the Memberships the
client holds; `channels` lists them by heap index. -/
structure Client where
  nick : Str
  user : Str
  host : Str
  account : Str
  channels : List Nat
  deriving DecidableEq, Repr, Inhabited

/-- Modelled from the spec: the `Channel` class (not in src).  §3: a name and
the set of current Memberships, by heap index. -/
structure Channel where
  name : Str
  members : List Nat
  deriving DecidableEq, Repr, Inhabited

/-- Modelled from the spec: the `Membership` class (not in src).  §3:
back-references to its client and channel, and the standing flags `modes`. -/
structure Membership where
  client : Nat
  channel : Nat
  modes : Str
  deriving DecidableEq, Repr, Inhabited

/-- Modelled from the spec: `cistring::is_equal` (string_util.h is not in src),
the key equality of the client and channel maps.  §3: keys are compared
case-insensitively. -/
def cistring_is_equal (a b : Str) : Bool :=
  a.map Char.toLower == b.map Char.toLower

/-- The state of `Implementation<Bot>` together with the heaps of the objects
its `shared_ptr`s refer to.  `_server` is the `Server` object when one is set,
represented by the lines handed to `Server::send` so far.  `_supported` is the
PREFIX table of `ISupport` (prefix character, mode character), and
`nick_in_use_handler` tells whether the 433 handler is still registered. -/
structure Bot where
  clientObjs : List Client
  channelObjs : List Channel
  membershipObjs : List Membership
  _server : Option (List Str)
  _nick : Str
  _me : Option Nat
  _clients : List (Str × Nat)
  _channels : List (Str × Nat)
  _connected : Bool
  _registered : Bool
  _supported : List (Char × Char)
  have_whox : Bool
  have_account_notify : Bool
  have_extended_join : Bool
  nick_in_use_handler : Bool
  deriving DecidableEq, Repr

/-- Lookup in an `unordered_map` keyed with `cistring::is_equal`. -/
def map_find (m : List (Str × Nat)) (k : Str) : Option Nat :=
  (m.find? (fun e => cistring_is_equal e.1 k)).map (fun e => e.2)

/-- The call `unordered_map::insert`: keeps an existing equal key. -/
def map_insert (m : List (Str × Nat)) (k : Str) (v : Nat) : List (Str × Nat) :=
  if (map_find m k).isSome then m else m ++ [(k, v)]

/-- The call `unordered_map::erase(key)`. -/
def map_erase (m : List (Str × Nat)) (k : Str) : List (Str × Nat) :=
  m.filter (fun e => !cistring_is_equal e.1 k)

/-! ## `Implementation<Bot>::handle_message`, parsing part (bot.cpp 283-358) -/

/-- The argument loop `while (p2 != npos) ...` of `handle_message`; `fuel`
bounds the number of iterations. -/
def args_loop (line : Str) : Nat → Nat → List Str → Option (List Str)
  | 0, _, _ => none
  | fuel + 1, p2, args =>
    if p2 = npos then some args
    else
      let p1 := size_add p2 1
      match str_at line p1 with
      | none => none
      | some ch =>
        if ch = ':' then
          match substr line (size_add p1 1) npos with
          | none => none
          | some a => some (args ++ [a])
        else
          let p2n := find line ' ' p1
          match substr line p1 (size_sub p2n p1) with
          | none => none
          | some a => args_loop line fuel p2n (args ++ [a])

/-- Lines 283-358 of bot.cpp: the message built from one raw line, with
`m.command` already set to the parsed command.  `clients` is `_clients`.
Where a branch of the source assigns two variables, each variable is given by
its own conditional on the same test. -/
def handle_message_parse (clients : List (Str × Nat)) (line0 : Str) : Option Message := do
  let line1 ← strip_last line0 '\n'
  let line ← strip_last line1 '\r'
  let c0 ← str_at line 0
  let sraw ← (if c0 = ':' then substr line 1 (size_sub (find line ' ' 0) 1) else some [])
  let p1 := if c0 = ':' then size_add (find line ' ' 0) 1 else 0
  let bang := find sraw '!' 0
  let name ← (if bang ≠ npos then substr sraw 0 bang else some sraw)
  let client := if bang ≠ npos then map_find clients name else none
  let p2 := find line ' ' p1
  let command ← substr line p1 (size_sub p2 p1)
  let p1 := size_add p2 1
  let p2 := find line ' ' p1
  let dest0 ← substr line p1 (size_sub p2 p1)
  let d0 ← str_at dest0 0
  let dest ← (if d0 = ':' then substr line (size_add p1 1) npos else some dest0)
  let p2 := if d0 = ':' then npos else p2
  let target := if find_first_of dest ['#', '&'] ≠ npos then dest else name
  let args ← args_loop line (line.length + 2) p2 []
  some { raw := line
         source := { raw := sraw, name := name, client := client, destination := dest
                     reply_func := target, error_func := target }
         command := command
         args := args }

/-! ## Heap access -/

/-- The object a `Client::ptr` refers to. -/
def Bot.client (b : Bot) (c : Nat) : Client := b.clientObjs.getD c default

/-- The object a `Channel::ptr` refers to. -/
def Bot.channel (b : Bot) (ch : Nat) : Channel := b.channelObjs.getD ch default

/-- The object a `Membership::ptr` refers to. -/
def Bot.membership (b : Bot) (p : Nat) : Membership := b.membershipObjs.getD p default

/-- Write through a `Client::ptr`. -/
def Bot.setClient (b : Bot) (c : Nat) (cl : Client) : Bot :=
  { b with clientObjs := b.clientObjs.set c cl }

/-- Write through a `Channel::ptr`. -/
def Bot.setChannel (b : Bot) (ch : Nat) (h : Channel) : Bot :=
  { b with channelObjs := b.channelObjs.set ch h }

/-- Write through a `Membership::ptr`. -/
def Bot.setMembership (b : Bot) (p : Nat) (m : Membership) : Bot :=
  { b with membershipObjs := b.membershipObjs.set p m }

/-! ## `Bot` registry operations (bot.cpp 473-545, 614-617) -/

/-- The method `Bot::find_client`. -/
def Bot.find_client (b : Bot) (nick : Str) : Option Nat := map_find b._clients nick

/-- The method `Bot::add_client`.  The `new_client` internal event it dispatches
has no handler in the embedded sources. -/
def Bot.add_client (b : Bot) (c : Nat) : Bot :=
  let me := if b._me.isNone && (b.client c).nick == b._nick then some c else b._me
  { b with _me := me, _clients := map_insert b._clients (b.client c).nick c }

/-- The method `Bot::remove_client`.  The `client_remove` internal event it
dispatches has no handler in the embedded sources. -/
def Bot.remove_client (b : Bot) (c : Nat) : Bot :=
  { b with _clients := map_erase b._clients (b.client c).nick }

/-- The method `Bot::find_channel`. -/
def Bot.find_channel (b : Bot) (name : Str) : Option Nat := map_find b._channels name

/-- The method `Bot::add_channel`. -/
def Bot.add_channel (b : Bot) (ch : Nat) : Bot :=
  { b with _channels := map_insert b._channels (b.channel ch).name ch }

/-- The method `Bot::remove_channel(Channel::ptr)`. -/
def Bot.remove_channel (b : Bot) (ch : Nat) : Bot :=
  { b with _channels := map_erase b._channels (b.channel ch).name }

/-- The method `Bot::use_account_tracking`. -/
def Bot.use_account_tracking (b : Bot) : Bool :=
  b.have_whox && b.have_account_notify && b.have_extended_join

/-- The method `Bot::send`: throws `NotConnectedException` (here `none`) when
not connected; otherwise erases the line from its first CR or LF on and hands
it to the server. -/
def Bot.send (b : Bot) (line : Str) : Option Bot :=
  match b._connected, b._server with
  | true, some out =>
    let idx := find_first_of line ['\r', '\n']
    let line1 := if idx ≠ npos then line.take idx else line
    some { b with _server := some (out ++ [line1]) }
  | _, _ => none

/-! ## Methods of `Client` and `Membership` used by the handlers -/

/-- Modelled from the spec: the constructor `Client(bot, nick, user, host)`
(not in src).  §3: a new client has no account and no Membership. -/
def Client.new (nick user host : Str) : Client :=
  { nick := nick, user := user, host := host, account := [], channels := [] }

/-- Modelled from the spec: `Client::set_account` (not in src).  §4.4: set
Client.account to the new value. -/
def Bot.set_account (b : Bot) (c : Nat) (account : Str) : Bot :=
  b.setClient c { b.client c with account := account }

/-- Modelled from the spec: lookup of the Membership a client holds in a
channel (not in src). -/
def Bot.find_membership (b : Bot) (c ch : Nat) : Option Nat :=
  (b.client c).channels.find? (fun p => (b.membership p).channel == ch)

/-- Modelled from the spec: `Client::join_chan` (not in src).  §4.4:
create/reuse the Membership of this client in the channel; §3: a Membership is
held by both its Client and its Channel and starts without standing flags. -/
def Bot.join_chan (b : Bot) (c ch : Nat) : Bot × Nat :=
  match b.find_membership c ch with
  | some p => (b, p)
  | none =>
    let p := b.membershipObjs.length
    let b1 := { b with membershipObjs := b.membershipObjs ++ [Membership.mk c ch []] }
    let b2 := b1.setClient c { b1.client c with channels := (b1.client c).channels ++ [p] }
    (b2.setChannel ch { b2.channel ch with members := (b2.channel ch).members ++ [p] }, p)

/-- Modelled from the spec: `Client::leave_chan(Membership::ptr)` (not in src).
§4.4 / §9: remove the Membership from the sets of both of its owners, the
client it is called on and the Membership's channel. -/
def Bot.leave_chan_membership (b : Bot) (c p : Nat) : Bot :=
  let ch := (b.membership p).channel
  let b1 := b.setClient c { b.client c with channels := (b.client c).channels.filter (fun q => q != p) }
  b1.setChannel ch { b1.channel ch with members := (b1.channel ch).members.filter (fun q => q != p) }

/-- Modelled from the spec: `Client::leave_chan(Channel::ptr)` (not in src):
remove the Membership this client holds in the channel, if any. -/
def Bot.leave_chan (b : Bot) (c ch : Nat) : Bot :=
  match b.find_membership c ch with
  | some p => b.leave_chan_membership c p
  | none => b

/-- Modelled from the spec: `Client::change_nick` (not in src).  §3 / §4.4: the
registry key is renamed, the client being reinserted under the new nick with
the `Bot` registry operations; its Memberships are untouched. -/
def Bot.change_nick (b : Bot) (c : Nat) (newnick : Str) : Bot :=
  let b1 := b.remove_client c
  let b2 := b1.setClient c { b1.client c with nick := newnick }
  b2.add_client c

/-- Modelled from the spec: `Membership::has_mode` (not in src): whether the
standing flag is in `modes`. -/
def Membership.has_mode (m : Membership) (c : Char) : Bool := m.modes.contains c

/-- Modelled from the spec: `ISupport::get_prefix_mode` (not in src).  Glossary:
the feature table maps a prefix character to its standing flag; NUL when the
character is not a prefix. -/
def Bot.get_prefix_mode (b : Bot) (c : Char) : Char :=
  match b._supported.find? (fun e => e.1 == c) with
  | some e => e.2
  | none => Char.ofNat 0

/-! ## channel.cpp -/

/-- The overload `find_or_create_client(Bot*, nick, user, host)`. -/
def find_or_create_client (b : Bot) (nick user host : Str) : Bot × Nat :=
  match b.find_client nick with
  | some c => (b, c)
  | none =>
    let c := b.clientObjs.length
    let b1 := { b with clientObjs := b.clientObjs ++ [Client.new nick user host] }
    (b1.add_client c, c)

/-- The overload `find_or_create_client(Bot*, name, nuh)`.  Each of `nick`,
`user` and `host` is given by its own conditional on the test `bang == npos`. -/
def find_or_create_client_nuh (b : Bot) (name nuh : Str) : Option (Bot × Nat) :=
  match b.find_client name with
  | some c => some (b, c)
  | none =>
    let bang := find nuh '!' 0
    let at_ := find nuh '@' (size_add bang 1)
    (if bang = npos then some nuh else substr nuh 0 bang).bind fun nick =>
    (if bang = npos then some []
      else substr nuh (size_add bang 1) (size_sub (size_sub at_ bang) 1)).bind fun user =>
    (if bang = npos then some [] else substr nuh (size_add at_ 1) npos).bind fun host =>
      let c := b.clientObjs.length
      let b1 := { b with clientObjs := b.clientObjs ++ [Client.new nick user host] }
      some (b1.add_client c, c)

/-- The overload `find_or_create_client(const Message*)`. -/
def find_or_create_client_msg (b : Bot) (m : Message) : Option (Bot × Nat) :=
  match m.source.client with
  | some c => some (b, c)
  | none => find_or_create_client_nuh b m.source.name m.source.raw

/-- The overload `find_or_create_channel(Bot*, name)`. -/
def find_or_create_channel (b : Bot) (name : Str) : Bot × Nat :=
  match b.find_channel name with
  | some ch => (b, ch)
  | none =>
    let ch := b.channelObjs.length
    let b1 := { b with channelObjs := b.channelObjs ++ [Channel.mk name []] }
    (b1.add_channel ch, ch)

/-- The function `client_leaving_channel`. -/
def client_leaving_channel (b : Bot) (c ch : Option Nat) : Bot :=
  match c, ch with
  | none, _ => b
  | some _, none => b
  | some c, some ch =>
    let b1 := b.leave_chan c ch
    let b2 := if (b1.client c).channels.isEmpty then b1.remove_client c else b1
    if some c ≠ b2._me then b2
    else
      let b3 := (b2.channel ch).members.foldl
        (fun acc p => acc.leave_chan_membership (acc.membership p).client p) b2
      b3.remove_channel ch

/-- The handler `ChannelHandler::handle_join`. -/
def handle_join (b : Bot) (m : Message) : Option Bot := do
  let (b1, c) ← find_or_create_client_msg b m
  let (b2, ch) := find_or_create_channel b1 m.source.destination
  let b3 := if b2.use_account_tracking && decide (m.args.length > 0)
            then b2.set_account c (m.args.getD 0 []) else b2
  let b4 := (b3.join_chan c ch).1
  if m.source.name = b4._nick then
    let who_command := "WHO ".toList ++ m.source.destination
    let who_command := if b4.use_account_tracking then who_command ++ " %cnuhaft,524".toList
                       else who_command
    b4.send who_command
  else some b4

/-- The loop over `flags` in `who_reply_common`. -/
def who_flags (b : Bot) (member : Nat) (flags : Str) : Bot :=
  flags.foldl (fun acc ch =>
    let c := acc.get_prefix_mode ch
    if c ≠ Char.ofNat 0 && !(acc.membership member).has_mode c then
      acc.setMembership member { acc.membership member with modes := (acc.membership member).modes ++ [c] }
    else acc) b

/-- The function `who_reply_common`. -/
def who_reply_common (b : Bot) (chname nick user hostname flags account : Str) : Bot :=
  let (b1, c) := find_or_create_client b nick user hostname
  let b2 := if b1.use_account_tracking && !account.isEmpty then b1.set_account c account else b1
  let (b3, ch) := find_or_create_channel b2 chname
  let (b4, member) := b3.join_chan c ch
  who_flags b4 member flags

/-- The handler `ChannelHandler::handle_who_reply`. -/
def handle_who_reply (b : Bot) (m : Message) : Bot :=
  if m.args.length ≠ 7 then b
  else
    who_reply_common b (m.args.getD 0 []) (m.args.getD 4 []) (m.args.getD 1 []) (m.args.getD 2 [])
      (m.args.getD 5 []) "*".toList

/-- The handler `ChannelHandler::handle_whox_reply`. -/
def handle_whox_reply (b : Bot) (m : Message) : Bot :=
  if m.args.length ≠ 7 then b
  else if m.args.getD 0 [] ≠ "524".toList then b
  else
    let account := m.args.getD 6 []
    let account := if account = "0".toList then [] else account
    who_reply_common b (m.args.getD 1 []) (m.args.getD 4 []) (m.args.getD 2 []) (m.args.getD 3 [])
      (m.args.getD 5 []) account

/-- The handler `ChannelHandler::handle_part`. -/
def handle_part (b : Bot) (m : Message) : Bot :=
  client_leaving_channel b m.source.client (b.find_channel m.source.destination)

/-- The handler `ChannelHandler::handle_kick`. -/
def handle_kick (b : Bot) (m : Message) : Bot :=
  if m.args.isEmpty then b
  else client_leaving_channel b (b.find_client (m.args.getD 0 [])) (b.find_channel m.source.destination)

/-- The handler `ChannelHandler::handle_quit`. -/
def handle_quit (b : Bot) (m : Message) : Bot :=
  match m.source.client with
  | none => b
  | some c =>
    let b1 := (b.client c).channels.foldl (fun acc p => acc.leave_chan_membership c p) b
    b1.remove_client c

/-- The handler `ChannelHandler::handle_nick`. -/
def handle_nick (b : Bot) (m : Message) : Bot :=
  match m.source.client with
  | none => b
  | some c => b.change_nick c m.source.destination

/-- The handler `ChannelHandler::handle_account`. -/
def handle_account (b : Bot) (m : Message) : Bot :=
  match m.source.client with
  | none => b
  | some c => b.set_account c m.source.destination

/-! ## Handlers of `Implementation<Bot>` (bot.cpp 66-119) -/

/-- The handler `Implementation<Bot>::cap_enabled`. -/
def Bot.cap_enabled (b : Bot) (args : List Str) : Bot :=
  match args with
  | [] => b
  | a :: _ =>
    let b1 := if a = "account-notify".toList then { b with have_account_notify := true } else b
    if a = "extended-join".toList then { b1 with have_extended_join := true } else b1

/-- The handler `Implementation<Bot>::isupport_enabled`. -/
def Bot.isupport_enabled (b : Bot) (args : List Str) : Bot :=
  match args with
  | [] => b
  | a :: _ => if a = "WHOX".toList then { b with have_whox := true } else b

/-- The handler `Implementation<Bot>::handle_001`. -/
def Bot.handle_001 (b : Bot) (m : Message) : Bot :=
  { b with _nick := m.source.destination, _registered := true, nick_in_use_handler := false }

/-- The handler `Implementation<Bot>::handle_nick`. -/
def Bot.handle_nick (b : Bot) (m : Message) : Bot :=
  if m.source.name = b._nick then { b with _nick := m.source.destination } else b

/-- The handler `Implementation<Bot>::handle_433`; it calls `_server->send`
directly, which is undefined without a server. -/
def Bot.handle_433 (b : Bot) : Option Bot :=
  let nick := b._nick ++ "_".toList
  match b._server with
  | none => none
  | some out => some { b with _nick := nick, _server := some (out ++ ["NICK ".toList ++ nick]) }

/-! ## Dispatch of a parsed line (bot.cpp 360-366) -/

/-- Modelled from the spec: the key test of `CommandRegistry` (handler.h is not
in src).  §4.1: handlers are stored per command key, case-insensitively
normalized. -/
def command_is (key : String) (command : Str) : Bool :=
  key.toList.map Char.toLower == command.map Char.toLower

/-- Modelled from the spec: `CommandRegistry::dispatch` of a live-network
message (handler.h is not in src).  §4.1: every handler registered for the
command runs, in registration order: the handlers of `Implementation<Bot>`
(001, NICK, 433) were registered by the `Bot` constructor, those of
`ChannelHandler` by its constructor. -/
def dispatch (b : Bot) (m : Message) : Option Bot :=
  if command_is "001" m.command then some (b.handle_001 m)
  else if command_is "NICK" m.command then some (handle_nick (b.handle_nick m) m)
  else if command_is "433" m.command then
    if b.nick_in_use_handler then b.handle_433 else some b
  else if command_is "JOIN" m.command then handle_join b m
  else if command_is "PART" m.command then some (handle_part b m)
  else if command_is "QUIT" m.command then some (handle_quit b m)
  else if command_is "ACCOUNT" m.command then some (handle_account b m)
  else if command_is "352" m.command then some (handle_who_reply b m)
  else if command_is "354" m.command then some (handle_whox_reply b m)
  else if command_is "KICK" m.command then some (handle_kick b m)
  else some b

/-- The function `Implementation<Bot>::handle_message`: parse the line, then
dispatch it under its command.  The `server_incoming` internal event dispatched
first has no handler in the embedded sources. -/
def handle_message (b : Bot) (line : Str) : Option Bot := do
  let m ← handle_message_parse b._clients line
  dispatch b m

/-- What a bot reacts to: a raw line from the server, or one of the internal
events `cap_enabled` / `isupport_enabled` with its arguments. -/
inductive Event where
  | line (l : Str)
  | cap_enabled (args : List Str)
  | isupport_enabled (args : List Str)
  deriving DecidableEq, Repr

/-- One event handled by the bot. -/
def Bot.step (b : Bot) : Event → Option Bot
  | Event.line l => handle_message b l
  | Event.cap_enabled args => some (b.cap_enabled args)
  | Event.isupport_enabled args => some (b.isupport_enabled args)

/-- A sequence of events handled one after the other. -/
def Bot.run (b : Bot) : List Event → Option Bot
  | [] => some b
  | e :: es => (b.step e).bind (fun b1 => b1.run es)

/-- A connected bot with an empty entity graph: no client, no channel, no
membership.  The constructor leaves `have_whox`, `have_account_notify` and
`have_extended_join` uninitialised, so they are parameters. -/
def Bot.init (nick : Str) (supported : List (Char × Char)) (whox notify extjoin : Bool) : Bot :=
  { clientObjs := [], channelObjs := [], membershipObjs := []
    _server := some [], _nick := nick, _me := none, _clients := [], _channels := []
    _connected := true, _registered := false, _supported := supported
    have_whox := whox, have_account_notify := notify, have_extended_join := extjoin
    nick_in_use_handler := true }

/-! ## Line shapes used to state the parser properties -/

/-- The text after the command in a line ` t1 ... tn :rest`: each parameter is
preceded by one space and the trailing argument by a space and the marker. -/
def params_line : List Str → Str → Str
  | [], rest => ' ' :: ':' :: rest
  | t :: ts, rest => ' ' :: (t ++ params_line ts rest)

/-! ## `Dispatcher` (command.cpp) -/

/-- The comparator `Dispatcher::IrcStringCmp::operator()`.  Each `*i++` reads
one character; reading at the end iterator is undefined (`none`).  Characters
are compared by their character values. -/
def IrcStringCmp : Str → Str → Option Bool
  | [], _ => none
  | _ :: _, [] => none
  | c1 :: r1, c2 :: r2 =>
    let res : Int := (c1.toNat : Int) - (c2.toNat : Int)
    if res ≠ 0 then some (decide (res < 0))
    else if r1 = [] then some (decide (r2 ≠ []))
    else if r2 = [] then some false
    else IrcStringCmp r1 r2

/-- Modelled from the spec: `HandlerMap::find` (the typedef is in command.h, not
in src).  §4.1: handlers are stored per command key; the map is ordered by the
nested comparator `IrcStringCmp`, so an entry is found when neither key orders
before the other.  The result is the position of the entry, `none` for
`end()`. -/
def HandlerMap_find {H : Type} : List (Str × List H) → Str → Option (Option Nat)
  | [], _ => some none
  | e :: rest, s =>
    match IrcStringCmp e.1 s, IrcStringCmp s e.1 with
    | some false, some false => some (some 0)
    | some _, some _ => (HandlerMap_find rest s).map (fun r => r.map (fun i => i + 1))
    | _, _ => none

/-- The method `Dispatcher::add_handler` on `_handlers`. -/
def Dispatcher.add_handler {H : Type} (_handlers : List (Str × List H)) (s : Str) (h : H) :
    Option (List (Str × List H)) :=
  match HandlerMap_find _handlers s with
  | none => none
  | some mi =>
    let handlers1 := if mi.isNone then _handlers ++ [(s, [])] else _handlers
    let mi := mi.getD _handlers.length
    match handlers1.get? mi with
    | none => none
    | some e => some (handlers1.set mi (e.1, e.2 ++ [h]))

/-- The method `Dispatcher::dispatch` on `_handlers`: the handlers it invokes
for a message with the given command, in order. -/
def Dispatcher.dispatch {H : Type} (_handlers : List (Str × List H)) (command : Str) :
    Option (List H) :=
  match HandlerMap_find _handlers command with
  | none => none
  | some none => some []
  | some (some it) =>
    match _handlers.get? it with
    | none => none
    | some e => some e.2

/-- A sequence of `add_handler` calls on a dispatcher. -/
def Dispatcher.add_handlers {H : Type} (_handlers : List (Str × List H)) :
    List (Str × H) → Option (List (Str × List H))
  | [] => some _handlers
  | c :: cs => (Dispatcher.add_handler _handlers c.1 c.2).bind (fun d => Dispatcher.add_handlers d cs)

/-- The position of the first entry stored under exactly the key `s`. -/
def first_key_index {H : Type} : List (Str × List H) → Str → Option Nat
  | [], _ => none
  | e :: rest, s => if e.1 = s then some 0 else (first_key_index rest s).map (fun i => i + 1)

/-- The handler list stored under exactly the key `s` (empty when there is none). -/
def handlers_under {H : Type} : List (Str × List H) → Str → List H
  | [], _ => []
  | e :: rest, s => if e.1 = s then e.2 else handlers_under rest s

/-- The handlers that a sequence of `add_handler` calls adds under the key `K`,
in the order of the calls. -/
def added_under {H : Type} (calls : List (Str × H)) (K : Str) : List H :=
  (calls.filter (fun c => decide (c.1 = K))).map (fun c => c.2)

/-! ## Invariants of the entity graph -/

/-- Every Membership a client holds is a live Membership of that client and is
also held by its channel, and every Membership a channel holds is a live
Membership in that channel and is also held by its client. -/
def Bot.GraphOk (b : Bot) : Prop :=
  (∀ c p, p ∈ (b.client c).channels →
    p < b.membershipObjs.length ∧ (b.membership p).client = c
      ∧ p ∈ (b.channel (b.membership p).channel).members)
  ∧ (∀ h p, p ∈ (b.channel h).members →
    p < b.membershipObjs.length ∧ (b.membership p).channel = h
      ∧ p ∈ (b.client (b.membership p).client).channels)

/-- The registries only hold pointers to allocated objects. -/
def Bot.RegistryOk (b : Bot) : Prop :=
  (∀ e ∈ b._clients, e.2 < b.clientObjs.length)
  ∧ (∀ e ∈ b._channels, e.2 < b.channelObjs.length)

/-- The duality of §3: client `c` lists channel `h` among its memberships if
and only if `h` lists a Membership whose client is `c`. -/
def Bot.Duality (b : Bot) : Prop :=
  ∀ c h, (∃ p ∈ (b.client c).channels, (b.membership p).channel = h)
    ↔ (∃ p ∈ (b.channel h).members, (b.membership p).client = c)

/-- The resolved client of a message, when there is one, is an allocated object. -/
def Message.ValidFor (m : Message) (b : Bot) : Prop :=
  ∀ c, m.source.client = some c → c < b.clientObjs.length

/-- The graph and registry invariants together. -/
def Bot.WF (b : Bot) : Prop := b.GraphOk ∧ b.RegistryOk

/-- The heaps of `b1` extend those of `b`: pointers valid in `b` stay valid. -/
def Bot.Grows (b b1 : Bot) : Prop :=
  b.clientObjs.length ≤ b1.clientObjs.length ∧ b.channelObjs.length ≤ b1.channelObjs.length

/-- The bot is connected and has a `Server` to send through, as it is from
`Bot::run` until `Bot::disconnect`. -/
def Bot.Connected (b : Bot) : Prop := b._connected = true ∧ b._server.isSome = true

/-- A line as the transport hands it over once its line ending is removed:
non-empty, free of CR and LF, and of a length a `std::string` can have. -/
def GoodLine (l : Str) : Prop := l ≠ [] ∧ '\r' ∉ l ∧ '\n' ∉ l ∧ l.length < npos

/-- An event whose line, if it is one, is a `GoodLine`. -/
def GoodEvent : Event → Prop
  | Event.line l => GoodLine l
  | _ => True

/-! ## The reply callbacks -/

/-- The function `notice_to` of bot.cpp.  `handle_message` binds it with the bot
and the reply target as `reply_func`, so calling the callback of a `Source` on a
text `t` is `notice_to b s.reply_func t`. -/
def notice_to (b : Bot) (dest text : Str) : Option Bot :=
  b.send ("NOTICE ".toList ++ dest ++ " :".toList ++ text)

/-! ## Reachable states -/

/-- The states a bot reaches from a connected start with an empty entity graph
by handling a sequence of events. -/
def Bot.Reachable (b : Bot) : Prop :=
  ∃ nick supported whox notify extjoin es,
    (Bot.init nick supported whox notify extjoin).run es = some b

/-- The state after handling `es` (the state itself when handling raises). -/
def Bot.after (b : Bot) (es : List Event) : Bot := (b.run es).getD b

/-- A client holds at most one Membership per channel. -/
def Bot.Uniq (b : Bot) : Prop :=
  ∀ c p q, p ∈ (b.client c).channels → q ∈ (b.client c).channels →
    (b.membership p).channel = (b.membership q).channel → p = q

/-- The state `b1` has the nick, the connection and the capability flags of `b`. -/
def Bot.SameLink (b b1 : Bot) : Prop :=
  b1._nick = b._nick ∧ b1._server = b._server ∧ b1._connected = b._connected
    ∧ b1.have_whox = b.have_whox ∧ b1.have_account_notify = b.have_account_notify
    ∧ b1.have_extended_join = b.have_extended_join

/-! ## The order the key comparator is specified against -/

/-- Written from the words of the specification, not from the source: `s1` is
strictly smaller than `s2` in the lexicographic order of their character
values, a proper prefix being smaller than its extension. -/
def lex_lt : Str → Str → Bool
  | [], [] => false
  | [], _ :: _ => true
  | _ :: _, [] => false
  | a :: r1, b :: r2 =>
    if a.toNat < b.toNat then true
    else if b.toNat < a.toNat then false
    else lex_lt r1 r2

/-! ## Lemmas on the string primitives -/

theorem find_in_skip (c : Char) (pre post : Str) (i : Nat) (h : c ∉ pre) :
    find_in c (pre ++ c :: post) i = i + pre.length := by
  induction pre generalizing i with
  | nil => simp [find_in]
  | cons x xs ih =>
    have hx : x ≠ c := fun e => h (by simp [e])
    have hxs : c ∉ xs := fun e => h (by simp [e])
    simp [find_in, hx, ih (i + 1) hxs]
    omega

theorem find_in_none (c : Char) (s : Str) (i : Nat) (h : c ∉ s) : find_in c s i = npos := by
  induction s generalizing i with
  | nil => simp [find_in]
  | cons x xs ih =>
    have hx : x ≠ c := fun e => h (by simp [e])
    have hxs : c ∉ xs := fun e => h (by simp [e])
    simp [find_in, hx, ih (i + 1) hxs]

theorem find_tok (pre tok post : Str) (c : Char) (pos : Nat) (hp : pos = pre.length)
    (h : c ∉ tok) : find (pre ++ (tok ++ c :: post)) c pos = pos + tok.length := by
  subst hp
  simp [find, find_in_skip c tok post _ h]

theorem find_end (pre tok : Str) (c : Char) (pos : Nat) (hp : pos = pre.length)
    (h : c ∉ tok) : find (pre ++ tok) c pos = npos := by
  subst hp
  simp [find, find_in_none c tok _ h]

theorem substr_tok (pre tok post : Str) (pos n : Nat) (hp : pos = pre.length)
    (hn : n = tok.length) : substr (pre ++ (tok ++ post)) pos n = some tok := by
  subst hp hn
  simp [substr]

theorem substr_end (pre tok : Str) (pos n : Nat) (hp : pos = pre.length)
    (hn : tok.length ≤ n) : substr (pre ++ tok) pos n = some tok := by
  subst hp
  simp [substr, List.take_of_length_le hn]

theorem str_at_tok (pre post : Str) (c : Char) (pos : Nat) (hp : pos = pre.length) :
    str_at (pre ++ c :: post) pos = some c := by
  subst hp
  have h1 : (pre ++ c :: post).get? pre.length = some c := by
    induction pre with
    | nil => rfl
    | cons x xs ih => simpa using ih
  have h2 : pre.length < (pre ++ c :: post).length := by simp
  unfold str_at
  rw [if_pos h2, h1]

theorem size_add_small (a b : Nat) (h : a + b < 18446744073709551616) : size_add a b = a + b := by
  simp [size_add, Nat.mod_eq_of_lt h]

theorem size_sub_small (a b : Nat) (hb : b ≤ a) (ha : a < 18446744073709551616) :
    size_sub a b = a - b := by
  have hb2 : b % 18446744073709551616 = b := Nat.mod_eq_of_lt (by omega)
  unfold size_sub
  rw [hb2]
  omega

theorem strip_last_keep (line : Str) (c x : Char) (h : line.getLast? = some x) (hx : x ≠ c) :
    strip_last line c = some line := by
  simp [strip_last, h, hx]

theorem strip_last_drop (line : Str) (c : Char) : strip_last (line ++ [c]) c = some line := by
  simp [strip_last]

/-! ## The parser, step by step -/

theorem handle_message_parse_steps (cl : List (Str × Nat)) (line0 line1 line : Str)
    (c0 d0 : Char) (sraw name command dest0 dest : Str) (args : List Str) (p1 q1 : Nat)
    (h1 : strip_last line0 '\n' = some line1) (h2 : strip_last line1 '\r' = some line)
    (h3 : str_at line 0 = some c0)
    (h4 : (if c0 = ':' then substr line 1 (size_sub (find line ' ' 0) 1) else some []) = some sraw)
    (hp1 : (if c0 = ':' then size_add (find line ' ' 0) 1 else 0) = p1)
    (h5 : (if find sraw '!' 0 ≠ npos then substr sraw 0 (find sraw '!' 0) else some sraw)
      = some name)
    (h6 : substr line p1 (size_sub (find line ' ' p1) p1) = some command)
    (hq1 : size_add (find line ' ' p1) 1 = q1)
    (h7 : substr line q1 (size_sub (find line ' ' q1) q1) = some dest0)
    (h8 : str_at dest0 0 = some d0)
    (h9 : (if d0 = ':' then substr line (size_add q1 1) npos else some dest0) = some dest)
    (h10 : args_loop line (line.length + 2) (if d0 = ':' then npos else find line ' ' q1) []
      = some args) :
    handle_message_parse cl line0 =
      some { raw := line
             source := { raw := sraw, name := name
                         client := if find sraw '!' 0 ≠ npos then map_find cl name else none
                         destination := dest
                         reply_func := if find_first_of dest ['#', '&'] ≠ npos then dest else name
                         error_func := if find_first_of dest ['#', '&'] ≠ npos then dest else name }
             command := command
             args := args } := by
  subst hp1 hq1
  simp only [handle_message_parse, h1, h2, h3, h4, h5, h6, h7, h8, h9, h10, Option.bind_eq_bind,
    Option.some_bind]

theorem strip_last_append_ne (pre D : Str) (c : Char) (hD : D ≠ []) (h : c ∉ D) :
    strip_last (pre ++ D) c = some (pre ++ D) := by
  obtain ⟨x, hx⟩ : ∃ x, D.getLast? = some x := by
    cases hl : D.getLast? with
    | none => exact absurd (List.getLast?_eq_none_iff.mp hl) hD
    | some x => exact ⟨x, rfl⟩
  have hmem : x ∈ D := List.mem_of_getLast?_eq_some hx
  have hne : x ≠ c := fun e => h (e ▸ hmem)
  have hl : (pre ++ D).getLast? = some x := by
    rw [List.getLast?_append, hx]; rfl
  exact strip_last_keep _ _ _ hl hne

theorem args_loop_npos (line : Str) (fuel : Nat) (args : List Str) :
    args_loop line (fuel + 1) npos args = some args := by
  simp [args_loop]

theorem parse_prefix_two (cl : List (Str × Nat)) (raw C D : Str)
    (hraw : ' ' ∉ raw) (hC : ' ' ∉ C) (hD : ' ' ∉ D) (hDne : D ≠ [])
    (hd : D.head? ≠ some ':') (hlf : '\n' ∉ D) (hcr : '\r' ∉ D)
    (hlen : (':' :: (raw ++ ' ' :: (C ++ ' ' :: D))).length < npos) :
    handle_message_parse cl (':' :: (raw ++ ' ' :: (C ++ ' ' :: D))) =
      some { raw := ':' :: (raw ++ ' ' :: (C ++ ' ' :: D))
             source := { raw := raw
                         name := if find raw '!' 0 ≠ npos then raw.take (find raw '!' 0) else raw
                         client := if find raw '!' 0 ≠ npos then map_find cl (raw.take (find raw '!' 0)) else none
                         destination := D
                         reply_func := if find_first_of D ['#', '&'] ≠ npos then D
                           else if find raw '!' 0 ≠ npos then raw.take (find raw '!' 0) else raw
                         error_func := if find_first_of D ['#', '&'] ≠ npos then D
                           else if find raw '!' 0 ≠ npos then raw.take (find raw '!' 0) else raw }
             command := C
             args := [] } := by
  have hnpos : npos = 18446744073709551615 := rfl
  simp only [List.length_cons, List.length_append] at hlen
  have hs1 : strip_last (':' :: (raw ++ ' ' :: (C ++ ' ' :: D))) '\n'
      = some (':' :: (raw ++ ' ' :: (C ++ ' ' :: D))) := by
    have := strip_last_append_ne (':' :: (raw ++ ' ' :: (C ++ [' ']))) D '\n' hDne hlf
    simpa using this
  have hs2 : strip_last (':' :: (raw ++ ' ' :: (C ++ ' ' :: D))) '\r'
      = some (':' :: (raw ++ ' ' :: (C ++ ' ' :: D))) := by
    have := strip_last_append_ne (':' :: (raw ++ ' ' :: (C ++ [' ']))) D '\r' hDne hcr
    simpa using this
  have h0 : str_at (':' :: (raw ++ ' ' :: (C ++ ' ' :: D))) 0 = some ':' :=
    str_at_tok [] _ ':' 0 rfl
  have hf0 : find (':' :: (raw ++ ' ' :: (C ++ ' ' :: D))) ' ' 0 = raw.length + 1 := by
    have := find_tok [] (':' :: raw) (C ++ ' ' :: D) ' ' 0 rfl (by simp [hraw])
    simpa using this
  have hsub1 : size_sub (raw.length + 1) 1 = raw.length := by
    rw [size_sub_small _ _ (by omega) (by omega)]; omega
  have hr : substr (':' :: (raw ++ ' ' :: (C ++ ' ' :: D))) 1 raw.length = some raw :=
    substr_tok [':'] raw (' ' :: (C ++ ' ' :: D)) 1 _ rfl rfl
  have ha1 : size_add (raw.length + 1) 1 = raw.length + 2 := by
    rw [size_add_small _ _ (by omega)]
  have hf1 : find (':' :: (raw ++ ' ' :: (C ++ ' ' :: D))) ' ' (raw.length + 2)
      = raw.length + 2 + C.length := by
    have := find_tok (':' :: (raw ++ [' '])) C D ' ' (raw.length + 2) (by simp) hC
    simpa using this
  have hsub2 : size_sub (raw.length + 2 + C.length) (raw.length + 2) = C.length := by
    rw [size_sub_small _ _ (by omega) (by omega)]; omega
  have hc : substr (':' :: (raw ++ ' ' :: (C ++ ' ' :: D))) (raw.length + 2) C.length = some C := by
    have := substr_tok (':' :: (raw ++ [' '])) C (' ' :: D) (raw.length + 2) _ (by simp) rfl
    simpa using this
  have ha2 : size_add (raw.length + 2 + C.length) 1 = raw.length + 3 + C.length := by
    rw [size_add_small _ _ (by omega)]; omega
  have hf2 : find (':' :: (raw ++ ' ' :: (C ++ ' ' :: D))) ' ' (raw.length + 3 + C.length) = npos := by
    have := find_end (':' :: (raw ++ ' ' :: (C ++ [' ']))) D ' ' (raw.length + 3 + C.length)
      (by simp; omega) hD
    simpa using this
  have hd1 : substr (':' :: (raw ++ ' ' :: (C ++ ' ' :: D))) (raw.length + 3 + C.length)
      (size_sub npos (raw.length + 3 + C.length)) = some D := by
    have := substr_end (':' :: (raw ++ ' ' :: (C ++ [' ']))) D (raw.length + 3 + C.length)
      (size_sub npos (raw.length + 3 + C.length)) (by simp; omega)
      (by rw [size_sub_small _ _ (by omega) (by omega)]; omega)
    simpa using this
  obtain ⟨d, D', rfl⟩ : ∃ d D', D = d :: D' := by
    cases D with
    | nil => exact absurd rfl hDne
    | cons d D' => exact ⟨d, D', rfl⟩
  have hdc : d ≠ ':' := fun e => hd (by simp [e])
  have hd0 : str_at (d :: D') 0 = some d := str_at_tok [] D' d 0 rfl
  have hb : substr raw 0 (find raw '!' 0) = some (raw.take (find raw '!' 0)) := by
    simp [substr]
  have hres := handle_message_parse_steps cl _ _ (':' :: (raw ++ ' ' :: (C ++ ' ' :: d :: D')))
    ':' d raw (if find raw '!' 0 ≠ npos then raw.take (find raw '!' 0) else raw) C (d :: D')
    (d :: D') [] (raw.length + 2) (raw.length + 3 + C.length) hs1 hs2 h0
    (by rw [if_pos rfl, hf0, hsub1, hr])
    (by rw [if_pos rfl, hf0, ha1])
    (by by_cases hbang : find raw '!' 0 = npos
        · simp [hbang]
        · simp [hbang, hb])
    (by rw [hf1, hsub2, hc])
    (by rw [hf1, ha2])
    (by rw [hf2, hd1])
    hd0
    (by rw [if_neg hdc])
    (by rw [if_neg hdc, hf2]; exact args_loop_npos _ _ _)
  rw [hres]
  by_cases hbang : find raw '!' 0 = npos <;> simp [hbang]

theorem cistring_is_equal_refl (a : Str) : cistring_is_equal a a = true := by
  simp [cistring_is_equal]

theorem map_find_insert_self (m : List (Str × Nat)) (k : Str) (v : Nat)
    (h : map_find m k = none) : map_find (map_insert m k v) k = some v := by
  have h1 : m.find? (fun e => cistring_is_equal e.1 k) = none := by
    cases hf : m.find? (fun e => cistring_is_equal e.1 k) with
    | none => rfl
    | some e => simp [map_find, hf] at h
  simp [map_insert, h, map_find, List.find?_append, h1, cistring_is_equal_refl]

theorem client_getD_append (objs : List Client) (cl : Client) :
    (objs ++ [cl]).getD objs.length default = cl := by
  simp [List.getD_eq_getElem?_getD]

/-- C1: for tokens N, U, H, C, D that are non-empty and free of space, CR and
LF, with no `!` in N, no `@` in U and D not starting with `:`, parsing the line
`:N!U@H C D` yields an event with source nick N, command C, destination D and
no further argument; and when N is not yet registered, the client that
`find_or_create_client` creates from that source has nick N, user U and host H
and is registered under N. -/
theorem C1_parse_nick_user_host (b : Bot) (N U H C D : Str)
    (hN : N ≠ [] ∧ ' ' ∉ N ∧ '\r' ∉ N ∧ '\n' ∉ N ∧ '!' ∉ N)
    (hU : U ≠ [] ∧ ' ' ∉ U ∧ '\r' ∉ U ∧ '\n' ∉ U ∧ '@' ∉ U)
    (hH : H ≠ [] ∧ ' ' ∉ H ∧ '\r' ∉ H ∧ '\n' ∉ H)
    (hC : C ≠ [] ∧ ' ' ∉ C ∧ '\r' ∉ C ∧ '\n' ∉ C)
    (hD : D ≠ [] ∧ ' ' ∉ D ∧ '\r' ∉ D ∧ '\n' ∉ D ∧ D.head? ≠ some ':')
    (hlen : ([':'] ++ N ++ ['!'] ++ U ++ ['@'] ++ H ++ [' '] ++ C ++ [' '] ++ D).length < npos) :
    ∃ m, handle_message_parse b._clients
          ([':'] ++ N ++ ['!'] ++ U ++ ['@'] ++ H ++ [' '] ++ C ++ [' '] ++ D) = some m
      ∧ m.source.name = N ∧ m.command = C ∧ m.source.destination = D ∧ m.args = []
      ∧ (b.find_client N = none →
          ∃ b1 c, find_or_create_client_msg b m = some (b1, c)
            ∧ (b1.client c).nick = N ∧ (b1.client c).user = U ∧ (b1.client c).host = H
            ∧ b1.find_client N = some c) := by
  obtain ⟨_, hN1, _, _, hN4⟩ := hN
  obtain ⟨_, hU1, _, _, hU4⟩ := hU
  obtain ⟨_, hH1, _, _⟩ := hH
  obtain ⟨_, hC1, _, _⟩ := hC
  obtain ⟨hD0, hD1, hD2, hD3, hD4⟩ := hD
  have hline : [':'] ++ N ++ ['!'] ++ U ++ ['@'] ++ H ++ [' '] ++ C ++ [' '] ++ D
      = ':' :: ((N ++ '!' :: (U ++ '@' :: H)) ++ ' ' :: (C ++ ' ' :: D)) := by simp
  rw [hline] at hlen ⊢
  have hraw : ' ' ∉ N ++ '!' :: (U ++ '@' :: H) := by simp [hN1, hU1, hH1]
  have hparse := parse_prefix_two b._clients (N ++ '!' :: (U ++ '@' :: H)) C D hraw hC1 hD1 hD0
    hD4 hD3 hD2 hlen
  have hnpos : npos = 18446744073709551615 := rfl
  simp only [List.length_cons, List.length_append] at hlen
  have hbang : find (N ++ '!' :: (U ++ '@' :: H)) '!' 0 = N.length := by
    have := find_tok [] N (U ++ '@' :: H) '!' 0 rfl hN4
    simpa using this
  have hbn : N.length ≠ npos := by omega
  have htake : (N ++ '!' :: (U ++ '@' :: H)).take N.length = N := by simp
  rw [hbang] at hparse
  simp only [hbn, ne_eq, not_false_eq_true, if_true, htake] at hparse
  refine ⟨_, hparse, rfl, rfl, rfl, rfl, ?_⟩
  intro hfc
  have hfc2 : map_find b._clients N = none := hfc
  have ha1 : size_add N.length 1 = N.length + 1 := by
    rw [size_add_small _ _ (by omega)]
  have hat : find (N ++ '!' :: (U ++ '@' :: H)) '@' (N.length + 1) = N.length + 1 + U.length := by
    have := find_tok (N ++ ['!']) U H '@' (N.length + 1) (by simp) hU4
    simpa using this
  have hs1 : size_sub (size_sub (N.length + 1 + U.length) N.length) 1 = U.length := by
    rw [size_sub_small (N.length + 1 + U.length) N.length (by omega) (by omega),
      size_sub_small _ 1 (by omega) (by omega)]
    omega
  have hn : substr (N ++ '!' :: (U ++ '@' :: H)) 0 N.length = some N := by
    have := substr_tok [] N ('!' :: (U ++ '@' :: H)) 0 _ rfl rfl
    simpa using this
  have hu : substr (N ++ '!' :: (U ++ '@' :: H)) (N.length + 1) U.length = some U := by
    have := substr_tok (N ++ ['!']) U ('@' :: H) (N.length + 1) _ (by simp) rfl
    simpa using this
  have ha2 : size_add (N.length + 1 + U.length) 1 = N.length + 2 + U.length := by
    rw [size_add_small _ _ (by omega)]; omega
  have hh : substr (N ++ '!' :: (U ++ '@' :: H)) (N.length + 2 + U.length) npos = some H := by
    have := substr_end (N ++ '!' :: (U ++ ['@'])) H (N.length + 2 + U.length) npos
      (by simp; omega) (by omega)
    simpa using this
  refine ⟨Bot.add_client { b with clientObjs := b.clientObjs ++ [Client.new N U H] }
    b.clientObjs.length, b.clientObjs.length, ?_, ?_⟩
  · simp only [find_or_create_client_msg, hfc2, find_or_create_client_nuh, hfc, hbang, hbn,
      if_false, ha1, hat, hs1, hn, hu, ha2, hh, Option.some_bind]
  · simp [Bot.add_client, Bot.client, Bot.find_client, client_getD_append, Client.new,
      map_find_insert_self, hfc2]

/-- Witness for C1: the line `:nick!user@host JOIN #chan` on a bot with an empty registry. -/
theorem C1_parse_nick_user_host_witness :
    ∃ m, handle_message_parse (Bot.init "bot".toList [] false false false)._clients
          ([':'] ++ "nick".toList ++ ['!'] ++ "user".toList ++ ['@'] ++ "host".toList ++ [' ']
            ++ "JOIN".toList ++ [' '] ++ "#chan".toList) = some m
      ∧ m.source.name = "nick".toList ∧ m.command = "JOIN".toList
      ∧ m.source.destination = "#chan".toList ∧ m.args = []
      ∧ ((Bot.init "bot".toList [] false false false).find_client "nick".toList = none →
          ∃ b1 c, find_or_create_client_msg (Bot.init "bot".toList [] false false false) m = some (b1, c)
            ∧ (b1.client c).nick = "nick".toList ∧ (b1.client c).user = "user".toList
            ∧ (b1.client c).host = "host".toList
            ∧ b1.find_client "nick".toList = some c) :=
  C1_parse_nick_user_host (Bot.init "bot".toList [] false false false)
    "nick".toList "user".toList "host".toList "JOIN".toList "#chan".toList
    (by decide) (by decide) (by decide) (by decide) (by decide) (by decide)

theorem find_in_bounds (c : Char) (s : Str) (i : Nat) :
    find_in c s i = npos ∨ (i ≤ find_in c s i ∧ find_in c s i < i + s.length) := by
  induction s generalizing i with
  | nil => left; rfl
  | cons x xs ih =>
    by_cases hx : x = c
    · right; simp [find_in, hx]
    · rcases ih (i + 1) with h | h
      · left; simp [find_in, hx, h]
      · right; simp [find_in, hx]; omega

theorem find_bounds (s : Str) (c : Char) (pos : Nat) :
    find s c pos = npos ∨ (pos ≤ find s c pos ∧ find s c pos < s.length) := by
  rcases find_in_bounds c (s.drop pos) pos with h | h
  · left; exact h
  · right
    simp only [List.length_drop] at h
    unfold find
    omega

theorem params_line_head (ts : List Str) (rest : Str) :
    ∃ X, params_line ts rest = ' ' :: X := by
  cases ts with
  | nil => exact ⟨_, rfl⟩
  | cons t ts => exact ⟨_, rfl⟩

theorem str_at_head_ne (pre t X : Str) (pos : Nat) (hp : pos = pre.length)
    (ht : t.head? ≠ some ':') :
    ∃ ch, str_at (pre ++ (t ++ ' ' :: X)) pos = some ch ∧ ch ≠ ':' := by
  cases t with
  | nil => exact ⟨' ', str_at_tok pre X ' ' pos hp, by decide⟩
  | cons x xs =>
    refine ⟨x, ?_, fun e => ht (by simp [e])⟩
    have := str_at_tok pre (xs ++ ' ' :: X) x pos hp
    simpa using this

theorem args_loop_params (rest : Str) (ts : List Str) :
    ∀ (pre : Str) (acc : List Str) (fuel : Nat),
      (∀ t ∈ ts, ' ' ∉ t ∧ t.head? ≠ some ':') →
      (pre ++ params_line ts rest).length < npos →
      ts.length < fuel →
      args_loop (pre ++ params_line ts rest) fuel pre.length acc = some (acc ++ ts ++ [rest]) := by
  have hnpos : npos = 18446744073709551615 := rfl
  induction ts with
  | nil =>
    intro pre acc fuel _ hlen hfuel
    obtain ⟨f, rfl⟩ : ∃ f, fuel = f + 1 := ⟨fuel - 1, by simp at hfuel; omega⟩
    simp only [params_line, List.length_append, List.length_cons] at hlen
    have h1 : pre.length ≠ npos := by omega
    have ha1 : size_add pre.length 1 = pre.length + 1 := by
      rw [size_add_small _ _ (by omega)]
    have ha2 : size_add (pre.length + 1) 1 = pre.length + 2 := by
      rw [size_add_small _ _ (by omega)]
    have hat : str_at (pre ++ ' ' :: ':' :: rest) (pre.length + 1) = some ':' := by
      have := str_at_tok (pre ++ [' ']) rest ':' (pre.length + 1) (by simp)
      simpa using this
    have hsub : substr (pre ++ ' ' :: ':' :: rest) (pre.length + 2) npos = some rest := by
      have := substr_end (pre ++ [' ', ':']) rest (pre.length + 2) npos (by simp) (by omega)
      simpa using this
    simp [args_loop, params_line, h1, ha1, ha2, hat, hsub]
  | cons t ts ih =>
    intro pre acc fuel hts hlen hfuel
    obtain ⟨f, rfl⟩ : ∃ f, fuel = f + 1 := ⟨fuel - 1, by simp at hfuel; omega⟩
    obtain ⟨X, hX⟩ := params_line_head ts rest
    have ht := hts t (by simp)
    have hlen2 := hlen
    simp only [params_line, hX, List.length_append, List.length_cons] at hlen2
    have h1 : pre.length ≠ npos := by omega
    have ha1 : size_add pre.length 1 = pre.length + 1 := by
      rw [size_add_small _ _ (by omega)]
    obtain ⟨ch, hch, hchne⟩ := str_at_head_ne (pre ++ [' ']) t X (pre.length + 1) (by simp) ht.2
    have hline : pre ++ params_line (t :: ts) rest = (pre ++ [' ']) ++ (t ++ ' ' :: X) := by
      simp [params_line, hX]
    have hf : find ((pre ++ [' ']) ++ (t ++ ' ' :: X)) ' ' (pre.length + 1)
        = pre.length + 1 + t.length :=
      find_tok (pre ++ [' ']) t X ' ' (pre.length + 1) (by simp) ht.1
    have hsub : size_sub (pre.length + 1 + t.length) (pre.length + 1) = t.length := by
      rw [size_sub_small _ _ (by omega) (by omega)]; omega
    have hs : substr ((pre ++ [' ']) ++ (t ++ ' ' :: X)) (pre.length + 1) t.length = some t :=
      substr_tok (pre ++ [' ']) t (' ' :: X) (pre.length + 1) _ (by simp) rfl
    have hrec := ih (pre ++ ' ' :: t) (acc ++ [t]) f (fun u hu => hts u (by simp [hu]))
      (by simpa [params_line] using hlen) (by simp at hfuel; omega)
    have hline2 : (pre ++ [' ']) ++ (t ++ ' ' :: X) = (pre ++ ' ' :: t) ++ params_line ts rest := by
      simp [hX]
    have hl : (pre ++ ' ' :: t).length = pre.length + 1 + t.length := by simp; omega
    rw [hline]
    simp only [args_loop, h1, ha1, hch, hchne, hf, hsub, hs, if_false]
    rw [hline2, ← hl, hrec]
    simp

theorem params_line_getLast (rest : Str) (ts : List Str) :
    ∀ pre : Str, (pre ++ params_line ts rest).getLast? = (':' :: rest).getLast? := by
  induction ts with
  | nil =>
    intro pre
    have : pre ++ params_line [] rest = (pre ++ [' ']) ++ (':' :: rest) := by simp [params_line]
    rw [this, List.getLast?_append, List.getLast?_eq_getLast _ (List.cons_ne_nil _ _)]
    rfl
  | cons t ts ih =>
    intro pre
    have : pre ++ params_line (t :: ts) rest = (pre ++ ' ' :: t) ++ params_line ts rest := by
      simp [params_line]
    rw [this, ih]

theorem strip_last_params (pre rest : Str) (ts : List Str) (c : Char) (hc : c ≠ ':')
    (hrest : rest.getLast? ≠ some c) :
    strip_last (pre ++ params_line ts rest) c = some (pre ++ params_line ts rest) := by
  have hl := params_line_getLast rest ts pre
  cases hr : rest.getLast? with
  | none =>
    have : rest = [] := List.getLast?_eq_none_iff.mp hr
    subst this
    exact strip_last_keep _ c ':' (by rw [hl]; rfl) (fun e => hc e.symm)
  | some x =>
    have hx : x ≠ c := fun e => hrest (by rw [hr, e])
    refine strip_last_keep _ c x ?_ hx
    rw [hl]
    cases rest with
    | nil => simp at hr
    | cons r rs => simpa [List.getLast?_cons_cons] using hr

theorem find_empty (c : Char) (pos : Nat) : find [] c pos = npos := by
  simp [find, find_in]

/-- C2 (amended): for a line `CMD t1 ... tn :rest` without a prefix (CMD and each
ti free of spaces and not starting with `:`, rest arbitrary but not ending in
CR or LF), the parser drops the marker and keeps the rest of the line as one
final value, and the values `t1, ..., tn, rest` are split over two fields: the
first one is the event's destination, the others are its args, in order. -/
theorem C2_destination_then_args (cl : List (Str × Nat)) (CMD : Str) (ts : List Str) (rest : Str)
    (hCMD : ' ' ∉ CMD ∧ CMD.head? ≠ some ':')
    (hts : ∀ t ∈ ts, ' ' ∉ t ∧ t.head? ≠ some ':')
    (hrest : rest.getLast? ≠ some '\n' ∧ rest.getLast? ≠ some '\r')
    (hlen : (CMD ++ params_line ts rest).length < npos) :
    ∃ m, handle_message_parse cl (CMD ++ params_line ts rest) = some m
      ∧ m.command = CMD ∧ m.source.raw = []
      ∧ m.source.destination :: m.args = ts ++ [rest] := by
  have hnpos : npos = 18446744073709551615 := rfl
  have hs1 := strip_last_params CMD rest ts '\n' (by decide) hrest.1
  have hs2 := strip_last_params CMD rest ts '\r' (by decide) hrest.2
  obtain ⟨X, hX⟩ := params_line_head ts rest
  obtain ⟨c0, hc0, hc0ne⟩ := str_at_head_ne [] CMD X 0 rfl hCMD.2
  have hlen2 := hlen
  simp only [hX, List.length_append, List.length_cons] at hlen2
  have hf0 : find (CMD ++ ' ' :: X) ' ' 0 = CMD.length := by
    have := find_tok [] CMD X ' ' 0 rfl hCMD.1
    simpa using this
  have hsub0 : size_sub CMD.length 0 = CMD.length := by
    rw [size_sub_small _ _ (by omega) (by omega)]; omega
  have hcmd : substr (CMD ++ ' ' :: X) 0 CMD.length = some CMD := by
    have := substr_tok [] CMD (' ' :: X) 0 _ rfl rfl
    simpa using this
  have ha1 : size_add CMD.length 1 = CMD.length + 1 := by
    rw [size_add_small _ _ (by omega)]
  cases ts with
  | nil =>
    simp only [params_line] at hs1 hs2 hX hlen ⊢
    have hXe : X = ':' :: rest := by simpa using hX.symm
    subst hXe
    simp only [List.length_cons] at hlen2
    -- the destination token starts with the marker
    have hv : ∃ n, size_sub (find (CMD ++ ' ' :: ':' :: rest) ' ' (CMD.length + 1)) (CMD.length + 1)
        = n + 1 := by
      have hd : (CMD ++ ' ' :: ':' :: rest).drop (CMD.length + 1) = ':' :: rest := by
        have : CMD ++ ' ' :: ':' :: rest = (CMD ++ [' ']) ++ (':' :: rest) := by simp
        rw [this, List.drop_append_of_le_length (by simp)]
        simp
      have hfi : find (CMD ++ ' ' :: ':' :: rest) ' ' (CMD.length + 1)
          = find_in ' ' rest (CMD.length + 2) := by
        simp [find, hd, find_in]
      rw [hfi]
      rcases find_in_bounds ' ' rest (CMD.length + 2) with h | h
      · rw [h, size_sub_small _ _ (by omega) (by omega)]
        exact ⟨npos - (CMD.length + 1) - 1, by omega⟩
      · rw [size_sub_small _ _ (by omega) (by omega)]
        exact ⟨find_in ' ' rest (CMD.length + 2) - (CMD.length + 1) - 1, by omega⟩
    obtain ⟨n, hn⟩ := hv
    have hd0 : substr (CMD ++ ' ' :: ':' :: rest) (CMD.length + 1) (n + 1)
        = some (':' :: rest.take n) := by
      have h1 : (CMD ++ ' ' :: ':' :: rest).drop (CMD.length + 1) = ':' :: rest := by
        have : CMD ++ ' ' :: ':' :: rest = (CMD ++ [' ']) ++ (':' :: rest) := by simp
        rw [this, List.drop_append_of_le_length (by simp)]
        simp
      simp [substr, h1]
    have hat : str_at (':' :: rest.take n) 0 = some ':' := str_at_tok [] _ ':' 0 rfl
    have ha2 : size_add (CMD.length + 1) 1 = CMD.length + 2 := by
      rw [size_add_small _ _ (by omega)]
    have hdst : substr (CMD ++ ' ' :: ':' :: rest) (CMD.length + 2) npos = some rest := by
      have := substr_end (CMD ++ [' ', ':']) rest (CMD.length + 2) npos (by simp) (by omega)
      simpa using this
    simp only [List.nil_append] at hc0
    have hp := handle_message_parse_steps cl _ _ (CMD ++ ' ' :: ':' :: rest) c0 ':' [] [] CMD
      (':' :: rest.take n) rest [] 0 (CMD.length + 1) hs1 hs2 hc0
      (by rw [if_neg hc0ne])
      (by rw [if_neg hc0ne])
      (by simp [find_empty])
      (by rw [hf0, hsub0, hcmd])
      (by rw [hf0, ha1])
      (by rw [hn, hd0])
      hat
      (by rw [if_pos rfl, ha2, hdst])
      (by rw [if_pos rfl]; exact args_loop_npos _ _ _)
    exact ⟨_, hp, rfl, rfl, by simp⟩
  | cons t ts =>
    have ht := hts t (by simp)
    obtain ⟨Y, hY⟩ := params_line_head ts rest
    simp only [params_line] at hs1 hs2 hX hlen ⊢
    have hXe : X = t ++ params_line ts rest := by simpa using hX.symm
    subst hXe
    have hlen3 := hlen
    simp only [hY, List.length_append, List.length_cons] at hlen3
    have hline : CMD ++ ' ' :: (t ++ params_line ts rest) = (CMD ++ [' ']) ++ (t ++ ' ' :: Y) := by
      simp [hY]
    have hf1 : find (CMD ++ ' ' :: (t ++ params_line ts rest)) ' ' (CMD.length + 1)
        = CMD.length + 1 + t.length := by
      rw [hline]
      exact find_tok (CMD ++ [' ']) t Y ' ' (CMD.length + 1) (by simp) ht.1
    have hsub1 : size_sub (CMD.length + 1 + t.length) (CMD.length + 1) = t.length := by
      rw [size_sub_small _ _ (by omega) (by omega)]; omega
    have hd0 : substr (CMD ++ ' ' :: (t ++ params_line ts rest)) (CMD.length + 1) t.length
        = some t := by
      rw [hline]
      exact substr_tok (CMD ++ [' ']) t (' ' :: Y) (CMD.length + 1) _ (by simp) rfl
    obtain ⟨d, hd, hdne⟩ : ∃ d, str_at t 0 = some d ∧ d ≠ ':' := by
      cases t with
      | nil => exact ⟨Char.ofNat 0, rfl, by decide⟩
      | cons x xs => exact ⟨x, str_at_tok [] xs x 0 rfl, fun e => ht.2 (by simp [e])⟩
    have hloop := args_loop_params rest ts (CMD ++ ' ' :: t) []
      ((CMD ++ ' ' :: (t ++ params_line ts rest)).length + 2)
      (fun u hu => hts u (by simp [hu])) (by simpa using hlen)
      (by simp only [hY, List.length_append, List.length_cons]
          have := List.length_pos_of_mem (List.mem_cons_self ' ' Y)
          have hsum : ts.length ≤ Y.length + 1 := by
            have h2 : (params_line ts rest).length = Y.length + 1 := by rw [hY]; simp
            have h3 : ts.length ≤ (params_line ts rest).length := by
              clear * -
              induction ts with
              | nil => simp
              | cons u us ih => simp [params_line]; omega
            omega
          omega)
    have hl : (CMD ++ ' ' :: t).length = CMD.length + 1 + t.length := by simp; omega
    have hline3 : (CMD ++ ' ' :: t) ++ params_line ts rest
        = CMD ++ ' ' :: (t ++ params_line ts rest) := by simp
    rw [hline3, hl] at hloop
    simp only [List.nil_append] at hc0
    have hp := handle_message_parse_steps cl _ _ (CMD ++ ' ' :: (t ++ params_line ts rest)) c0 d
      [] [] CMD t t (ts ++ [rest]) 0 (CMD.length + 1) hs1 hs2 hc0
      (by rw [if_neg hc0ne])
      (by rw [if_neg hc0ne])
      (by simp [find_empty])
      (by rw [hf0, hsub0, hcmd])
      (by rw [hf0, ha1])
      (by rw [hf1, hsub1, hd0])
      hd
      (by rw [if_neg hdne])
      (by rw [if_neg hdne, hf1, hloop]; simp)
    exact ⟨_, hp, rfl, rfl, by simp⟩

/-- Witness for C2 (amended): the line `CMD a b :trailing with spaces`. -/
theorem C2_destination_then_args_witness :
    ∃ m, handle_message_parse []
          ("CMD".toList ++ params_line ["a".toList, "b".toList] "trailing with spaces".toList)
          = some m
      ∧ m.command = "CMD".toList ∧ m.source.raw = []
      ∧ m.source.destination :: m.args
          = ["a".toList, "b".toList] ++ ["trailing with spaces".toList] :=
  C2_destination_then_args [] "CMD".toList ["a".toList, "b".toList]
    "trailing with spaces".toList (by decide) (by decide) (by decide) (by decide)

/-- C2 (counterexample): parsing `CMD a b :trailing with spaces` does not give
args `[a, b, trailing with spaces]`; the first parameter `a` becomes the
destination and the args are `[b, trailing with spaces]`. -/
theorem C2_args_counterexample :
    (handle_message_parse [] "CMD a b :trailing with spaces".toList).map
        (fun m => (m.source.destination, m.args))
      = some ("a".toList, ["b".toList, "trailing with spaces".toList])
    ∧ (handle_message_parse [] "CMD a b :trailing with spaces".toList).map (fun m => m.args)
      ≠ some ["a".toList, "b".toList, "trailing with spaces".toList] := by
  decide

/-! ## The parser is total on non-empty stripped lines -/

theorem substr_some (s : Str) (pos n : Nat) (h : pos ≤ s.length) :
    substr s pos n = some ((s.drop pos).take n) := by
  simp [substr, Nat.not_lt.mpr h]

theorem str_at_zero (s : Str) : ∃ c, str_at s 0 = some c := by
  cases s with
  | nil => exact ⟨Char.ofNat 0, rfl⟩
  | cons x xs => exact ⟨x, str_at_tok [] xs x 0 rfl⟩

theorem str_at_zero_colon (s : Str) (h : str_at s 0 = some ':') : s ≠ [] := by
  intro e
  subst e
  have h2 : str_at [] 0 = some (Char.ofNat 0) := rfl
  rw [h2] at h
  exact absurd h (by decide)

theorem next_pos_le (s : Str) (c : Char) (pos : Nat) (hlen : s.length < npos) :
    size_add (find s c pos) 1 ≤ s.length := by
  have hnpos : npos = 18446744073709551615 := rfl
  rcases find_bounds s c pos with h | h
  · rw [h]
    have : size_add npos 1 = 0 := by decide
    omega
  · rw [size_add_small _ _ (by omega)]
    omega

theorem str_at_some (s : Str) (i : Nat) (h : i ≤ s.length) : ∃ c, str_at s i = some c := by
  unfold str_at
  by_cases h1 : i < s.length
  · rw [if_pos h1]
    exact ⟨s.get ⟨i, h1⟩, List.get?_eq_get h1⟩
  · rw [if_neg h1, if_pos (by omega)]
    exact ⟨_, rfl⟩

theorem str_at_colon_lt (s : Str) (i : Nat) (h : str_at s i = some ':') : i < s.length := by
  unfold str_at at h
  by_cases h1 : i < s.length
  · exact h1
  · rw [if_neg h1] at h
    by_cases h2 : i = s.length
    · rw [if_pos h2] at h
      exact absurd h (by decide)
    · rw [if_neg h2] at h
      exact absurd h (by simp)

theorem args_loop_total (line : Str) (hlen : line.length < npos) :
    ∀ (fuel p2 : Nat) (acc : List Str),
      (p2 = npos ∨ (p2 < line.length ∧ line.length - p2 < fuel)) → 0 < fuel →
      ∃ r, args_loop line fuel p2 acc = some r := by
  have hnpos : npos = 18446744073709551615 := rfl
  intro fuel
  induction fuel with
  | zero => intro p2 acc _ h0; exact absurd h0 (by decide)
  | succ f ih =>
    intro p2 acc hp _
    rcases hp with hp | ⟨hp, hf⟩
    · exact ⟨acc, by rw [hp]; exact args_loop_npos _ _ _⟩
    · have h1 : p2 ≠ npos := by omega
      have ha1 : size_add p2 1 = p2 + 1 := by rw [size_add_small _ _ (by omega)]
      obtain ⟨ch, hch⟩ := str_at_some line (p2 + 1) (by omega)
      by_cases hc : ch = ':'
      · subst hc
        have hlt := str_at_colon_lt line (p2 + 1) hch
        have ha2 : size_add (p2 + 1) 1 = p2 + 2 := by rw [size_add_small _ _ (by omega)]
        refine ⟨acc ++ [(line.drop (p2 + 2)).take npos], ?_⟩
        simp only [args_loop, h1, if_false, ha1, hch, if_true, ha2,
          substr_some line (p2 + 2) npos (by omega)]
      · have hs := substr_some line (p2 + 1) (size_sub (find line ' ' (p2 + 1)) (p2 + 1)) (by omega)
        have hrec : ∃ r, args_loop line f (find line ' ' (p2 + 1))
            (acc ++ [(line.drop (p2 + 1)).take (size_sub (find line ' ' (p2 + 1)) (p2 + 1))])
            = some r := by
          rcases find_bounds line ' ' (p2 + 1) with h | h
          · rw [h]
            cases f with
            | zero => omega
            | succ g => exact ⟨_, args_loop_npos _ _ _⟩
          · exact ih _ _ (Or.inr ⟨h.2, by omega⟩) (by omega)
        obtain ⟨r, hr⟩ := hrec
        refine ⟨r, ?_⟩
        simp only [args_loop, h1, if_false, ha1, hch, hc, hs, hr]

theorem handle_message_parse_total_strip (cl : List (Str × Nat)) (line0 line1 line : Str)
    (h1 : strip_last line0 '\n' = some line1) (h2 : strip_last line1 '\r' = some line)
    (hlen : line.length < npos) :
    ∃ m, handle_message_parse cl line0 = some m ∧ m.raw = line := by
  have hnpos : npos = 18446744073709551615 := rfl
  obtain ⟨c0, hc0⟩ := str_at_zero line
  have hne : c0 = ':' → 1 ≤ line.length := by
    intro e
    have := str_at_colon_lt line 0 (e ▸ hc0)
    omega
  obtain ⟨sraw, hsraw⟩ : ∃ sraw,
      (if c0 = ':' then substr line 1 (size_sub (find line ' ' 0) 1) else some []) = some sraw := by
    by_cases e : c0 = ':'
    · rw [if_pos e, substr_some line 1 _ (hne e)]; exact ⟨_, rfl⟩
    · rw [if_neg e]; exact ⟨_, rfl⟩
  have hp1 : (if c0 = ':' then size_add (find line ' ' 0) 1 else 0) ≤ line.length := by
    by_cases e : c0 = ':'
    · rw [if_pos e]; exact next_pos_le line ' ' 0 hlen
    · rw [if_neg e]; omega
  obtain ⟨name, hname⟩ : ∃ name,
      (if find sraw '!' 0 ≠ npos then substr sraw 0 (find sraw '!' 0) else some sraw)
        = some name := by
    by_cases e : find sraw '!' 0 ≠ npos
    · rw [if_pos e, substr_some sraw 0 _ (by omega)]; exact ⟨_, rfl⟩
    · rw [if_neg e]; exact ⟨_, rfl⟩
  have hq1 := next_pos_le line ' ' (if c0 = ':' then size_add (find line ' ' 0) 1 else 0) hlen
  obtain ⟨d0, hd0⟩ := str_at_zero ((line.drop
    (size_add (find line ' ' (if c0 = ':' then size_add (find line ' ' 0) 1 else 0)) 1)).take
    (size_sub (find line ' '
      (size_add (find line ' ' (if c0 = ':' then size_add (find line ' ' 0) 1 else 0)) 1))
      (size_add (find line ' ' (if c0 = ':' then size_add (find line ' ' 0) 1 else 0)) 1)))
  generalize hq : size_add (find line ' ' (if c0 = ':' then size_add (find line ' ' 0) 1 else 0)) 1
    = q1 at hq1 hd0
  generalize hp : (if c0 = ':' then size_add (find line ' ' 0) 1 else 0) = p1 at hp1 hq
  obtain ⟨dest, hdest⟩ : ∃ dest,
      (if d0 = ':' then substr line (size_add q1 1) npos
        else some ((line.drop q1).take (size_sub (find line ' ' q1) q1))) = some dest := by
    by_cases e : d0 = ':'
    · have hne2 := str_at_zero_colon _ (e ▸ hd0)
      have hlt : q1 < line.length := by
        by_contra hge
        exact hne2 (by rw [List.drop_of_length_le (by omega)]; exact List.take_nil)
      rw [if_pos e, size_add_small _ _ (by omega), substr_some line (q1 + 1) _ (by omega)]
      exact ⟨_, rfl⟩
    · rw [if_neg e]; exact ⟨_, rfl⟩
  obtain ⟨args, hargs⟩ := args_loop_total line hlen (line.length + 2)
    (if d0 = ':' then npos else find line ' ' q1) []
    (by by_cases e : d0 = ':'
        · rw [if_pos e]; exact Or.inl rfl
        · rw [if_neg e]
          rcases find_bounds line ' ' q1 with h | h
          · exact Or.inl h
          · exact Or.inr ⟨h.2, by omega⟩)
    (by omega)
  exact ⟨_, handle_message_parse_steps cl line0 line1 line c0 d0 sraw name _ _ dest args p1 q1
    h1 h2 hc0 hsraw hp hname (substr_some line p1 _ hp1) hq (substr_some line q1 _ hq1) hd0
    hdest hargs, rfl⟩

theorem handle_message_parse_total (cl : List (Str × Nat)) (line : Str)
    (h1 : strip_last line '\n' = some line) (h2 : strip_last line '\r' = some line)
    (hlen : line.length < npos) :
    ∃ m, handle_message_parse cl line = some m ∧ m.raw = line :=
  handle_message_parse_total_strip cl line line line h1 h2 hlen

theorem strip_last_stable (L : Str) (c : Char) (hne : L ≠ []) (h : c ∉ L) :
    strip_last L c = some L := by
  have := strip_last_append_ne [] L c hne h
  simpa using this

theorem handle_message_parse_of_strip (cl : List (Str × Nat)) (line0 line1 line : Str)
    (h1 : strip_last line0 '\n' = some line1) (h2 : strip_last line1 '\r' = some line)
    (h3 : strip_last line '\n' = some line) (h4 : strip_last line '\r' = some line) :
    handle_message_parse cl line0 = handle_message_parse cl line := by
  simp only [handle_message_parse, h1, h2, h3, h4, Option.bind_eq_bind, Option.some_bind]

/-- C10: for a non-empty line L without CR or LF, parsing L followed by CR LF,
by LF or by CR gives the same result as parsing L itself; and that result is
an event (whose raw text is L) whenever L is shorter than `npos`. -/
theorem C10_trailing_crlf_ignored (cl : List (Str × Nat)) (L : Str)
    (hne : L ≠ []) (hcr : '\r' ∉ L) (hlf : '\n' ∉ L) :
    handle_message_parse cl (L ++ ['\r', '\n']) = handle_message_parse cl L
    ∧ handle_message_parse cl (L ++ ['\n']) = handle_message_parse cl L
    ∧ handle_message_parse cl (L ++ ['\r']) = handle_message_parse cl L
    ∧ (L.length < npos → ∃ m, handle_message_parse cl L = some m ∧ m.raw = L) := by
  have h3 := strip_last_stable L '\n' hne hlf
  have h4 := strip_last_stable L '\r' hne hcr
  refine ⟨?_, ?_, ?_, fun hlen => handle_message_parse_total cl L h3 h4 hlen⟩
  · have e : L ++ ['\r', '\n'] = (L ++ ['\r']) ++ ['\n'] := by simp
    rw [e]
    exact handle_message_parse_of_strip cl _ _ L (strip_last_drop _ _) (strip_last_drop _ _) h3 h4
  · exact handle_message_parse_of_strip cl _ _ L (strip_last_drop _ _) h4 h3 h4
  · have hk : strip_last (L ++ ['\r']) '\n' = some (L ++ ['\r']) :=
      strip_last_keep _ '\n' '\r' (by simp) (by decide)
    exact handle_message_parse_of_strip cl _ _ L hk (strip_last_drop _ _) h3 h4

/-- Witness for C10: the line `PING`. -/
theorem C10_trailing_crlf_ignored_witness :
    handle_message_parse [] ("PING".toList ++ ['\r', '\n']) = handle_message_parse [] "PING".toList
    ∧ handle_message_parse [] ("PING".toList ++ ['\n']) = handle_message_parse [] "PING".toList
    ∧ handle_message_parse [] ("PING".toList ++ ['\r']) = handle_message_parse [] "PING".toList
    ∧ ("PING".toList.length < npos →
        ∃ m, handle_message_parse [] "PING".toList = some m ∧ m.raw = "PING".toList) :=
  C10_trailing_crlf_ignored [] "PING".toList (by decide) (by decide) (by decide)

/-! ## Identity-query replies -/

/-- C7: an extended reply (354) whose field count is not 7 or whose first field
is not the token `524` leaves the whole bot state unchanged, and so does a
legacy reply (352) whose field count is not 7; `524` is the token that
`handle_join` puts in its own extended WHO request. -/
theorem C7_foreign_reply_is_noop (b : Bot) (m : Message) :
    ((m.args.length ≠ 7 ∨ m.args.getD 0 [] ≠ "524".toList) → handle_whox_reply b m = b)
    ∧ (m.args.length ≠ 7 → handle_who_reply b m = b)
    ∧ ((Bot.init "bot".toList [] true true true).run
          [Event.line ":bot!u@h JOIN #a".toList]).map (fun b1 => b1._server)
        = some (some ["WHO #a %cnuhaft,".toList ++ "524".toList]) := by
  refine ⟨?_, ?_, by decide⟩
  · intro h
    unfold handle_whox_reply
    by_cases h7 : m.args.length ≠ 7
    · rw [if_pos h7]
    · rw [if_neg h7]
      rcases h with h | h
      · exact absurd h h7
      · rw [if_pos h]
  · intro h
    unfold handle_who_reply
    rw [if_pos h]

/-- Witness for C7: a seven-field 354 reply carrying the token `525`, and a
six-field 352 reply, leave a bot with an empty graph as it is. -/
theorem C7_foreign_reply_is_noop_witness :
    handle_whox_reply (Bot.init "bot".toList [] true true true)
        { raw := [], command := "354".toList
          source := { raw := "srv".toList, name := "srv".toList, client := none
                      destination := "bot".toList, reply_func := [], error_func := [] }
          args := ["525".toList, "#a".toList, "user".toList, "host".toList, "nick".toList,
                   "H@".toList, "acct".toList] }
      = Bot.init "bot".toList [] true true true
    ∧ handle_who_reply (Bot.init "bot".toList [] true true true)
        { raw := [], command := "352".toList
          source := { raw := "srv".toList, name := "srv".toList, client := none
                      destination := "bot".toList, reply_func := [], error_func := [] }
          args := ["#a".toList, "user".toList, "host".toList, "srv".toList, "nick".toList,
                   "H@".toList] }
      = Bot.init "bot".toList [] true true true :=
  ⟨(C7_foreign_reply_is_noop _ _).1 (Or.inr (by decide)),
   (C7_foreign_reply_is_noop _ _).2.1 (by decide)⟩

/-! ## Heap lemmas -/

theorem getD_set (l : List α) (i j : Nat) (x d : α) :
    (l.set i x).getD j d = if i = j ∧ i < l.length then x else l.getD j d := by
  simp only [List.getD_eq_getElem?_getD, List.getElem?_set]
  by_cases h : i = j
  · subst h
    by_cases h2 : i < l.length
    · simp [h2]
    · simp [h2, List.getElem?_eq_none (Nat.le_of_not_lt h2)]
  · simp [h]

theorem getD_append_one (l : List α) (x d : α) (j : Nat) :
    (l ++ [x]).getD j d = if j = l.length then x else l.getD j d := by
  simp only [List.getD_eq_getElem?_getD]
  by_cases h : j < l.length
  · rw [List.getElem?_append_left h, if_neg (by omega)]
  · rw [List.getElem?_append_right (by omega)]
    by_cases h2 : j = l.length
    · simp [h2]
    · rw [if_neg h2, List.getElem?_eq_none (by simp; omega), List.getElem?_eq_none (by omega)]

theorem map_find_none_find (m : List (Str × Nat)) (k : Str) (h : map_find m k = none) :
    m.find? (fun e => cistring_is_equal e.1 k) = none := by
  cases hf : m.find? (fun e => cistring_is_equal e.1 k) with
  | none => rfl
  | some e => simp [map_find, hf] at h

theorem map_insert_of_none (m : List (Str × Nat)) (k : Str) (v : Nat) (h : map_find m k = none) :
    map_insert m k v = m ++ [(k, v)] := by
  simp [map_insert, h]

theorem map_insert_of_some (m : List (Str × Nat)) (k : Str) (v w : Nat)
    (h : map_find m k = some w) : map_insert m k v = m := by
  simp [map_insert, h]

theorem who_flags_spec (p : Nat) (flags : Str) :
    ∀ b : Bot, p < b.membershipObjs.length → (b.membership p).modes.Nodup →
      (who_flags b p flags).clientObjs = b.clientObjs
      ∧ (who_flags b p flags).channelObjs = b.channelObjs
      ∧ (who_flags b p flags)._clients = b._clients
      ∧ (who_flags b p flags)._channels = b._channels
      ∧ (who_flags b p flags)._supported = b._supported
      ∧ (who_flags b p flags).membershipObjs.length = b.membershipObjs.length
      ∧ ((who_flags b p flags).membership p).client = (b.membership p).client
      ∧ ((who_flags b p flags).membership p).channel = (b.membership p).channel
      ∧ ((who_flags b p flags).membership p).modes.Nodup
      ∧ (∀ x, x ∈ ((who_flags b p flags).membership p).modes ↔
          (x ∈ (b.membership p).modes
            ∨ (x ≠ Char.ofNat 0 ∧ ∃ c ∈ flags, b.get_prefix_mode c = x))) := by
  induction flags with
  | nil => intro b _ hn; simp [who_flags, hn]
  | cons f fs ih =>
    intro b hp hn
    by_cases hc : (b.get_prefix_mode f ≠ Char.ofNat 0
        && !(b.membership p).has_mode (b.get_prefix_mode f)) = true
    · have hstep : who_flags b p (f :: fs)
          = who_flags (b.setMembership p { b.membership p with
              modes := (b.membership p).modes ++ [b.get_prefix_mode f] }) p fs := by
        simp only [who_flags, List.foldl_cons, hc, if_true]
      have hp2 : p < (b.setMembership p { b.membership p with
              modes := (b.membership p).modes ++ [b.get_prefix_mode f] }).membershipObjs.length := by
        simpa [Bot.setMembership] using hp
      have hm : (b.setMembership p { b.membership p with
              modes := (b.membership p).modes ++ [b.get_prefix_mode f] }).membership p
          = { b.membership p with modes := (b.membership p).modes ++ [b.get_prefix_mode f] } := by
        simp [Bot.setMembership, Bot.membership, getD_set, hp]
      have hg : ∀ c, (b.setMembership p { b.membership p with
              modes := (b.membership p).modes ++ [b.get_prefix_mode f] }).get_prefix_mode c
          = b.get_prefix_mode c := fun c => rfl
      have hc1 : b.get_prefix_mode f ≠ Char.ofNat 0 := by
        simp at hc; exact hc.1
      have hc2 : b.get_prefix_mode f ∉ (b.membership p).modes := by
        simp [Membership.has_mode] at hc; exact hc.2
      have hn2 : ((b.membership p).modes ++ [b.get_prefix_mode f]).Nodup := by
        rw [List.nodup_append]
        refine ⟨hn, by simp, ?_⟩
        intro a ha hb
        simp at hb
        exact hc2 (hb ▸ ha)
      have := ih _ hp2 (by rw [hm]; exact hn2)
      rw [hstep]
      rw [hm] at this
      obtain ⟨h1, h2, h3, h4, h5, h6, h7, h8, h9, h10⟩ := this
      refine ⟨h1, h2, h3, h4, h5, by simpa [Bot.setMembership] using h6, h7, h8, h9, ?_⟩
      intro x
      rw [h10 x]
      simp only [hg, List.mem_append, List.mem_singleton, List.mem_cons, List.not_mem_nil,
        or_false]
      constructor
      · rintro ((h | h) | ⟨hx, c, hcm, hcx⟩)
        · exact Or.inl h
        · exact Or.inr ⟨h ▸ hc1, f, Or.inl rfl, h.symm⟩
        · exact Or.inr ⟨hx, c, Or.inr hcm, hcx⟩
      · rintro (h | ⟨hx, c, hcm | hcm, hcx⟩)
        · exact Or.inl (Or.inl h)
        · exact Or.inl (Or.inr (by rw [← hcx, hcm]))
        · exact Or.inr ⟨hx, c, hcm, hcx⟩
    · have hstep : who_flags b p (f :: fs) = who_flags b p fs := by
        simp only [who_flags, List.foldl_cons, hc]
        rfl
      rw [hstep]
      obtain ⟨h1, h2, h3, h4, h5, h6, h7, h8, h9, h10⟩ := ih b hp hn
      refine ⟨h1, h2, h3, h4, h5, h6, h7, h8, h9, ?_⟩
      intro x
      rw [h10 x]
      have hc3 : b.get_prefix_mode f ≠ Char.ofNat 0 → b.get_prefix_mode f ∈ (b.membership p).modes := by
        simpa [Membership.has_mode] using hc
      simp only [List.mem_cons]
      constructor
      · rintro (h | ⟨hx, c, hcm, hcx⟩)
        · exact Or.inl h
        · exact Or.inr ⟨hx, c, Or.inr hcm, hcx⟩
      · rintro (h | ⟨hx, c, hcm | hcm, hcx⟩)
        · exact Or.inl h
        · subst hcm
          exact Or.inl (hcx ▸ hc3 (hcx ▸ hx))
        · exact Or.inr ⟨hx, c, hcm, hcx⟩

theorem find_or_create_channel_spec (b : Bot) (name : Str) :
    (find_or_create_channel b name).1.clientObjs = b.clientObjs
    ∧ (find_or_create_channel b name).1.membershipObjs = b.membershipObjs
    ∧ (find_or_create_channel b name).1._clients = b._clients
    ∧ (find_or_create_channel b name).1._supported = b._supported
    ∧ (find_or_create_channel b name).1._me = b._me
    ∧ (find_or_create_channel b name).1._nick = b._nick
    ∧ (find_or_create_channel b name).1.find_channel name
        = some (find_or_create_channel b name).2 := by
  unfold find_or_create_channel
  cases h : b.find_channel name with
  | some ch => simp [h]
  | none =>
    have h2 : map_find b._channels name = none := h
    simp [Bot.add_channel, Bot.find_channel, Bot.channel, getD_append_one,
      map_find_insert_self, h2]

theorem join_chan_fresh (b : Bot) (c ch : Nat) (hfm : b.find_membership c ch = none) :
    (b.join_chan c ch).2 = b.membershipObjs.length
    ∧ (b.join_chan c ch).1.membershipObjs = b.membershipObjs ++ [Membership.mk c ch []]
    ∧ (b.join_chan c ch).1.clientObjs = b.clientObjs.set c
        { b.client c with channels := (b.client c).channels ++ [b.membershipObjs.length] }
    ∧ (b.join_chan c ch).1.channelObjs = b.channelObjs.set ch
        { b.channel ch with members := (b.channel ch).members ++ [b.membershipObjs.length] }
    ∧ (b.join_chan c ch).1._clients = b._clients
    ∧ (b.join_chan c ch).1._channels = b._channels
    ∧ (b.join_chan c ch).1._supported = b._supported
    ∧ (b.join_chan c ch).1._me = b._me
    ∧ (b.join_chan c ch).1._nick = b._nick := by
  simp [Bot.join_chan, hfm, Bot.setClient, Bot.setChannel, Bot.client, Bot.channel]

/-- C6: on a state in which nick N is not registered, a legacy reply (352) with
the seven fields `[chan, user, host, server, N, flags, rest]` adds exactly one
client to the registry, with nick N and the given user and host, and gives it
exactly one Membership; that Membership is in the channel registered under
`chan`, and its standing flags are, each exactly once, the non-NUL values
`get_prefix_mode f` for the characters `f` of `flags`. -/
theorem C6_legacy_who_reply (b : Bot) (m : Message) (chan user host server N flags rest : Str)
    (hargs : m.args = [chan, user, host, server, N, flags, rest])
    (hN : b.find_client N = none) :
    (handle_who_reply b m)._clients = b._clients ++ [(N, b.clientObjs.length)]
    ∧ (handle_who_reply b m).clientObjs.length = b.clientObjs.length + 1
    ∧ (handle_who_reply b m).find_client N = some b.clientObjs.length
    ∧ ((handle_who_reply b m).client b.clientObjs.length).nick = N
    ∧ ((handle_who_reply b m).client b.clientObjs.length).user = user
    ∧ ((handle_who_reply b m).client b.clientObjs.length).host = host
    ∧ ((handle_who_reply b m).client b.clientObjs.length).channels = [b.membershipObjs.length]
    ∧ (handle_who_reply b m).membershipObjs.length = b.membershipObjs.length + 1
    ∧ ((handle_who_reply b m).membership b.membershipObjs.length).client = b.clientObjs.length
    ∧ (handle_who_reply b m).find_channel chan
        = some ((handle_who_reply b m).membership b.membershipObjs.length).channel
    ∧ ((handle_who_reply b m).membership b.membershipObjs.length).modes.Nodup
    ∧ ∀ x, x ∈ ((handle_who_reply b m).membership b.membershipObjs.length).modes ↔
        (x ≠ Char.ofNat 0 ∧ ∃ f ∈ flags, b.get_prefix_mode f = x) := by
  have hN2 : map_find b._clients N = none := hN
  have e1 : find_or_create_client b N user host
      = (Bot.add_client { b with clientObjs := b.clientObjs ++ [Client.new N user host] }
          b.clientObjs.length, b.clientObjs.length) := by
    unfold find_or_create_client
    rw [hN]
  have e0 : handle_who_reply b m = who_reply_common b chan N user host flags "*".toList := by
    unfold handle_who_reply
    rw [if_neg (by simp [hargs])]
    simp [hargs]
  have e2 : ∀ (B : Bot) (c : Nat) (account : Str), find_or_create_client b N user host = (B, c) →
      who_reply_common b chan N user host flags account
        = who_flags ((find_or_create_channel
              (if B.use_account_tracking && !account.isEmpty then B.set_account c account else B)
              chan).1.join_chan c
            (find_or_create_channel
              (if B.use_account_tracking && !account.isEmpty then B.set_account c account else B)
              chan).2).1
          ((find_or_create_channel
              (if B.use_account_tracking && !account.isEmpty then B.set_account c account else B)
              chan).1.join_chan c
            (find_or_create_channel
              (if B.use_account_tracking && !account.isEmpty then B.set_account c account else B)
              chan).2).2 flags := by
    intro B c account h
    unfold who_reply_common
    rw [h]
  obtain ⟨b2, hb2, hc2, hm2, hr2, hs2, hch2⟩ : ∃ b2 : Bot,
      handle_who_reply b m
        = who_flags ((find_or_create_channel b2 chan).1.join_chan b.clientObjs.length
            (find_or_create_channel b2 chan).2).1
          ((find_or_create_channel b2 chan).1.join_chan b.clientObjs.length
            (find_or_create_channel b2 chan).2).2 flags
      ∧ (∃ acc, b2.clientObjs = b.clientObjs ++ [{ Client.new N user host with account := acc }])
      ∧ b2.membershipObjs = b.membershipObjs
      ∧ b2._clients = b._clients ++ [(N, b.clientObjs.length)]
      ∧ b2._supported = b._supported
      ∧ True := by
    refine ⟨_, e0.trans (e2 _ _ _ e1), ?_, ?_, ?_, ?_, trivial⟩
    · by_cases ht : ((Bot.add_client { b with clientObjs := b.clientObjs ++ [Client.new N user host] }
          b.clientObjs.length).use_account_tracking && !"*".toList.isEmpty) = true
      · rw [if_pos ht]
        refine ⟨"*".toList, ?_⟩
        simp [Bot.set_account, Bot.setClient, Bot.add_client, Bot.client, getD_append_one,
          Client.new]
      · rw [if_neg ht]
        exact ⟨[], by simp [Bot.add_client, Client.new]⟩
    · split <;> simp [Bot.set_account, Bot.setClient, Bot.add_client]
    · split <;> simp [Bot.set_account, Bot.setClient, Bot.add_client, Bot.client, getD_append_one,
          Client.new, map_insert_of_none _ _ _ hN2]
    · split <;> simp [Bot.set_account, Bot.setClient, Bot.add_client]
  obtain ⟨acc, hc2⟩ := hc2
  obtain ⟨f1, f2, f3, f4, f5, f6, f7⟩ := find_or_create_channel_spec b2 chan
  generalize hb3 : (find_or_create_channel b2 chan).1 = b3 at *
  generalize hch : (find_or_create_channel b2 chan).2 = ch at *
  have hcl3 : (b3.client b.clientObjs.length) = { Client.new N user host with account := acc } := by
    simp [Bot.client, f1, hc2, getD_append_one]
  have hfm : b3.find_membership b.clientObjs.length ch = none := by
    simp [Bot.find_membership, hcl3, Client.new]
  obtain ⟨j1, j2, j3, j4, j5, j6, j7, j8, j9⟩ := join_chan_fresh b3 b.clientObjs.length ch hfm
  rw [j1, f2, hm2] at hb2
  generalize hb4 : (b3.join_chan b.clientObjs.length ch).1 = b4 at *
  have g1 : b4.clientObjs
      = b.clientObjs ++ [Client.mk N user host acc [b.membershipObjs.length]] := by
    rw [j3, hcl3, f1, hc2, f2, hm2]
    simp [Client.new]
  have g2 : b4.membershipObjs = b.membershipObjs ++ [Membership.mk b.clientObjs.length ch []] := by
    rw [j2, f2, hm2]
  have g3 : b4._clients = b._clients ++ [(N, b.clientObjs.length)] := by
    rw [j5, f3, hr2]
  have g4 : b4._channels = b3._channels := j6
  have g5 : b4._supported = b._supported := by
    rw [j7, f4, hs2]
  have hp4 : b.membershipObjs.length < b4.membershipObjs.length := by simp [g2]
  have hmem4 : b4.membership b.membershipObjs.length = Membership.mk b.clientObjs.length ch [] := by
    simp [Bot.membership, g2, getD_append_one]
  obtain ⟨w1, w2, w3, w4, w5, w6, w7, w8, w9, w10⟩ :=
    who_flags_spec b.membershipObjs.length flags b4 hp4 (by rw [hmem4]; exact List.nodup_nil)
  rw [hb2]
  have hgp : ∀ f, b4.get_prefix_mode f = b.get_prefix_mode f := by
    intro f; simp [Bot.get_prefix_mode, g5]
  refine ⟨by rw [w3, g3], by rw [w1, g1]; simp, ?_, ?_, ?_, ?_, ?_, by rw [w6, g2]; simp,
    by rw [w7, hmem4], ?_, w9, ?_⟩
  · simp [Bot.find_client, w3, g3, map_find, List.find?_append, map_find_none_find _ _ hN2,
      cistring_is_equal_refl]
  · simp [Bot.client, w1, g1, getD_append_one, Client.new]
  · simp [Bot.client, w1, g1, getD_append_one, Client.new]
  · simp [Bot.client, w1, g1, getD_append_one, Client.new]
  · simp [Bot.client, w1, g1, getD_append_one, Client.new]
  · rw [w8, hmem4]
    simp only [Bot.find_channel, w4, g4]
    exact f7
  · intro x
    rw [w10 x, hmem4]
    simp [hgp]

/-- Witness for C6: the reply `#a user host srv Nick H@+ :0 real` on a bot with
an empty registry and the prefix table `@` to `o`, `+` to `v`. -/
theorem C6_legacy_who_reply_witness :
    (handle_who_reply (Bot.init "bot".toList [('@', 'o'), ('+', 'v')] false false false)
        { raw := [], command := "352".toList
          source := { raw := "srv".toList, name := "srv".toList, client := none
                      destination := "bot".toList, reply_func := [], error_func := [] }
          args := ["#a".toList, "user".toList, "host".toList, "srv".toList, "Nick".toList,
                   "H@+".toList, "0 real".toList] })._clients
      = (Bot.init "bot".toList [('@', 'o'), ('+', 'v')] false false false)._clients
          ++ [("Nick".toList,
               (Bot.init "bot".toList [('@', 'o'), ('+', 'v')] false false false).clientObjs.length)] :=
  (C6_legacy_who_reply (Bot.init "bot".toList [('@', 'o'), ('+', 'v')] false false false) _
    "#a".toList "user".toList "host".toList "srv".toList "Nick".toList "H@+".toList
    "0 real".toList rfl (by decide)).1

/-! ## The dispatcher -/

theorem IrcStringCmp_self (a : Str) (h : a ≠ []) : IrcStringCmp a a = some false := by
  induction a with
  | nil => exact absurd rfl h
  | cons x xs ih =>
    by_cases hx : xs = []
    · subst hx; simp [IrcStringCmp]
    · simp [IrcStringCmp, hx, ih hx]

theorem IrcStringCmp_defined (a b : Str) (ha : a ≠ []) (hb : b ≠ []) :
    ∃ r, IrcStringCmp a b = some r := by
  induction a generalizing b with
  | nil => exact absurd rfl ha
  | cons x xs ih =>
    cases b with
    | nil => exact absurd rfl hb
    | cons y ys =>
      unfold IrcStringCmp
      by_cases h1 : ((x.toNat : Int) - (y.toNat : Int)) ≠ 0
      · exact ⟨_, if_pos h1⟩
      · by_cases h2 : xs = []
        · exact ⟨_, (if_neg h1).trans (if_pos h2)⟩
        · by_cases h3 : ys = []
          · exact ⟨_, (if_neg h1).trans ((if_neg h2).trans (if_pos h3))⟩
          · obtain ⟨r, hr⟩ := ih ys h2 h3
            exact ⟨r, (if_neg h1).trans ((if_neg h2).trans ((if_neg h3).trans hr))⟩

theorem IrcStringCmp_ne (a b : Str) (ha : a ≠ []) (hb : b ≠ []) (hab : a ≠ b) :
    IrcStringCmp a b = some true ∨ IrcStringCmp b a = some true := by
  induction a generalizing b with
  | nil => exact absurd rfl ha
  | cons x xs ih =>
    cases b with
    | nil => exact absurd rfl hb
    | cons y ys =>
      by_cases hxy : x = y
      · subst hxy
        have hne : xs ≠ ys := fun e => hab (by rw [e])
        by_cases h2 : xs = []
        · subst h2
          have : ys ≠ [] := fun e => hne e.symm
          left; simp [IrcStringCmp, this]
        · by_cases h3 : ys = []
          · subst h3
            right; simp [IrcStringCmp, h2]
          · rcases ih ys h2 h3 hne with h | h
            · left; simp [IrcStringCmp, h2, h3, h]
            · right; simp [IrcStringCmp, h2, h3, h]
      · have hn : x.toNat ≠ y.toNat := fun e => hxy (Char.ext (UInt32.ext (by
          simpa [Char.toNat, UInt32.toNat] using e)))
        rcases Nat.lt_or_gt_of_ne hn with h | h
        · left
          have h1 : ((x.toNat : Int) - (y.toNat : Int)) ≠ 0 := by omega
          have h2 : ((x.toNat : Int) - (y.toNat : Int)) < 0 := by omega
          simp [IrcStringCmp, h1, h2]
        · right
          have h1 : ((y.toNat : Int) - (x.toNat : Int)) ≠ 0 := by omega
          have h2 : ((y.toNat : Int) - (x.toNat : Int)) < 0 := by omega
          simp [IrcStringCmp, h1, h2]

theorem HandlerMap_find_eq {H : Type} (d : List (Str × List H)) (s : Str)
    (hd : ∀ e ∈ d, e.1 ≠ []) (hs : s ≠ []) :
    HandlerMap_find d s = some (first_key_index d s) := by
  induction d with
  | nil => rfl
  | cons e rest ih =>
    have he : e.1 ≠ [] := hd e (by simp)
    have ih2 := ih (fun x hx => hd x (by simp [hx]))
    by_cases hk : e.1 = s
    · have h1 : IrcStringCmp e.1 s = some false := by rw [hk]; exact IrcStringCmp_self s hs
      have h2 : IrcStringCmp s e.1 = some false := by rw [hk]; exact IrcStringCmp_self s hs
      unfold HandlerMap_find first_key_index
      rw [h1, h2, if_pos hk]
    · obtain ⟨r1, h1⟩ := IrcStringCmp_defined e.1 s he hs
      obtain ⟨r2, h2⟩ := IrcStringCmp_defined s e.1 hs he
      have hor := IrcStringCmp_ne e.1 s he hs hk
      have hnot : ¬ (r1 = false ∧ r2 = false) := by
        rintro ⟨a, b⟩
        subst a b
        rcases hor with h | h
        · rw [h1] at h; exact absurd h (by decide)
        · rw [h2] at h; exact absurd h (by decide)
      unfold HandlerMap_find first_key_index
      rw [h1, h2, if_neg hk, ih2]
      cases r1 <;> cases r2 <;> simp_all

theorem first_key_index_none {H : Type} (d : List (Str × List H)) (s : Str) (l : List H)
    (h : first_key_index d s = none) :
    handlers_under d s = []
    ∧ ∀ K, handlers_under (d ++ [(s, l)]) K = if K = s then l else handlers_under d K := by
  induction d with
  | nil =>
    refine ⟨rfl, fun K => ?_⟩
    by_cases hK : K = s
    · simp [handlers_under, hK]
    · have : ¬ s = K := fun e => hK e.symm
      simp [handlers_under, hK, this]
  | cons e rest ih =>
    by_cases hk : e.1 = s
    · simp [first_key_index, hk] at h
    · have hr : first_key_index rest s = none := by
        simpa [first_key_index, hk] using h
      obtain ⟨i1, i2⟩ := ih hr
      refine ⟨by simp [handlers_under, hk, i1], fun K => ?_⟩
      by_cases hK : e.1 = K
      · have : ¬ K = s := fun e2 => hk (hK.trans e2)
        simp [handlers_under, hK, this]
      · simp [handlers_under, hK, i2 K]

theorem first_key_index_some {H : Type} (d : List (Str × List H)) (s : Str) (i : Nat)
    (h : first_key_index d s = some i) :
    ∃ e, d.get? i = some e ∧ e.1 = s ∧ e.2 = handlers_under d s
      ∧ ∀ l K, handlers_under (d.set i (e.1, l)) K = if K = s then l else handlers_under d K := by
  induction d generalizing i with
  | nil => simp [first_key_index] at h
  | cons e rest ih =>
    by_cases hk : e.1 = s
    · have hi : i = 0 := by simpa [first_key_index, hk] using h.symm
      subst hi
      refine ⟨e, rfl, hk, by simp [handlers_under, hk], fun l K => ?_⟩
      by_cases hK : K = s
      · simp [handlers_under, hk, hK]
      · have : ¬ s = K := fun e2 => hK e2.symm
        simp [handlers_under, hk, hK, this]
    · obtain ⟨j, hj, rfl⟩ : ∃ j, first_key_index rest s = some j ∧ i = j + 1 := by
        simp only [first_key_index, hk, if_false, Option.map_eq_some'] at h
        obtain ⟨j, hj, hji⟩ := h
        exact ⟨j, hj, hji.symm⟩
      obtain ⟨e2, g1, g2, g3, g4⟩ := ih j hj
      refine ⟨e2, by simpa using g1, g2, by simp [handlers_under, hk, g3], fun l K => ?_⟩
      by_cases hK : e.1 = K
      · have : ¬ K = s := fun e3 => hk (hK.trans e3)
        simp [handlers_under, hK, this]
      · simp [handlers_under, hK, g4 l K]

theorem dispatch_eq {H : Type} (d : List (Str × List H)) (K : Str)
    (hd : ∀ e ∈ d, e.1 ≠ []) (hK : K ≠ []) :
    Dispatcher.dispatch d K = some (handlers_under d K) := by
  unfold Dispatcher.dispatch
  rw [HandlerMap_find_eq d K hd hK]
  cases h : first_key_index d K with
  | none => simp [(first_key_index_none d K [] h).1]
  | some i =>
    obtain ⟨e, g1, _, g3, _⟩ := first_key_index_some d K i h
    have g1b : d[i]? = some e := by simpa using g1
    simp [g1b, g3]

theorem add_handler_eq {H : Type} (d : List (Str × List H)) (s : Str) (h : H)
    (hd : ∀ e ∈ d, e.1 ≠ []) (hs : s ≠ []) :
    ∃ d1, Dispatcher.add_handler d s h = some d1 ∧ (∀ e ∈ d1, e.1 ≠ [])
      ∧ ∀ K, handlers_under d1 K
          = if K = s then handlers_under d s ++ [h] else handlers_under d K := by
  unfold Dispatcher.add_handler
  rw [HandlerMap_find_eq d s hd hs]
  cases hf : first_key_index d s with
  | none =>
    obtain ⟨i1, i2⟩ := first_key_index_none d s [h] hf
    refine ⟨d ++ [(s, [h])], by simp, ?_, ?_⟩
    · intro e he
      rcases List.mem_append.mp he with h1 | h1
      · exact hd e h1
      · simp at h1; rw [h1]; exact hs
    · intro K; rw [i2 K, i1]; rfl
  | some i =>
    obtain ⟨e, g1, g2, g3, g4⟩ := first_key_index_some d s i hf
    have g1b : d[i]? = some e := by simpa using g1
    refine ⟨d.set i (e.1, e.2 ++ [h]), by simp [g1b], ?_, ?_⟩
    · intro x hx
      rcases List.mem_or_eq_of_mem_set hx with h1 | h1
      · exact hd x h1
      · rw [h1]; simp [g2, hs]
    · intro K; rw [g4 _ K, g3]

theorem add_handlers_eq {H : Type} (calls : List (Str × H)) :
    ∀ d : List (Str × List H), (∀ e ∈ d, e.1 ≠ []) → (∀ c ∈ calls, c.1 ≠ []) →
      ∃ d1, Dispatcher.add_handlers d calls = some d1 ∧ (∀ e ∈ d1, e.1 ≠ [])
        ∧ ∀ K, handlers_under d1 K = handlers_under d K ++ added_under calls K := by
  induction calls with
  | nil => intro d hd _; exact ⟨d, rfl, hd, fun K => by simp [added_under]⟩
  | cons c cs ih =>
    intro d hd hc
    obtain ⟨d1, a1, a2, a3⟩ := add_handler_eq d c.1 c.2 hd (hc c (by simp))
    obtain ⟨d2, b1, b2, b3⟩ := ih d1 a2 (fun x hx => hc x (by simp [hx]))
    refine ⟨d2, by simp [Dispatcher.add_handlers, a1, b1], b2, fun K => ?_⟩
    rw [b3 K, a3 K]
    by_cases hK : K = c.1
    · have : c.1 = K := hK.symm
      simp [added_under, hK]
    · have : ¬ c.1 = K := fun e => hK e.symm
      simp [added_under, hK, this]

/-- Dispatch after a sequence of `add_handler` calls with non-empty keys, on an
initially empty dispatcher, for a non-empty command K: exactly the handlers
added under K are invoked, each once per call, in the order of the calls. -/
theorem dispatch_after_add_handlers {H : Type} (calls : List (Str × H)) (K : Str)
    (hc : ∀ c ∈ calls, c.1 ≠ []) (hK : K ≠ []) :
    ∃ d, Dispatcher.add_handlers [] calls = some d
      ∧ Dispatcher.dispatch d K = some (added_under calls K) := by
  obtain ⟨d, h1, h2, h3⟩ := add_handlers_eq calls [] (by simp) hc
  refine ⟨d, h1, ?_⟩
  rw [dispatch_eq d K h2 hK, h3 K]
  rfl

/-- C9 (failing input): after `add_handler("", h)` on an empty dispatcher, the
dispatch of a message with the empty command has no defined result, because
`IrcStringCmp("", "")` dereferences the end iterator of an empty string;
the claim has the handler invoked exactly once. -/
theorem C9_empty_key_undefined :
    Dispatcher.add_handler ([] : List (Str × List Nat)) [] 7 = some [([], [7])]
    ∧ IrcStringCmp [] [] = none
    ∧ Dispatcher.dispatch [(([] : Str), [7])] [] = none
    ∧ Dispatcher.dispatch [(([] : Str), [7])] [] ≠ some [7] := by
  decide

/-! ## Registry lemmas -/

theorem cistring_is_equal_symm (a b : Str) : cistring_is_equal a b = cistring_is_equal b a := by
  simp only [cistring_is_equal]
  by_cases h : a.map Char.toLower = b.map Char.toLower
  · simp [h]
  · have h2 : ¬ b.map Char.toLower = a.map Char.toLower := fun e => h e.symm
    simp [h, h2]

theorem cistring_is_equal_trans (a b c : Str) (h1 : cistring_is_equal a b = true)
    (h2 : cistring_is_equal b c = true) : cistring_is_equal a c = true := by
  simp only [cistring_is_equal, beq_iff_eq] at *
  exact h1.trans h2

theorem cistring_is_equal_congr (a b c : Str) (h1 : cistring_is_equal a b = true) :
    cistring_is_equal a c = cistring_is_equal b c := by
  simp only [cistring_is_equal, beq_iff_eq] at *
  rw [h1]

theorem map_find_erase (m : List (Str × Nat)) (A K : Str) :
    map_find (map_erase m A) K = if cistring_is_equal K A then none else map_find m K := by
  induction m with
  | nil => simp [map_erase, map_find]
  | cons e rest ih =>
    simp only [map_erase, map_find] at ih ⊢
    by_cases hA : cistring_is_equal e.1 A = true
    · -- the entry is erased
      rw [List.filter_cons_of_neg (by simp [hA]), ih]
      by_cases hK : cistring_is_equal K A = true
      · simp [hK]
      · have hne : cistring_is_equal e.1 K = false := by
          cases hx : cistring_is_equal e.1 K with
          | false => rfl
          | true =>
            have h2 : cistring_is_equal K e.1 = true := by rw [cistring_is_equal_symm]; exact hx
            exact absurd (cistring_is_equal_trans K e.1 A h2 hA) hK
        simp [hK, List.find?_cons, hne]
    · rw [List.filter_cons_of_pos (by simp [hA])]
      by_cases hK : cistring_is_equal e.1 K = true
      · have hKA : cistring_is_equal K A = false := by
          cases hx : cistring_is_equal K A with
          | false => rfl
          | true => exact absurd (cistring_is_equal_trans e.1 K A hK hx) hA
        simp [List.find?_cons, hK, hKA]
      · simp only [List.find?_cons, hK]
        exact ih

theorem map_find_insert (m : List (Str × Nat)) (K K2 : Str) (v : Nat) :
    map_find (map_insert m K v) K2
      = match map_find m K2 with
        | some w => some w
        | none => if (map_find m K).isNone && cistring_is_equal K K2 then some v else none := by
  unfold map_insert
  cases hK : map_find m K with
  | some w =>
    simp only [Option.isSome_some, if_true, Option.isNone_some, Bool.false_and]
    cases map_find m K2 <;> simp
  | none =>
    simp only [Option.isSome_none, Bool.false_eq_true, if_false, Option.isNone_none, Bool.true_and]
    cases hK2 : map_find m K2 with
    | some w =>
      have : ∃ e, m.find? (fun e => cistring_is_equal e.1 K2) = some e ∧ e.2 = w := by
        simpa [map_find] using hK2
      obtain ⟨e, he, hw⟩ := this
      simp [map_find, List.find?_append, he, hw]
    | none =>
      have := map_find_none_find m K2 hK2
      simp only [map_find, List.find?_append, this, Option.none_or]
      by_cases h : cistring_is_equal K K2 = true
      · simp [List.find?_cons, h]
      · simp [List.find?_cons, h]

/-! ## Nick changes -/

theorem change_nick_spec (b : Bot) (c : Nat) (B : Str) (hv : c < b.clientObjs.length) :
    (b.change_nick c B)._clients
        = map_insert (map_erase b._clients (b.client c).nick) B c
    ∧ (b.change_nick c B).clientObjs = b.clientObjs.set c { b.client c with nick := B }
    ∧ (b.change_nick c B).membershipObjs = b.membershipObjs
    ∧ (b.change_nick c B).channelObjs = b.channelObjs
    ∧ (b.change_nick c B)._channels = b._channels := by
  simp [Bot.change_nick, Bot.add_client, Bot.remove_client, Bot.setClient, Bot.client, getD_set, hv]

/-- C8 (amended): a NICK event from a source resolved to the client `c` with
stored nick A, to the new nick B, handled by both NICK handlers: when B is a
case variant of A or no client is registered under B, `find_client(B)` returns
`c`; unless B is a case variant of A, `find_client(A)` returns nothing; the
client's Memberships are the same objects as before, none created and none
removed.  A NICK event whose source is not resolved leaves the registries,
clients, channels and memberships unchanged; only the bot's own nick record
follows it, when the source name equals that nick. -/
theorem C8_nick_change (b : Bot) (m : Message) :
    (∀ c, m.source.client = some c → c < b.clientObjs.length →
      ((cistring_is_equal m.source.destination (b.client c).nick = true
          ∨ b.find_client m.source.destination = none) →
        (handle_nick (b.handle_nick m) m).find_client m.source.destination = some c)
      ∧ (cistring_is_equal m.source.destination (b.client c).nick = false →
        (handle_nick (b.handle_nick m) m).find_client (b.client c).nick = none)
      ∧ ((handle_nick (b.handle_nick m) m).client c).nick = m.source.destination
      ∧ ((handle_nick (b.handle_nick m) m).client c).channels = (b.client c).channels
      ∧ (handle_nick (b.handle_nick m) m).membershipObjs = b.membershipObjs
      ∧ (handle_nick (b.handle_nick m) m).channelObjs = b.channelObjs)
    ∧ (m.source.client = none →
      handle_nick (b.handle_nick m) m
        = { b with _nick := if m.source.name = b._nick then m.source.destination else b._nick }) := by
  constructor
  · intro c hc hv
    have hb0c : (b.handle_nick m).clientObjs = b.clientObjs := by
      unfold Bot.handle_nick; split <;> rfl
    have hb0r : (b.handle_nick m)._clients = b._clients := by
      unfold Bot.handle_nick; split <;> rfl
    have hb0m : (b.handle_nick m).membershipObjs = b.membershipObjs := by
      unfold Bot.handle_nick; split <;> rfl
    have hb0h : (b.handle_nick m).channelObjs = b.channelObjs := by
      unfold Bot.handle_nick; split <;> rfl
    have hcl : (b.handle_nick m).client c = b.client c := by
      simp [Bot.client, hb0c]
    have hn : handle_nick (b.handle_nick m) m
        = (b.handle_nick m).change_nick c m.source.destination := by
      simp [handle_nick, hc]
    obtain ⟨s1, s2, s3, s4, _⟩ := change_nick_spec (b.handle_nick m) c m.source.destination
      (by rw [hb0c]; exact hv)
    rw [hn]
    rw [hcl, hb0r] at s1
    rw [hcl, hb0c] at s2
    refine ⟨?_, ?_, ?_, ?_, by rw [s3, hb0m], by rw [s4, hb0h]⟩
    · intro hfree
      have hnone : map_find (map_erase b._clients (b.client c).nick) m.source.destination = none := by
        rw [map_find_erase]
        rcases hfree with h | h
        · rw [if_pos h]
        · split
          · rfl
          · exact h
      simp only [Bot.find_client, s1]
      rw [map_find_insert, hnone]
      simp [cistring_is_equal_refl]
    · intro hne
      have hnone : map_find (map_erase b._clients (b.client c).nick) (b.client c).nick = none := by
        rw [map_find_erase, if_pos (cistring_is_equal_refl _)]
      simp only [Bot.find_client, s1]
      rw [map_find_insert, hnone]
      simp [hne]
    · simp [Bot.client, s2, getD_set, hv]
    · simp [Bot.client, s2, getD_set, hv]
  · intro hc
    simp only [handle_nick, hc, Bot.handle_nick]
    split <;> simp_all

/-- Witness for C8 (amended): the client `x`, alone in the registry, renamed to `y`. -/
theorem C8_nick_change_witness :
    (handle_nick
        (Bot.handle_nick
          { Bot.init "bot".toList [] false false false with
            clientObjs := [Client.new "x".toList "u".toList "h".toList]
            _clients := [("x".toList, 0)] }
          { raw := [], command := "NICK".toList, args := []
            source := { raw := "x!u@h".toList, name := "x".toList, client := some 0
                        destination := "y".toList, reply_func := [], error_func := [] } })
        { raw := [], command := "NICK".toList, args := []
          source := { raw := "x!u@h".toList, name := "x".toList, client := some 0
                      destination := "y".toList, reply_func := [], error_func := [] } }).find_client
      "y".toList = some 0 :=
  ((C8_nick_change
      { Bot.init "bot".toList [] false false false with
        clientObjs := [Client.new "x".toList "u".toList "h".toList]
        _clients := [("x".toList, 0)] }
      { raw := [], command := "NICK".toList, args := []
        source := { raw := "x!u@h".toList, name := "x".toList, client := some 0
                    destination := "y".toList, reply_func := [], error_func := [] } }).1
    0 rfl (by decide)).1 (Or.inr (by decide))

/-- C8 (counterexample): a NICK line whose source is not in the registry but
carries the bot's own nick changes the bot state (its nick record becomes
`bot2`); and after `x` is renamed to its case variant `X`, `find_client("x")`
still returns the client. -/
theorem C8_nick_counterexample :
    (Bot.init "bot".toList [] false false false).find_client "bot".toList = none
    ∧ ((Bot.init "bot".toList [] false false false).run
          [Event.line ":bot!u@h NICK bot2".toList]).map (fun b => b._nick) = some "bot2".toList
    ∧ (Bot.init "bot".toList [] false false false).run [Event.line ":bot!u@h NICK bot2".toList]
        ≠ some (Bot.init "bot".toList [] false false false)
    ∧ ((Bot.init "bot".toList [] false false false).run
          [Event.line ":bot!u@h JOIN #a".toList, Event.line ":x!u@h JOIN #a".toList]).map
        (fun b => b.find_client "x".toList) = some (some 1)
    ∧ ((Bot.init "bot".toList [] false false false).run
          [Event.line ":bot!u@h JOIN #a".toList, Event.line ":x!u@h JOIN #a".toList,
           Event.line ":x!u@h NICK X".toList]).map
        (fun b => b.find_client "x".toList) = some (some 1) := by
  decide

/-! ## Preservation of the graph invariants -/

theorem getD_default_of_le {α : Type} (l : List α) (i : Nat) (d : α) (h : l.length ≤ i) :
    l.getD i d = d := by
  simp [List.getD_eq_getElem?_getD, List.getElem?_eq_none h]

theorem Duality_of_GraphOk (b : Bot) (h : b.GraphOk) : b.Duality := by
  intro c ch
  constructor
  · rintro ⟨p, hp, hch⟩
    obtain ⟨_, h2, h3⟩ := h.1 c p hp
    exact ⟨p, hch ▸ h3, h2⟩
  · rintro ⟨p, hp, hc⟩
    obtain ⟨_, h2, h3⟩ := h.2 ch p hp
    exact ⟨p, hc ▸ h3, h2⟩

theorem GraphOk_of_same (b b1 : Bot)
    (h1 : ∀ c, (b1.client c).channels = (b.client c).channels)
    (h2 : ∀ h, (b1.channel h).members = (b.channel h).members)
    (h3 : ∀ p, (b1.membership p).client = (b.membership p).client
      ∧ (b1.membership p).channel = (b.membership p).channel)
    (h4 : b1.membershipObjs.length = b.membershipObjs.length) (hb : b.GraphOk) :
    b1.GraphOk := by
  constructor
  · intro c p hp
    rw [h1] at hp
    obtain ⟨a1, a2, a3⟩ := hb.1 c p hp
    rw [h4, (h3 p).1, (h3 p).2, h2]
    exact ⟨a1, a2, a3⟩
  · intro h p hp
    rw [h2] at hp
    obtain ⟨a1, a2, a3⟩ := hb.2 h p hp
    rw [h4, (h3 p).1, (h3 p).2, h1]
    exact ⟨a1, a2, a3⟩

theorem GraphOk_of_objs (b b1 : Bot) (h1 : b1.clientObjs = b.clientObjs)
    (h2 : b1.channelObjs = b.channelObjs) (h3 : b1.membershipObjs = b.membershipObjs)
    (hb : b.GraphOk) : b1.GraphOk :=
  GraphOk_of_same b b1 (fun c => by simp [Bot.client, h1]) (fun h => by simp [Bot.channel, h2])
    (fun p => by simp [Bot.membership, h3]) (by rw [h3]) hb

theorem client_channels_new (b : Bot) (nick user host : Str) (c : Nat) :
    (({ b with clientObjs := b.clientObjs ++ [Client.new nick user host] } : Bot).client c).channels
      = (b.client c).channels := by
  simp only [Bot.client, getD_append_one]
  split
  · next h => subst h; rw [getD_default_of_le _ _ _ (Nat.le_refl _)]; rfl
  · rfl

theorem channel_members_new (b : Bot) (name : Str) (h : Nat) :
    (({ b with channelObjs := b.channelObjs ++ [Channel.mk name []] } : Bot).channel h).members
      = (b.channel h).members := by
  simp only [Bot.channel, getD_append_one]
  split
  · next e => subst e; rw [getD_default_of_le _ _ _ (Nat.le_refl _)]; rfl
  · rfl

theorem client_channels_set (b : Bot) (c : Nat) (cl : Client)
    (h : cl.channels = (b.client c).channels) (c1 : Nat) :
    ((b.setClient c cl).client c1).channels = (b.client c1).channels := by
  simp only [Bot.client, Bot.setClient, getD_set]
  split
  · next e => rw [← e.1]; exact h
  · rfl

theorem membership_set_same (b : Bot) (p : Nat) (mm : Membership)
    (h1 : mm.client = (b.membership p).client) (h2 : mm.channel = (b.membership p).channel)
    (q : Nat) :
    ((b.setMembership p mm).membership q).client = (b.membership q).client
    ∧ ((b.setMembership p mm).membership q).channel = (b.membership q).channel := by
  simp only [Bot.membership, Bot.setMembership, getD_set]
  split
  · next e => rw [← e.1]; exact ⟨h1, h2⟩
  · exact ⟨rfl, rfl⟩

theorem mem_map_insert (m : List (Str × Nat)) (k : Str) (v : Nat) (e : Str × Nat)
    (h : e ∈ map_insert m k v) : e ∈ m ∨ e = (k, v) := by
  unfold map_insert at h
  split at h
  · exact Or.inl h
  · simpa using h

theorem mem_map_erase (m : List (Str × Nat)) (k : Str) (e : Str × Nat)
    (h : e ∈ map_erase m k) : e ∈ m := by
  unfold map_erase at h
  exact (List.mem_filter.mp h).1

theorem map_find_mem (m : List (Str × Nat)) (k : Str) (v : Nat) (h : map_find m k = some v) :
    ∃ e ∈ m, e.2 = v := by
  unfold map_find at h
  cases hf : m.find? (fun e => cistring_is_equal e.1 k) with
  | none => simp [hf] at h
  | some e =>
    simp [hf] at h
    exact ⟨e, List.mem_of_find?_eq_some hf, h⟩

theorem Grows_refl (b : Bot) : b.Grows b := ⟨Nat.le_refl _, Nat.le_refl _⟩

theorem Grows_trans (a b c : Bot) (h1 : a.Grows b) (h2 : b.Grows c) : a.Grows c :=
  ⟨Nat.le_trans h1.1 h2.1, Nat.le_trans h1.2 h2.2⟩

theorem WF_add_client (b : Bot) (c : Nat) (h : b.WF) (hc : c < b.clientObjs.length) :
    (b.add_client c).WF := by
  refine ⟨GraphOk_of_objs b _ rfl rfl rfl h.1, ?_, h.2.2⟩
  intro e he
  rcases mem_map_insert _ _ _ _ he with h1 | h1
  · exact h.2.1 e h1
  · rw [h1]; exact hc

theorem WF_remove_client (b : Bot) (c : Nat) (h : b.WF) : (b.remove_client c).WF :=
  ⟨GraphOk_of_objs b _ rfl rfl rfl h.1, fun e he => h.2.1 e (mem_map_erase _ _ _ he), h.2.2⟩

theorem WF_remove_channel (b : Bot) (ch : Nat) (h : b.WF) : (b.remove_channel ch).WF :=
  ⟨GraphOk_of_objs b _ rfl rfl rfl h.1, h.2.1, fun e he => h.2.2 e (mem_map_erase _ _ _ he)⟩

theorem WF_new_client (b : Bot) (nick user host : Str) (h : b.WF) :
    (Bot.add_client { b with clientObjs := b.clientObjs ++ [Client.new nick user host] }
      b.clientObjs.length).WF := by
  refine WF_add_client _ _ ⟨?_, ?_, ?_⟩ (by simp)
  · exact GraphOk_of_same b _ (client_channels_new b nick user host) (fun _ => rfl)
      (fun _ => ⟨rfl, rfl⟩) rfl h.1
  · intro e he
    have := h.2.1 e he
    simp only [List.length_append, List.length_singleton]
    omega
  · exact h.2.2

theorem WF_find_or_create_client (b : Bot) (nick user host : Str) (h : b.WF) :
    (find_or_create_client b nick user host).1.WF
    ∧ (find_or_create_client b nick user host).2
        < (find_or_create_client b nick user host).1.clientObjs.length
    ∧ b.Grows (find_or_create_client b nick user host).1 := by
  unfold find_or_create_client
  cases hf : b.find_client nick with
  | some c =>
    obtain ⟨e, he, hv⟩ := map_find_mem _ _ _ hf
    exact ⟨h, hv ▸ h.2.1 e he, Grows_refl b⟩
  | none =>
    refine ⟨WF_new_client b nick user host h, by simp [Bot.add_client], ?_, ?_⟩
    · simp [Bot.add_client]
    · simp [Bot.add_client]

theorem WF_find_or_create_client_nuh (b b1 : Bot) (name nuh : Str) (c : Nat) (h : b.WF)
    (hr : find_or_create_client_nuh b name nuh = some (b1, c)) :
    b1.WF ∧ c < b1.clientObjs.length ∧ b.Grows b1 := by
  unfold find_or_create_client_nuh at hr
  cases hf : b.find_client name with
  | some c0 =>
    rw [hf] at hr
    simp only [Option.some.injEq, Prod.mk.injEq] at hr
    obtain ⟨rfl, rfl⟩ := hr
    obtain ⟨e, he, hv⟩ := map_find_mem _ _ _ hf
    exact ⟨h, hv ▸ h.2.1 e he, Grows_refl b⟩
  | none =>
    rw [hf] at hr
    simp only [Option.bind_eq_some] at hr
    obtain ⟨nick, _, user, _, host, _, hr2⟩ := hr
    simp only [Option.some.injEq, Prod.mk.injEq] at hr2
    obtain ⟨rfl, rfl⟩ := hr2
    refine ⟨WF_new_client b nick user host h, by simp [Bot.add_client], ?_, ?_⟩
    · simp [Bot.add_client]
    · simp [Bot.add_client]

theorem WF_find_or_create_client_msg (b b1 : Bot) (m : Message) (c : Nat) (h : b.WF)
    (hm : m.ValidFor b) (hr : find_or_create_client_msg b m = some (b1, c)) :
    b1.WF ∧ c < b1.clientObjs.length ∧ b.Grows b1 := by
  unfold find_or_create_client_msg at hr
  cases hc : m.source.client with
  | some c0 =>
    rw [hc] at hr
    simp only [Option.some.injEq, Prod.mk.injEq] at hr
    obtain ⟨rfl, rfl⟩ := hr
    exact ⟨h, hm c0 hc, Grows_refl b⟩
  | none =>
    rw [hc] at hr
    exact WF_find_or_create_client_nuh b b1 _ _ c h hr

theorem WF_find_or_create_channel (b : Bot) (name : Str) (h : b.WF) :
    (find_or_create_channel b name).1.WF
    ∧ (find_or_create_channel b name).2 < (find_or_create_channel b name).1.channelObjs.length
    ∧ (find_or_create_channel b name).1.clientObjs = b.clientObjs
    ∧ b.Grows (find_or_create_channel b name).1 := by
  unfold find_or_create_channel
  cases hf : b.find_channel name with
  | some ch =>
    obtain ⟨e, he, hv⟩ := map_find_mem _ _ _ hf
    exact ⟨h, hv ▸ h.2.2 e he, rfl, Grows_refl b⟩
  | none =>
    refine ⟨⟨?_, ?_, ?_⟩, by simp [Bot.add_channel], by simp [Bot.add_channel], ?_, ?_⟩
    · exact GraphOk_of_same b _ (fun _ => rfl) (channel_members_new b name)
        (fun _ => ⟨rfl, rfl⟩) rfl h.1
    · exact h.2.1
    · intro e he
      simp only [Bot.add_channel] at he
      show e.2 < (b.channelObjs ++ [Channel.mk name []]).length
      rcases mem_map_insert _ _ _ _ he with h1 | h1
      · have := h.2.2 e h1
        simp only [List.length_append, List.length_singleton]
        omega
      · rw [h1]; simp
    · simp [Bot.add_channel]
    · simp [Bot.add_channel]

theorem WF_set_account (b : Bot) (c : Nat) (account : Str) (h : b.WF) :
    (b.set_account c account).WF
    ∧ (b.set_account c account).clientObjs.length = b.clientObjs.length
    ∧ (b.set_account c account).channelObjs = b.channelObjs := by
  refine ⟨⟨?_, ?_, h.2.2⟩, by simp [Bot.set_account, Bot.setClient], rfl⟩
  · exact GraphOk_of_same b _ (client_channels_set b c _ rfl) (fun _ => rfl)
      (fun _ => ⟨rfl, rfl⟩) rfl h.1
  · intro e he
    have := h.2.1 e he
    simpa [Bot.set_account, Bot.setClient] using this

theorem find_membership_mem (b : Bot) (c ch p : Nat) (h : b.find_membership c ch = some p) :
    p ∈ (b.client c).channels ∧ (b.membership p).channel = ch := by
  unfold Bot.find_membership at h
  refine ⟨List.mem_of_find?_eq_some h, ?_⟩
  have := List.find?_some h
  simpa using this

theorem WF_join_chan (b : Bot) (c ch : Nat) (h : b.WF) (hc : c < b.clientObjs.length)
    (hch : ch < b.channelObjs.length) :
    (b.join_chan c ch).1.WF
    ∧ (b.join_chan c ch).1.clientObjs.length = b.clientObjs.length
    ∧ (b.join_chan c ch).1.channelObjs.length = b.channelObjs.length := by
  cases hfm : b.find_membership c ch with
  | some p => simp [Bot.join_chan, hfm, h]
  | none =>
    obtain ⟨j1, j2, j3, j4, j5, j6, _, _, _⟩ := join_chan_fresh b c ch hfm
    generalize (b.join_chan c ch).1 = b1 at *
    have hcc : ∀ c1, (b1.client c1).channels
        = if c1 = c then (b.client c).channels ++ [b.membershipObjs.length]
          else (b.client c1).channels := by
      intro c1
      simp only [Bot.client, j3, getD_set]
      by_cases e : c1 = c
      · subst e; simp [hc]
      · have : ¬ (c = c1 ∧ c < b.clientObjs.length) := fun x => e x.1.symm
        simp [e, this]
    have hhm : ∀ h1, (b1.channel h1).members
        = if h1 = ch then (b.channel ch).members ++ [b.membershipObjs.length]
          else (b.channel h1).members := by
      intro h1
      simp only [Bot.channel, j4, getD_set]
      by_cases e : h1 = ch
      · subst e; simp [hch]
      · have : ¬ (ch = h1 ∧ ch < b.channelObjs.length) := fun x => e x.1.symm
        simp [e, this]
    have hmm : ∀ p, b1.membership p
        = if p = b.membershipObjs.length then Membership.mk c ch [] else b.membership p := by
      intro p
      simp only [Bot.membership, j2, getD_append_one]
    have hml : b1.membershipObjs.length = b.membershipObjs.length + 1 := by simp [j2]
    refine ⟨⟨⟨?_, ?_⟩, ?_, ?_⟩, by simp [j3], by simp [j4]⟩
    · intro c1 p hp
      rw [hcc] at hp
      rw [hml, hmm p]
      by_cases e : c1 = c
      · subst e
        rw [if_pos rfl] at hp
        rcases List.mem_append.mp hp with hp | hp
        · obtain ⟨a1, a2, a3⟩ := h.1.1 c1 p hp
          rw [if_neg (by omega)]
          refine ⟨by omega, a2, ?_⟩
          rw [hhm]
          split
          · next e2 => rw [← e2]; exact List.mem_append_left _ a3
          · exact a3
        · have hp2 : p = b.membershipObjs.length := by simpa using hp
          rw [if_pos hp2]
          refine ⟨by omega, rfl, ?_⟩
          rw [hhm, if_pos rfl, hp2]
          simp
      · rw [if_neg e] at hp
        obtain ⟨a1, a2, a3⟩ := h.1.1 c1 p hp
        rw [if_neg (by omega)]
        refine ⟨by omega, a2, ?_⟩
        rw [hhm]
        split
        · next e2 => rw [← e2]; exact List.mem_append_left _ a3
        · exact a3
    · intro h1 p hp
      rw [hhm] at hp
      rw [hml, hmm p]
      by_cases e : h1 = ch
      · subst e
        rw [if_pos rfl] at hp
        rcases List.mem_append.mp hp with hp | hp
        · obtain ⟨a1, a2, a3⟩ := h.1.2 h1 p hp
          rw [if_neg (by omega)]
          refine ⟨by omega, a2, ?_⟩
          rw [hcc]
          split
          · next e2 => rw [← e2]; exact List.mem_append_left _ a3
          · exact a3
        · have hp2 : p = b.membershipObjs.length := by simpa using hp
          rw [if_pos hp2]
          refine ⟨by omega, rfl, ?_⟩
          rw [hcc, if_pos rfl, hp2]
          simp
      · rw [if_neg e] at hp
        obtain ⟨a1, a2, a3⟩ := h.1.2 h1 p hp
        rw [if_neg (by omega)]
        refine ⟨by omega, a2, ?_⟩
        rw [hcc]
        split
        · next e2 => rw [← e2]; exact List.mem_append_left _ a3
        · exact a3
    · intro e he
      rw [j5] at he
      have := h.2.1 e he
      simpa [j3] using this
    · intro e he
      rw [j6] at he
      have := h.2.2 e he
      simpa [j4] using this

theorem setClient_filter (b : Bot) (c : Nat) (g : Nat → Bool) (c1 : Nat) :
    ((b.setClient c { b.client c with channels := (b.client c).channels.filter g }).client c1).channels
      = if c1 = c then (b.client c).channels.filter g else (b.client c1).channels := by
  unfold Bot.setClient Bot.client
  rw [getD_set]
  by_cases e : c1 = c
  · subst e
    rw [if_pos rfl]
    by_cases hv : c1 < b.clientObjs.length
    · rw [if_pos ⟨rfl, hv⟩]
    · rw [if_neg (fun x => hv x.2), getD_default_of_le _ _ _ (Nat.le_of_not_lt hv)]
      rfl
  · rw [if_neg e, if_neg (fun x => e x.1.symm)]

theorem setChannel_filter (b : Bot) (ch : Nat) (g : Nat → Bool) (h1 : Nat) :
    ((b.setChannel ch { b.channel ch with members := (b.channel ch).members.filter g }).channel h1).members
      = if h1 = ch then (b.channel ch).members.filter g else (b.channel h1).members := by
  unfold Bot.setChannel Bot.channel
  rw [getD_set]
  by_cases e : h1 = ch
  · subst e
    rw [if_pos rfl]
    by_cases hv : h1 < b.channelObjs.length
    · rw [if_pos ⟨rfl, hv⟩]
    · rw [if_neg (fun x => hv x.2), getD_default_of_le _ _ _ (Nat.le_of_not_lt hv)]
      rfl
  · rw [if_neg e, if_neg (fun x => e x.1.symm)]

theorem leave_chan_membership_spec (b : Bot) (c p : Nat) :
    (∀ c1, ((b.leave_chan_membership c p).client c1).channels
        = if c1 = c then (b.client c).channels.filter (fun q => q != p)
          else (b.client c1).channels)
    ∧ (∀ h1, ((b.leave_chan_membership c p).channel h1).members
        = if h1 = (b.membership p).channel
          then (b.channel (b.membership p).channel).members.filter (fun q => q != p)
          else (b.channel h1).members)
    ∧ (b.leave_chan_membership c p).membershipObjs = b.membershipObjs
    ∧ (b.leave_chan_membership c p)._clients = b._clients
    ∧ (b.leave_chan_membership c p)._channels = b._channels
    ∧ (b.leave_chan_membership c p)._me = b._me
    ∧ (b.leave_chan_membership c p)._nick = b._nick
    ∧ (b.leave_chan_membership c p).clientObjs.length = b.clientObjs.length
    ∧ (b.leave_chan_membership c p).channelObjs.length = b.channelObjs.length
    ∧ (∀ c1, ((b.leave_chan_membership c p).client c1).nick = (b.client c1).nick) := by
  refine ⟨?_, ?_, rfl, rfl, rfl, rfl, rfl, by simp [Bot.leave_chan_membership, Bot.setClient,
    Bot.setChannel], by simp [Bot.leave_chan_membership, Bot.setClient, Bot.setChannel], ?_⟩
  · intro c1
    exact setClient_filter b c _ c1
  · intro h1
    exact setChannel_filter (b.setClient c
      { b.client c with channels := (b.client c).channels.filter (fun q => q != p) })
      (b.membership p).channel _ h1
  · intro c1
    simp only [Bot.leave_chan_membership, Bot.setChannel, Bot.setClient, Bot.client, getD_set]
    split
    · next e => rw [← e.1]
    · rfl

theorem WF_leave_chan_membership (b : Bot) (c p : Nat) (h : b.WF)
    (hp : (b.membership p).client = c) : (b.leave_chan_membership c p).WF := by
  obtain ⟨s1, s2, s3, s4, s5, _, _, s8, s9, _⟩ := leave_chan_membership_spec b c p
  have hm : ∀ q, (b.leave_chan_membership c p).membership q = b.membership q := by
    intro q; simp [Bot.membership, s3]
  refine ⟨⟨?_, ?_⟩, ?_, ?_⟩
  · intro c1 q hq
    rw [s1] at hq
    rw [s3, hm q, s2]
    have hq2 : q ∈ (b.client c1).channels ∧ (c1 = c → q ≠ p) := by
      by_cases e : c1 = c
      · subst e
        rw [if_pos rfl] at hq
        have := List.mem_filter.mp hq
        exact ⟨this.1, fun _ => by simpa using this.2⟩
      · rw [if_neg e] at hq
        exact ⟨hq, fun x => absurd x e⟩
    obtain ⟨a1, a2, a3⟩ := h.1.1 c1 q hq2.1
    refine ⟨a1, a2, ?_⟩
    have hne : q ≠ p := by
      by_cases e : c1 = c
      · exact hq2.2 e
      · intro x; subst x; exact e (a2.symm.trans hp)
    split
    · next e => rw [← e]; exact List.mem_filter.mpr ⟨a3, by simpa using hne⟩
    · exact a3
  · intro h1 q hq
    rw [s2] at hq
    rw [s3, hm q, s1]
    have hq2 : q ∈ (b.channel h1).members ∧ (h1 = (b.membership p).channel → q ≠ p) := by
      by_cases e : h1 = (b.membership p).channel
      · rw [if_pos e, ← e] at hq
        have := List.mem_filter.mp hq
        exact ⟨this.1, fun _ => by simpa using this.2⟩
      · rw [if_neg e] at hq
        exact ⟨hq, fun x => absurd x e⟩
    obtain ⟨a1, a2, a3⟩ := h.1.2 h1 q hq2.1
    refine ⟨a1, a2, ?_⟩
    have hne : q ≠ p := by
      by_cases e : h1 = (b.membership p).channel
      · exact hq2.2 e
      · intro x; subst x; exact e a2.symm
    split
    · next e => rw [e] at a3; exact List.mem_filter.mpr ⟨a3, by simpa using hne⟩
    · exact a3
  · intro e he
    rw [s4] at he
    rw [s8]
    exact h.2.1 e he
  · intro e he
    rw [s5] at he
    rw [s9]
    exact h.2.2 e he

theorem WF_leave_chan (b : Bot) (c ch : Nat) (h : b.WF) : (b.leave_chan c ch).WF := by
  unfold Bot.leave_chan
  cases hf : b.find_membership c ch with
  | none => exact h
  | some p =>
    exact WF_leave_chan_membership b c p h (h.1.1 c p (find_membership_mem b c ch p hf).1).2.1

theorem WF_unwind (ps : List Nat) :
    ∀ b : Bot, b.WF →
      (ps.foldl (fun acc p => acc.leave_chan_membership (acc.membership p).client p) b).WF := by
  induction ps with
  | nil => intro b h; exact h
  | cons p ps ih =>
    intro b h
    exact ih _ (WF_leave_chan_membership b _ p h rfl)

theorem WF_quit_loop (c : Nat) (ps : List Nat) :
    ∀ b : Bot, b.WF → (∀ p ∈ ps, (b.membership p).client = c) →
      (ps.foldl (fun acc p => acc.leave_chan_membership c p) b).WF := by
  induction ps with
  | nil => intro b h _; exact h
  | cons p ps ih =>
    intro b h hp
    refine ih _ (WF_leave_chan_membership b c p h (hp p (by simp))) ?_
    intro q hq
    have : (b.leave_chan_membership c p).membership q = b.membership q := by
      simp [Bot.membership, (leave_chan_membership_spec b c p).2.2.1]
    rw [this]
    exact hp q (by simp [hq])

theorem WF_client_leaving_channel (b : Bot) (c ch : Option Nat) (h : b.WF) :
    (client_leaving_channel b c ch).WF := by
  unfold client_leaving_channel
  cases c with
  | none => exact h
  | some c =>
    cases ch with
    | none => exact h
    | some ch =>
      have h1 := WF_leave_chan b c ch h
      have h2 : (if ((b.leave_chan c ch).client c).channels.isEmpty
          then (b.leave_chan c ch).remove_client c else b.leave_chan c ch).WF := by
        split
        · exact WF_remove_client _ c h1
        · exact h1
      simp only
      generalize (if ((b.leave_chan c ch).client c).channels.isEmpty
          then (b.leave_chan c ch).remove_client c else b.leave_chan c ch) = b2 at h2 ⊢
      split
      · exact h2
      · exact WF_remove_channel _ ch (WF_unwind _ _ h2)

theorem WF_handle_part (b : Bot) (m : Message) (h : b.WF) : (handle_part b m).WF :=
  WF_client_leaving_channel b _ _ h

theorem WF_handle_kick (b : Bot) (m : Message) (h : b.WF) : (handle_kick b m).WF := by
  unfold handle_kick
  split
  · exact h
  · exact WF_client_leaving_channel b _ _ h

theorem WF_handle_quit (b : Bot) (m : Message) (h : b.WF) : (handle_quit b m).WF := by
  unfold handle_quit
  cases hc : m.source.client with
  | none => exact h
  | some c =>
    exact WF_remove_client _ c (WF_quit_loop c _ b h (fun p hp => (h.1.1 c p hp).2.1))

theorem WF_change_nick (b : Bot) (c : Nat) (newnick : Str) (h : b.WF)
    (hc : c < b.clientObjs.length) : (b.change_nick c newnick).WF := by
  unfold Bot.change_nick
  have h1 := WF_remove_client b c h
  have h2 : ((b.remove_client c).setClient c
      { (b.remove_client c).client c with nick := newnick }).WF := by
    refine ⟨GraphOk_of_same (b.remove_client c) _ (client_channels_set _ c _ rfl) (fun _ => rfl)
      (fun _ => ⟨rfl, rfl⟩) rfl h1.1, ?_, h1.2.2⟩
    intro e he
    have := h1.2.1 e he
    simpa [Bot.setClient] using this
  exact WF_add_client _ c h2 (by simpa [Bot.setClient, Bot.remove_client] using hc)

theorem WF_handle_nick (b : Bot) (m : Message) (h : b.WF) (hm : m.ValidFor b) :
    (handle_nick b m).WF := by
  unfold handle_nick
  cases hc : m.source.client with
  | none => exact h
  | some c => exact WF_change_nick b c _ h (hm c hc)

theorem WF_handle_account (b : Bot) (m : Message) (h : b.WF) : (handle_account b m).WF := by
  unfold handle_account
  cases hc : m.source.client with
  | none => exact h
  | some c => exact (WF_set_account b c _ h).1

theorem WF_who_flags (p : Nat) (flags : Str) : ∀ b : Bot, b.WF → (who_flags b p flags).WF := by
  induction flags with
  | nil => intro b h; exact h
  | cons f fs ih =>
    intro b h
    have hstep : who_flags b p (f :: fs)
        = who_flags (if (b.get_prefix_mode f ≠ Char.ofNat 0
            && !(b.membership p).has_mode (b.get_prefix_mode f)) = true
          then b.setMembership p { b.membership p with
              modes := (b.membership p).modes ++ [b.get_prefix_mode f] }
          else b) p fs := by
      simp only [who_flags, List.foldl_cons]
    rw [hstep]
    apply ih
    split
    · refine ⟨GraphOk_of_same b _ (fun _ => rfl) (fun _ => rfl)
        (membership_set_same b p _ rfl rfl) (by simp [Bot.setMembership]) h.1, h.2.1, h.2.2⟩
    · exact h

theorem WF_who_reply_common (b : Bot) (chname nick user hostname flags account : Str)
    (h : b.WF) : (who_reply_common b chname nick user hostname flags account).WF := by
  obtain ⟨a1, a2, _⟩ := WF_find_or_create_client b nick user hostname h
  have e : who_reply_common b chname nick user hostname flags account
      = who_flags
          ((find_or_create_channel
            (if (find_or_create_client b nick user hostname).1.use_account_tracking
                && !account.isEmpty
              then (find_or_create_client b nick user hostname).1.set_account
                (find_or_create_client b nick user hostname).2 account
              else (find_or_create_client b nick user hostname).1) chname).1.join_chan
            (find_or_create_client b nick user hostname).2
            (find_or_create_channel
            (if (find_or_create_client b nick user hostname).1.use_account_tracking
                && !account.isEmpty
              then (find_or_create_client b nick user hostname).1.set_account
                (find_or_create_client b nick user hostname).2 account
              else (find_or_create_client b nick user hostname).1) chname).2).1
          ((find_or_create_channel
            (if (find_or_create_client b nick user hostname).1.use_account_tracking
                && !account.isEmpty
              then (find_or_create_client b nick user hostname).1.set_account
                (find_or_create_client b nick user hostname).2 account
              else (find_or_create_client b nick user hostname).1) chname).1.join_chan
            (find_or_create_client b nick user hostname).2
            (find_or_create_channel
            (if (find_or_create_client b nick user hostname).1.use_account_tracking
                && !account.isEmpty
              then (find_or_create_client b nick user hostname).1.set_account
                (find_or_create_client b nick user hostname).2 account
              else (find_or_create_client b nick user hostname).1) chname).2).2 flags := rfl
  rw [e]
  generalize (find_or_create_client b nick user hostname).1 = b1 at *
  generalize (find_or_create_client b nick user hostname).2 = c at *
  have h2 : (if b1.use_account_tracking && !account.isEmpty then b1.set_account c account
      else b1).WF ∧ c < (if b1.use_account_tracking && !account.isEmpty
        then b1.set_account c account else b1).clientObjs.length := by
    split
    · obtain ⟨w1, w2, _⟩ := WF_set_account b1 c account a1
      exact ⟨w1, by rw [w2]; exact a2⟩
    · exact ⟨a1, a2⟩
  generalize (if b1.use_account_tracking && !account.isEmpty then b1.set_account c account
      else b1) = b2 at *
  obtain ⟨c1, c2, c3, _⟩ := WF_find_or_create_channel b2 chname h2.1
  exact WF_who_flags _ _ _ (WF_join_chan _ c _ c1 (by rw [c3]; exact h2.2) c2).1

theorem WF_handle_who_reply (b : Bot) (m : Message) (h : b.WF) : (handle_who_reply b m).WF := by
  unfold handle_who_reply
  split
  · exact h
  · exact WF_who_reply_common _ _ _ _ _ _ _ h

theorem WF_handle_whox_reply (b : Bot) (m : Message) (h : b.WF) :
    (handle_whox_reply b m).WF := by
  unfold handle_whox_reply
  split
  · exact h
  · split
    · exact h
    · exact WF_who_reply_common _ _ _ _ _ _ _ h

theorem WF_send (b b1 : Bot) (line : Str) (h : b.WF) (hs : b.send line = some b1) : b1.WF := by
  unfold Bot.send at hs
  split at hs
  · simp only [Option.some.injEq] at hs
    subst hs
    exact ⟨GraphOk_of_objs b _ rfl rfl rfl h.1, h.2.1, h.2.2⟩
  · exact absurd hs (by simp)

theorem WF_handle_join (b b1 : Bot) (m : Message) (h : b.WF) (hm : m.ValidFor b)
    (hj : handle_join b m = some b1) : b1.WF := by
  unfold handle_join at hj
  simp only [Option.bind_eq_bind, Option.bind_eq_some] at hj
  obtain ⟨⟨b2, c⟩, hfc, hj⟩ := hj
  obtain ⟨a1, a2, _⟩ := WF_find_or_create_client_msg b b2 m c h hm hfc
  obtain ⟨c1, c2, c3, _⟩ := WF_find_or_create_channel b2 m.source.destination a1
  simp only at hj
  generalize (find_or_create_channel b2 m.source.destination).1 = b3 at *
  generalize (find_or_create_channel b2 m.source.destination).2 = ch at *
  have h3 : (if b3.use_account_tracking && decide (m.args.length > 0)
      then b3.set_account c (m.args.getD 0 []) else b3).WF
      ∧ c < (if b3.use_account_tracking && decide (m.args.length > 0)
        then b3.set_account c (m.args.getD 0 []) else b3).clientObjs.length
      ∧ ch < (if b3.use_account_tracking && decide (m.args.length > 0)
        then b3.set_account c (m.args.getD 0 []) else b3).channelObjs.length := by
    split
    · obtain ⟨w1, w2, w3⟩ := WF_set_account b3 c (m.args.getD 0 []) c1
      exact ⟨w1, by rw [w2, c3]; exact a2, by rw [w3]; exact c2⟩
    · exact ⟨c1, by rw [c3]; exact a2, c2⟩
  generalize (if b3.use_account_tracking && decide (m.args.length > 0)
      then b3.set_account c (m.args.getD 0 []) else b3) = b4 at *
  have h5 := (WF_join_chan b4 c ch h3.1 h3.2.1 h3.2.2).1
  split at hj
  · exact WF_send _ _ _ h5 hj
  · simp only [Option.some.injEq] at hj
    subst hj
    exact h5

theorem parse_client (cl : List (Str × Nat)) (line : Str) (m : Message)
    (h : handle_message_parse cl line = some m) :
    m.source.client = none ∨ ∃ k, m.source.client = map_find cl k := by
  unfold handle_message_parse at h
  simp only [Option.bind_eq_bind, Option.bind_eq_some] at h
  obtain ⟨l1, _, l2, _, c0, _, sraw, _, name, _, cmd, _, d0, _, dc, _, dest, _, args, _, hm⟩ := h
  simp only [Option.some.injEq] at hm
  subst hm
  simp only
  split
  · exact Or.inr ⟨_, rfl⟩
  · exact Or.inl rfl

theorem parse_valid (b : Bot) (line : Str) (m : Message) (h : b.WF)
    (hp : handle_message_parse b._clients line = some m) : m.ValidFor b := by
  intro c hc
  rcases parse_client _ _ _ hp with h1 | ⟨k, h1⟩
  · rw [h1] at hc; exact absurd hc (by simp)
  · rw [h1] at hc
    obtain ⟨e, he, hv⟩ := map_find_mem _ _ _ hc
    exact hv ▸ h.2.1 e he

theorem WF_Bot_handle_nick (b : Bot) (m : Message) (h : b.WF) : (b.handle_nick m).WF := by
  unfold Bot.handle_nick
  split
  · exact ⟨GraphOk_of_objs b _ rfl rfl rfl h.1, h.2.1, h.2.2⟩
  · exact h

theorem WF_dispatch (b b1 : Bot) (m : Message) (h : b.WF) (hm : m.ValidFor b)
    (hd : dispatch b m = some b1) : b1.WF := by
  unfold dispatch at hd
  split at hd
  · simp only [Option.some.injEq] at hd; subst hd
    exact ⟨GraphOk_of_objs b _ rfl rfl rfl h.1, h.2.1, h.2.2⟩
  split at hd
  · simp only [Option.some.injEq] at hd; subst hd
    refine WF_handle_nick _ m (WF_Bot_handle_nick b m h) ?_
    intro c hc
    have := hm c hc
    unfold Bot.handle_nick
    split <;> exact this
  split at hd
  · split at hd
    · unfold Bot.handle_433 at hd
      split at hd
      · exact absurd hd (by simp)
      · simp only [Option.some.injEq] at hd; subst hd
        exact ⟨GraphOk_of_objs b _ rfl rfl rfl h.1, h.2.1, h.2.2⟩
    · simp only [Option.some.injEq] at hd; subst hd; exact h
  split at hd
  · exact WF_handle_join b b1 m h hm hd
  split at hd
  · simp only [Option.some.injEq] at hd; subst hd; exact WF_handle_part b m h
  split at hd
  · simp only [Option.some.injEq] at hd; subst hd; exact WF_handle_quit b m h
  split at hd
  · simp only [Option.some.injEq] at hd; subst hd; exact WF_handle_account b m h
  split at hd
  · simp only [Option.some.injEq] at hd; subst hd; exact WF_handle_who_reply b m h
  split at hd
  · simp only [Option.some.injEq] at hd; subst hd; exact WF_handle_whox_reply b m h
  split at hd
  · simp only [Option.some.injEq] at hd; subst hd; exact WF_handle_kick b m h
  · simp only [Option.some.injEq] at hd; subst hd; exact h

theorem WF_handle_message (b b1 : Bot) (line : Str) (h : b.WF)
    (hh : handle_message b line = some b1) : b1.WF := by
  unfold handle_message at hh
  simp only [Option.bind_eq_bind, Option.bind_eq_some] at hh
  obtain ⟨m, hp, hd⟩ := hh
  exact WF_dispatch b b1 m h (parse_valid b line m h hp) hd

theorem WF_step (b b1 : Bot) (e : Event) (h : b.WF) (hs : b.step e = some b1) : b1.WF := by
  cases e with
  | line l => exact WF_handle_message b b1 l h hs
  | cap_enabled args =>
    simp only [Bot.step, Option.some.injEq] at hs
    subst hs
    unfold Bot.cap_enabled
    cases args with
    | nil => exact h
    | cons a as =>
      simp only
      split <;> split <;> exact ⟨GraphOk_of_objs b _ rfl rfl rfl h.1, h.2.1, h.2.2⟩
  | isupport_enabled args =>
    simp only [Bot.step, Option.some.injEq] at hs
    subst hs
    unfold Bot.isupport_enabled
    cases args with
    | nil => exact h
    | cons a as =>
      simp only
      split
      · exact ⟨GraphOk_of_objs b _ rfl rfl rfl h.1, h.2.1, h.2.2⟩
      · exact h

theorem WF_run (es : List Event) : ∀ (b b1 : Bot), b.WF → b.run es = some b1 → b1.WF := by
  induction es with
  | nil =>
    intro b b1 h hr
    simp only [Bot.run, Option.some.injEq] at hr
    exact hr ▸ h
  | cons e es ih =>
    intro b b1 h hr
    simp only [Bot.run, Option.bind_eq_some] at hr
    obtain ⟨b2, hs, hr2⟩ := hr
    exact ih b2 b1 (WF_step b b2 e h hs) hr2

theorem WF_init (nick : Str) (supported : List (Char × Char)) (w n e : Bool) :
    (Bot.init nick supported w n e).WF := by
  refine ⟨⟨?_, ?_⟩, ?_, ?_⟩
  · intro c p hp
    have : ((Bot.init nick supported w n e).client c).channels = [] := by
      simp [Bot.init, Bot.client]
      rfl
    rw [this] at hp
    exact absurd hp (by simp)
  · intro c p hp
    have : ((Bot.init nick supported w n e).channel c).members = [] := by
      simp [Bot.init, Bot.channel]
      rfl
    rw [this] at hp
    exact absurd hp (by simp)
  · intro e he; simp [Bot.init] at he
  · intro e he; simp [Bot.init] at he

/-! ## The bot leaving a channel -/

/-- C4 (failing input): the bot and `x` join `#a`, then the bot parts `#a`.
Afterwards `x` is still in the client registry although it holds no
Membership: the loop that unwinds the channel in `client_leaving_channel` does
not remove the clients it leaves memberless. -/
theorem C4_memberless_client_stays_registered :
    ((Bot.init "bot".toList [] false false false).run
        [Event.line ":bot!u@h JOIN #a".toList, Event.line ":x!u@h JOIN #a".toList,
         Event.line ":bot!u@h PART #a".toList]).map
      (fun b => (b.find_client "x".toList, (b.client 1).nick, (b.client 1).channels,
        b.find_channel "#a".toList))
      = some (some 1, "x".toList, [], none) := by
  decide

/-- C5 (failing input): the bot joins `#a`, parts it, joins it again together
with `x`, and parts it again.  Before the last PART the bot's client (object 1)
is a member of `#a` (channel object 1); after it `find_channel("#a")` still
returns that channel and the Membership of `x` in it is still there, because
`Bot::me()` still is the client object of the first join (object 0). -/
theorem C5_rejoined_channel_not_removed :
    ((Bot.init "bot".toList [] false false false).run
        [Event.line ":bot!u@h JOIN #a".toList, Event.line ":bot!u@h PART #a".toList,
         Event.line ":bot!u@h JOIN #a".toList, Event.line ":x!u@h JOIN #a".toList]).map
      (fun b => (b._me, b.find_client "bot".toList, b.find_channel "#a".toList,
        (b.client 1).channels, (b.channel 1).members))
      = some (some 0, some 1, some 1, [1], [1, 2])
    ∧ ((Bot.init "bot".toList [] false false false).run
        [Event.line ":bot!u@h JOIN #a".toList, Event.line ":bot!u@h PART #a".toList,
         Event.line ":bot!u@h JOIN #a".toList, Event.line ":x!u@h JOIN #a".toList,
         Event.line ":bot!u@h PART #a".toList]).map
      (fun b => (b._me, b.find_channel "#a".toList, (b.channel 1).members,
        (b.membership 2).channel, (b.client 2).channels))
      = some (some 0, some 1, [2], 1, [2]) := by
  refine ⟨?_, ?_⟩ <;> decide

/-! ## Handling a line always returns on a connected bot -/

theorem Connected_of_eq (b b1 : Bot) (h1 : b1._connected = b._connected)
    (h2 : b1._server = b._server) (h : b.Connected) : b1.Connected := by
  unfold Bot.Connected
  rw [h1, h2]
  exact h

theorem leave_chan_conn (b : Bot) (c ch : Nat) :
    (b.leave_chan c ch)._connected = b._connected ∧ (b.leave_chan c ch)._server = b._server := by
  unfold Bot.leave_chan
  split
  · exact ⟨rfl, rfl⟩
  · exact ⟨rfl, rfl⟩

theorem unwind_conn (ps : List Nat) : ∀ b : Bot,
    (ps.foldl (fun acc p => acc.leave_chan_membership (acc.membership p).client p) b)._connected
      = b._connected
    ∧ (ps.foldl (fun acc p => acc.leave_chan_membership (acc.membership p).client p) b)._server
      = b._server := by
  induction ps with
  | nil => intro b; exact ⟨rfl, rfl⟩
  | cons p ps ih => intro b; exact ih _

theorem quit_loop_conn (c : Nat) (ps : List Nat) : ∀ b : Bot,
    (ps.foldl (fun acc p => acc.leave_chan_membership c p) b)._connected = b._connected
    ∧ (ps.foldl (fun acc p => acc.leave_chan_membership c p) b)._server = b._server := by
  induction ps with
  | nil => intro b; exact ⟨rfl, rfl⟩
  | cons p ps ih => intro b; exact ih _

theorem Connected_client_leaving_channel (b : Bot) (c ch : Option Nat) (h : b.Connected) :
    (client_leaving_channel b c ch).Connected := by
  unfold client_leaving_channel
  cases c with
  | none => exact h
  | some c =>
    cases ch with
    | none => exact h
    | some ch =>
      have h1 : (b.leave_chan c ch).Connected :=
        Connected_of_eq b _ (leave_chan_conn b c ch).1 (leave_chan_conn b c ch).2 h
      have h2 : (if ((b.leave_chan c ch).client c).channels.isEmpty
          then (b.leave_chan c ch).remove_client c else b.leave_chan c ch).Connected := by
        split
        · exact Connected_of_eq _ _ rfl rfl h1
        · exact h1
      simp only
      generalize (if ((b.leave_chan c ch).client c).channels.isEmpty
          then (b.leave_chan c ch).remove_client c else b.leave_chan c ch) = b2 at h2 ⊢
      split
      · exact h2
      · exact Connected_of_eq b2 _ (unwind_conn _ b2).1 (unwind_conn _ b2).2 h2

theorem find_or_create_client_conn (b : Bot) (nick user host : Str) :
    (find_or_create_client b nick user host).1._connected = b._connected
    ∧ (find_or_create_client b nick user host).1._server = b._server := by
  unfold find_or_create_client
  split
  · exact ⟨rfl, rfl⟩
  · exact ⟨rfl, rfl⟩

theorem find_or_create_channel_conn (b : Bot) (name : Str) :
    (find_or_create_channel b name).1._connected = b._connected
    ∧ (find_or_create_channel b name).1._server = b._server := by
  unfold find_or_create_channel
  split
  · exact ⟨rfl, rfl⟩
  · exact ⟨rfl, rfl⟩

theorem join_chan_conn (b : Bot) (c ch : Nat) :
    (b.join_chan c ch).1._connected = b._connected
    ∧ (b.join_chan c ch).1._server = b._server := by
  unfold Bot.join_chan
  split
  · exact ⟨rfl, rfl⟩
  · exact ⟨rfl, rfl⟩

theorem who_flags_conn (p : Nat) (flags : Str) : ∀ b : Bot,
    (who_flags b p flags)._connected = b._connected
    ∧ (who_flags b p flags)._server = b._server := by
  induction flags with
  | nil => intro b; exact ⟨rfl, rfl⟩
  | cons f fs ih =>
    intro b
    have hstep : who_flags b p (f :: fs)
        = who_flags (if (b.get_prefix_mode f ≠ Char.ofNat 0
            && !(b.membership p).has_mode (b.get_prefix_mode f)) = true
          then b.setMembership p { b.membership p with
              modes := (b.membership p).modes ++ [b.get_prefix_mode f] }
          else b) p fs := by
      simp only [who_flags, List.foldl_cons]
    rw [hstep]
    obtain ⟨i1, i2⟩ := ih (if (b.get_prefix_mode f ≠ Char.ofNat 0
            && !(b.membership p).has_mode (b.get_prefix_mode f)) = true
          then b.setMembership p { b.membership p with
              modes := (b.membership p).modes ++ [b.get_prefix_mode f] }
          else b)
    rw [i1, i2]
    split
    · exact ⟨rfl, rfl⟩
    · exact ⟨rfl, rfl⟩

theorem Connected_who_reply_common (b : Bot) (chname nick user hostname flags account : Str)
    (h : b.Connected) : (who_reply_common b chname nick user hostname flags account).Connected := by
  have e : who_reply_common b chname nick user hostname flags account
      = who_flags
          ((find_or_create_channel
            (if (find_or_create_client b nick user hostname).1.use_account_tracking
                && !account.isEmpty
              then (find_or_create_client b nick user hostname).1.set_account
                (find_or_create_client b nick user hostname).2 account
              else (find_or_create_client b nick user hostname).1) chname).1.join_chan
            (find_or_create_client b nick user hostname).2
            (find_or_create_channel
            (if (find_or_create_client b nick user hostname).1.use_account_tracking
                && !account.isEmpty
              then (find_or_create_client b nick user hostname).1.set_account
                (find_or_create_client b nick user hostname).2 account
              else (find_or_create_client b nick user hostname).1) chname).2).1
          ((find_or_create_channel
            (if (find_or_create_client b nick user hostname).1.use_account_tracking
                && !account.isEmpty
              then (find_or_create_client b nick user hostname).1.set_account
                (find_or_create_client b nick user hostname).2 account
              else (find_or_create_client b nick user hostname).1) chname).1.join_chan
            (find_or_create_client b nick user hostname).2
            (find_or_create_channel
            (if (find_or_create_client b nick user hostname).1.use_account_tracking
                && !account.isEmpty
              then (find_or_create_client b nick user hostname).1.set_account
                (find_or_create_client b nick user hostname).2 account
              else (find_or_create_client b nick user hostname).1) chname).2).2 flags := rfl
  rw [e]
  have h1 : (find_or_create_client b nick user hostname).1.Connected :=
    Connected_of_eq b _ (find_or_create_client_conn b nick user hostname).1
      (find_or_create_client_conn b nick user hostname).2 h
  generalize (find_or_create_client b nick user hostname).1 = b1 at *
  generalize (find_or_create_client b nick user hostname).2 = c at *
  have h2 : (if b1.use_account_tracking && !account.isEmpty then b1.set_account c account
      else b1).Connected := by
    split
    · exact Connected_of_eq b1 _ rfl rfl h1
    · exact h1
  generalize (if b1.use_account_tracking && !account.isEmpty then b1.set_account c account
      else b1) = b2 at *
  have h3 : (find_or_create_channel b2 chname).1.Connected :=
    Connected_of_eq b2 _ (find_or_create_channel_conn b2 chname).1
      (find_or_create_channel_conn b2 chname).2 h2
  generalize (find_or_create_channel b2 chname).1 = b3 at *
  generalize (find_or_create_channel b2 chname).2 = ch at *
  have h4 : (b3.join_chan c ch).1.Connected :=
    Connected_of_eq b3 _ (join_chan_conn b3 c ch).1 (join_chan_conn b3 c ch).2 h3
  exact Connected_of_eq _ _ (who_flags_conn _ _ _).1 (who_flags_conn _ _ _).2 h4

theorem send_total (b : Bot) (line : Str) (h : b.Connected) :
    ∃ b1, b.send line = some b1 ∧ b1.Connected := by
  obtain ⟨h1, h2⟩ := h
  obtain ⟨out, ho⟩ := Option.isSome_iff_exists.mp h2
  unfold Bot.send
  rw [h1, ho]
  exact ⟨_, rfl, rfl, rfl⟩

theorem find_or_create_client_nuh_total (b : Bot) (name nuh : Str) (hlen : nuh.length < npos)
    (h : b.Connected) :
    ∃ b1 c, find_or_create_client_nuh b name nuh = some (b1, c) ∧ b1.Connected := by
  have hnpos : npos = 18446744073709551615 := rfl
  unfold find_or_create_client_nuh
  cases hf : b.find_client name with
  | some c => exact ⟨b, c, rfl, h⟩
  | none =>
    simp only
    by_cases hb : find nuh '!' 0 = npos
    · simp only [hb, if_true, Option.some_bind]
      exact ⟨_, _, rfl, Connected_of_eq b _ rfl rfl h⟩
    · have hbl : find nuh '!' 0 < nuh.length := by
        rcases find_bounds nuh '!' 0 with h1 | h1
        · exact absurd h1 hb
        · exact h1.2
      have ha : size_add (find nuh '!' 0) 1 ≤ nuh.length := next_pos_le nuh '!' 0 hlen
      have hat := next_pos_le nuh '@' (size_add (find nuh '!' 0) 1) hlen
      simp only [hb, if_false, substr_some nuh 0 _ (Nat.zero_le _), substr_some nuh _ _ ha,
        substr_some nuh _ _ hat, Option.some_bind]
      exact ⟨_, _, rfl, Connected_of_eq b _ rfl rfl h⟩

theorem strip_last_length (l l1 : Str) (c : Char) (h : strip_last l c = some l1) :
    l1.length ≤ l.length := by
  unfold strip_last at h
  split at h
  · exact absurd h (by simp)
  · split at h
    · simp only [Option.some.injEq] at h
      subst h
      simp
    · simp only [Option.some.injEq] at h
      subst h
      exact Nat.le_refl _

theorem substr_length (s r : Str) (pos n : Nat) (h : substr s pos n = some r) :
    r.length ≤ s.length := by
  unfold substr at h
  split at h
  · exact absurd h (by simp)
  · simp only [Option.some.injEq] at h
    subst h
    simp only [List.length_take, List.length_drop]
    omega

theorem parse_raw_length (cl : List (Str × Nat)) (line : Str) (m : Message)
    (h : handle_message_parse cl line = some m) : m.source.raw.length ≤ line.length := by
  unfold handle_message_parse at h
  simp only [Option.bind_eq_bind, Option.bind_eq_some] at h
  obtain ⟨l1, h1, l2, h2, c0, _, sraw, hs, name, _, cmd, _, d0, _, dc, _, dest, _, args, _, hm⟩ := h
  simp only [Option.some.injEq] at hm
  subst hm
  simp only
  have e1 := strip_last_length _ _ _ h1
  have e2 := strip_last_length _ _ _ h2
  split at hs
  · have := substr_length _ _ _ _ hs
    omega
  · simp only [Option.some.injEq] at hs
    subst hs
    simp

theorem handle_join_total (b : Bot) (m : Message) (h : b.Connected)
    (hraw : m.source.raw.length < npos) :
    ∃ b1, handle_join b m = some b1 ∧ b1.Connected := by
  obtain ⟨b2, c, hfc, hc2⟩ : ∃ b2 c, find_or_create_client_msg b m = some (b2, c) ∧ b2.Connected := by
    unfold find_or_create_client_msg
    cases m.source.client with
    | some c => exact ⟨b, c, rfl, h⟩
    | none => exact find_or_create_client_nuh_total b _ _ hraw h
  unfold handle_join
  simp only [Option.bind_eq_bind, hfc, Option.some_bind]
  have h3 : (find_or_create_channel b2 m.source.destination).1.Connected :=
    Connected_of_eq b2 _ (find_or_create_channel_conn b2 _).1
      (find_or_create_channel_conn b2 _).2 hc2
  generalize (find_or_create_channel b2 m.source.destination).1 = b3 at *
  generalize (find_or_create_channel b2 m.source.destination).2 = ch at *
  have h4 : (if b3.use_account_tracking && decide (m.args.length > 0)
      then b3.set_account c (m.args.getD 0 []) else b3).Connected := by
    split
    · exact Connected_of_eq b3 _ rfl rfl h3
    · exact h3
  generalize (if b3.use_account_tracking && decide (m.args.length > 0)
      then b3.set_account c (m.args.getD 0 []) else b3) = b4 at *
  have h5 : (b4.join_chan c ch).1.Connected :=
    Connected_of_eq b4 _ (join_chan_conn b4 c ch).1 (join_chan_conn b4 c ch).2 h4
  split
  · exact send_total _ _ h5
  · exact ⟨_, rfl, h5⟩

theorem dispatch_total (b : Bot) (m : Message) (h : b.Connected)
    (hraw : m.source.raw.length < npos) :
    ∃ b1, dispatch b m = some b1 ∧ b1.Connected := by
  unfold dispatch
  split
  · exact ⟨_, rfl, Connected_of_eq b _ rfl rfl h⟩
  split
  · refine ⟨_, rfl, ?_⟩
    have h1 : (b.handle_nick m).Connected := by
      unfold Bot.handle_nick
      split
      · exact Connected_of_eq b _ rfl rfl h
      · exact h
    unfold handle_nick
    split
    · exact h1
    · exact Connected_of_eq _ _ rfl rfl h1
  split
  · split
    · obtain ⟨h1, h2⟩ := h
      obtain ⟨out, ho⟩ := Option.isSome_iff_exists.mp h2
      unfold Bot.handle_433
      rw [ho]
      exact ⟨_, rfl, h1, rfl⟩
    · exact ⟨_, rfl, h⟩
  split
  · exact handle_join_total b m h hraw
  split
  · exact ⟨_, rfl, Connected_client_leaving_channel b _ _ h⟩
  split
  · refine ⟨_, rfl, ?_⟩
    unfold handle_quit
    split
    · exact h
    · exact Connected_of_eq b _ (quit_loop_conn _ _ b).1 (quit_loop_conn _ _ b).2 h
  split
  · refine ⟨_, rfl, ?_⟩
    unfold handle_account
    split
    · exact h
    · exact Connected_of_eq b _ rfl rfl h
  split
  · refine ⟨_, rfl, ?_⟩
    unfold handle_who_reply
    split
    · exact h
    · exact Connected_who_reply_common _ _ _ _ _ _ _ h
  split
  · refine ⟨_, rfl, ?_⟩
    unfold handle_whox_reply
    split
    · exact h
    · split
      · exact h
      · exact Connected_who_reply_common _ _ _ _ _ _ _ h
  split
  · refine ⟨_, rfl, ?_⟩
    unfold handle_kick
    split
    · exact h
    · exact Connected_client_leaving_channel b _ _ h
  · exact ⟨_, rfl, h⟩

theorem handle_message_total (b : Bot) (line : Str) (h : b.Connected) (hl : GoodLine line) :
    ∃ b1, handle_message b line = some b1 ∧ b1.Connected := by
  obtain ⟨hne, hcr, hlf, hlen⟩ := hl
  obtain ⟨m, hm, _⟩ := handle_message_parse_total b._clients line
    (strip_last_stable line '\n' hne hlf) (strip_last_stable line '\r' hne hcr) hlen
  have hraw := parse_raw_length _ _ _ hm
  obtain ⟨b1, hd, hc⟩ := dispatch_total b m h (by omega)
  exact ⟨b1, by simp [handle_message, hm, hd], hc⟩

theorem run_total (es : List Event) : ∀ b : Bot, b.Connected → (∀ e ∈ es, GoodEvent e) →
    ∃ b1, b.run es = some b1 := by
  induction es with
  | nil => intro b _ _; exact ⟨b, rfl⟩
  | cons e es ih =>
    intro b h hg
    have hstep : ∃ b2, b.step e = some b2 ∧ b2.Connected := by
      cases e with
      | line l => exact handle_message_total b l h (hg (Event.line l) (by simp))
      | cap_enabled args =>
        refine ⟨_, rfl, ?_⟩
        unfold Bot.cap_enabled
        cases args with
        | nil => exact h
        | cons a as =>
          simp only
          split <;> split <;> exact Connected_of_eq b _ rfl rfl h
      | isupport_enabled args =>
        refine ⟨_, rfl, ?_⟩
        unfold Bot.isupport_enabled
        cases args with
        | nil => exact h
        | cons a as =>
          simp only
          split
          · exact Connected_of_eq b _ rfl rfl h
          · exact h
    obtain ⟨b2, hs, hc⟩ := hstep
    obtain ⟨b1, hr⟩ := ih b2 hc (fun x hx => hg x (by simp [hx]))
    exact ⟨b1, by simp [Bot.run, hs, hr]⟩

/-! ## The duality invariant -/

theorem Connected_init (nick : Str) (supported : List (Char × Char)) (w n e : Bool) :
    (Bot.init nick supported w n e).Connected := ⟨rfl, rfl⟩

/-- C3: starting from a connected bot with an empty graph, after every sequence
of handled events (raw lines, among them JOIN, PART, KICK and QUIT, and the
internal capability events) the duality holds: a client lists a channel among
its memberships if and only if that channel lists a Membership whose client is
that client.  Every prefix of a sequence is a sequence, so this holds after
each event.  When every line of the sequence is non-empty, free of CR and LF
and shorter than `npos`, the handling of the sequence does return a state. -/
theorem C3_duality_invariant (nick : Str) (supported : List (Char × Char)) (w n e : Bool)
    (es : List Event) :
    (∀ b, (Bot.init nick supported w n e).run es = some b → b.Duality)
    ∧ ((∀ ev ∈ es, GoodEvent ev) →
        ∃ b, (Bot.init nick supported w n e).run es = some b ∧ b.Duality) := by
  have h1 : ∀ b, (Bot.init nick supported w n e).run es = some b → b.Duality :=
    fun b hrun => Duality_of_GraphOk b (WF_run es _ b (WF_init nick supported w n e) hrun).1
  refine ⟨h1, fun hg => ?_⟩
  obtain ⟨b, hb⟩ := run_total es _ (Connected_init nick supported w n e) hg
  exact ⟨b, hb, h1 b hb⟩

/-- Witness for C3: the bot and `x` join `#a`, `x` is kicked, the bot parts and quits. -/
theorem C3_duality_invariant_witness :
    ∃ b, (Bot.init "bot".toList [] false false false).run
        [Event.line ":bot!u@h JOIN #a".toList, Event.line ":x!u@h JOIN #a".toList,
         Event.line ":bot!u@h KICK #a x".toList, Event.line ":bot!u@h PART #a".toList,
         Event.line ":bot!u@h QUIT".toList] = some b ∧ b.Duality :=
  (C3_duality_invariant "bot".toList [] false false false
      [Event.line ":bot!u@h JOIN #a".toList, Event.line ":x!u@h JOIN #a".toList,
       Event.line ":bot!u@h KICK #a x".toList, Event.line ":bot!u@h PART #a".toList,
       Event.line ":bot!u@h QUIT".toList]).2
    (by
      intro ev hev
      simp only [List.mem_cons, List.mem_singleton, List.not_mem_nil, or_false] at hev
      rcases hev with rfl | rfl | rfl | rfl | rfl <;>
        exact ⟨by decide, by decide, by decide, by decide⟩)

/-! ## C11: the parser completes on every line with a character other than CR and LF -/

theorem strip_last_mem (L : Str) (c x : Char) (hx : x ∈ L) (hxc : x ≠ c) :
    ∃ L1, strip_last L c = some L1 ∧ x ∈ L1 ∧ L1.length ≤ L.length := by
  unfold strip_last
  cases hl : L.getLast? with
  | none =>
    have : L = [] := List.getLast?_eq_none_iff.mp hl
    subst this
    exact absurd hx (by simp)
  | some y =>
    by_cases hy : y = c
    · refine ⟨L.dropLast, by simp [hy], ?_, by simp⟩
      have hL : L = L.dropLast ++ [y] := (List.dropLast_append_getLast? y hl).symm
      rw [hL] at hx
      rcases List.mem_append.mp hx with h | h
      · exact h
      · simp only [List.mem_singleton] at h
        exact absurd (h.trans hy) hxc
    · exact ⟨L, by simp [hy], hx, le_refl _⟩

/-- C11: a raw line that holds at least one character other than CR and LF (and
is of a length a `std::string` can have) is parsed to a message: none of the
accesses of the parsing part of `handle_message` is out of range and nothing is
raised, whatever the shape of the line. -/
theorem C11_parse_completes (cl : List (Str × Nat)) (line : Str) (x : Char)
    (hx : x ∈ line) (hr : x ≠ '\r') (hn : x ≠ '\n') (hlen : line.length < npos) :
    ∃ m, handle_message_parse cl line = some m := by
  obtain ⟨l1, h1, hx1, hl1⟩ := strip_last_mem line '\n' x hx hn
  obtain ⟨l2, h2, _, hl2⟩ := strip_last_mem l1 '\r' x hx1 hr
  obtain ⟨m, hm, _⟩ := handle_message_parse_total_strip cl line l1 l2 h1 h2 (by omega)
  exact ⟨m, hm⟩

/-- Witness for C11: a line with a bare command and a CR LF ending. -/
theorem C11_parse_completes_witness :
    ∃ m, handle_message_parse [] ":n!u PING\r\n".toList = some m :=
  C11_parse_completes [] ":n!u PING\r\n".toList 'n' (by decide) (by decide) (by decide)
    (by decide)

/-! ## C14: PART and KICK that name nothing known -/

theorem command_is_excl (k1 k2 : String) (c : Str) (h1 : command_is k1 c = true)
    (hne : k1.toList.map Char.toLower ≠ k2.toList.map Char.toLower) :
    ¬ (command_is k2 c = true) := by
  intro h2
  unfold command_is at h1 h2
  rw [beq_iff_eq] at h1 h2
  exact hne (h1.trans h2.symm)

theorem dispatch_part (b : Bot) (m : Message) (h : command_is "PART" m.command = true) :
    dispatch b m = some (handle_part b m) := by
  unfold dispatch
  rw [if_neg (command_is_excl "PART" "001" _ h (by decide)),
    if_neg (command_is_excl "PART" "NICK" _ h (by decide)),
    if_neg (command_is_excl "PART" "433" _ h (by decide)),
    if_neg (command_is_excl "PART" "JOIN" _ h (by decide)), if_pos h]

theorem dispatch_kick (b : Bot) (m : Message) (h : command_is "KICK" m.command = true) :
    dispatch b m = some (handle_kick b m) := by
  unfold dispatch
  rw [if_neg (command_is_excl "KICK" "001" _ h (by decide)),
    if_neg (command_is_excl "KICK" "NICK" _ h (by decide)),
    if_neg (command_is_excl "KICK" "433" _ h (by decide)),
    if_neg (command_is_excl "KICK" "JOIN" _ h (by decide)),
    if_neg (command_is_excl "KICK" "PART" _ h (by decide)),
    if_neg (command_is_excl "KICK" "QUIT" _ h (by decide)),
    if_neg (command_is_excl "KICK" "ACCOUNT" _ h (by decide)),
    if_neg (command_is_excl "KICK" "352" _ h (by decide)),
    if_neg (command_is_excl "KICK" "354" _ h (by decide)), if_pos h]

theorem handle_part_unknown (b : Bot) (m : Message)
    (h : m.source.client = none ∨ b.find_channel m.source.destination = none) :
    handle_part b m = b := by
  unfold handle_part client_leaving_channel
  rcases h with h | h
  · rw [h]
  · rw [h]
    cases m.source.client <;> rfl

theorem handle_kick_unknown (b : Bot) (m : Message)
    (h : m.args = [] ∨ b.find_client (m.args.getD 0 []) = none
      ∨ b.find_channel m.source.destination = none) :
    handle_kick b m = b := by
  unfold handle_kick
  by_cases he : m.args.isEmpty = true
  · rw [if_pos he]
  · rw [if_neg he]
    unfold client_leaving_channel
    rcases h with h | h | h
    · exact absurd (by rw [h]; rfl) he
    · rw [h]
    · rw [h]
      cases b.find_client (m.args.getD 0 []) <;> rfl

/-- C14: a PART whose source client is not resolved or whose destination is
not a registered channel, and a KICK that carries no argument, whose first
argument is not a registered nick or whose destination is not a registered
channel, leave the whole bot state as it was (both registries and every
Membership), and dispatching such an event returns normally. -/
theorem C14_unknown_part_kick_noop (b : Bot) (m : Message) :
    ((m.source.client = none ∨ b.find_channel m.source.destination = none) →
      handle_part b m = b
        ∧ (command_is "PART" m.command = true → dispatch b m = some b))
    ∧ ((m.args = [] ∨ b.find_client (m.args.getD 0 []) = none
          ∨ b.find_channel m.source.destination = none) →
      handle_kick b m = b
        ∧ (command_is "KICK" m.command = true → dispatch b m = some b)) := by
  refine ⟨fun h => ⟨handle_part_unknown b m h, fun hc => ?_⟩,
    fun h => ⟨handle_kick_unknown b m h, fun hc => ?_⟩⟩
  · rw [dispatch_part b m hc, handle_part_unknown b m h]
  · rw [dispatch_kick b m hc, handle_kick_unknown b m h]

/-- Witness for C14: in the state after `n` joined `#a`, a PART of `n` from the
unknown channel `#b` and a KICK of the unknown nick `x` from `#a` change
nothing. -/
theorem C14_unknown_part_kick_noop_witness :
    dispatch ((Bot.init "bot".toList [] false false false).after
        [Event.line ":n!u@h JOIN #a".toList])
        { raw := [], command := "PART".toList
          source := { raw := "n!u@h".toList, name := "n".toList, client := some 0
                      destination := "#b".toList, reply_func := [], error_func := [] }
          args := [] }
      = some ((Bot.init "bot".toList [] false false false).after
        [Event.line ":n!u@h JOIN #a".toList])
    ∧ dispatch ((Bot.init "bot".toList [] false false false).after
        [Event.line ":n!u@h JOIN #a".toList])
        { raw := [], command := "KICK".toList
          source := { raw := "n!u@h".toList, name := "n".toList, client := some 0
                      destination := "#a".toList, reply_func := [], error_func := [] }
          args := ["x".toList] }
      = some ((Bot.init "bot".toList [] false false false).after
        [Event.line ":n!u@h JOIN #a".toList]) :=
  ⟨((C14_unknown_part_kick_noop _ _).1 (Or.inr (by decide))).2 (by decide),
   ((C14_unknown_part_kick_noop _ _).2 (Or.inr (Or.inl (by decide)))).2 (by decide)⟩

/-! ## C19: what `Bot::send` hands to the server -/

theorem find_first_of_in_spec (cs s : Str) (i : Nat) :
    find_first_of_in cs s i
      = if (s.takeWhile (fun x => decide (x ∉ cs))).length = s.length then npos
        else i + (s.takeWhile (fun x => decide (x ∉ cs))).length := by
  induction s generalizing i with
  | nil => simp [find_first_of_in]
  | cons x xs ih =>
    by_cases hx : x ∈ cs
    · simp [find_first_of_in, hx, List.takeWhile]
    · simp only [find_first_of_in, hx, if_false, List.takeWhile, not_false_eq_true, decide_True,
        List.length_cons, ih (i + 1), Nat.add_right_cancel_iff]
      split
      · rfl
      · omega

theorem take_length_takeWhile (p : Char → Bool) (s : Str) :
    s.take (s.takeWhile p).length = s.takeWhile p := by
  induction s with
  | nil => rfl
  | cons x xs ih =>
    by_cases hx : p x = true
    · simp [List.takeWhile, hx, ih]
    · simp [List.takeWhile, hx]

theorem takeWhile_length_eq (p : Char → Bool) (s : Str)
    (h : (s.takeWhile p).length = s.length) : s.takeWhile p = s := by
  have := take_length_takeWhile p s
  rw [h, List.take_length] at this
  exact this.symm

theorem find_first_of_ne_npos (s cs : Str) (hlen : s.length < npos) :
    find_first_of s cs ≠ npos ↔ ∃ x ∈ s, x ∈ cs := by
  unfold find_first_of
  rw [find_first_of_in_spec]
  have hle : (s.takeWhile (fun x => decide (x ∉ cs))).length ≤ s.length :=
    (List.takeWhile_sublist _).length_le
  constructor
  · intro h
    by_contra hno
    apply h
    have hall : ∀ x ∈ s, (fun x => decide (x ∉ cs)) x = true := by
      intro x hx
      simp only [decide_eq_true_eq]
      exact fun hc => hno ⟨x, hx, hc⟩
    rw [List.takeWhile_eq_self_iff.mpr hall, if_pos rfl]
  · rintro ⟨x, hx, hc⟩
    have hne : (s.takeWhile (fun x => decide (x ∉ cs))).length ≠ s.length := by
      intro he
      have h1 := takeWhile_length_eq _ s he
      have h2 := List.takeWhile_eq_self_iff.mp h1 x hx
      simp only [decide_eq_true_eq] at h2
      exact h2 hc
    rw [if_neg hne]
    omega

theorem send_spec (b : Bot) (out : List Str) (line : Str) (hc : b._connected = true)
    (hs : b._server = some out) (hlen : line.length < npos) :
    b.send line = some { b with _server := some (out ++
      [line.takeWhile (fun x => decide (x ∉ ['\r', '\n']))]) } := by
  have hle : (line.takeWhile (fun x => decide (x ∉ ['\r', '\n']))).length ≤ line.length :=
    (List.takeWhile_sublist _).length_le
  unfold Bot.send
  rw [hc, hs]
  simp only
  unfold find_first_of
  rw [find_first_of_in_spec]
  by_cases he : (line.takeWhile (fun x => decide (x ∉ ['\r', '\n']))).length = line.length
  · rw [if_pos he, if_neg (by simp), takeWhile_length_eq _ _ he]
  · rw [if_neg he, if_pos (by omega), Nat.zero_add, take_length_takeWhile]

theorem send_cuts (b : Bot) (out : List Str) (line : Str)
    (hc : b._connected = true) (hs : b._server = some out) (hlen : line.length < npos) :
    ∃ sent, b.send line = some { b with _server := some (out ++ [sent]) }
      ∧ sent = line.takeWhile (fun x => decide (x ≠ '\r' ∧ x ≠ '\n'))
      ∧ '\r' ∉ sent ∧ '\n' ∉ sent
      ∧ ('\r' ∉ line ∧ '\n' ∉ line → sent = line) := by
  have hfun : (fun x : Char => decide (x ≠ '\r' ∧ x ≠ '\n'))
      = (fun x => decide (x ∉ ['\r', '\n'])) := by
    funext x
    simp
  have hmem : ∀ x ∈ line.takeWhile (fun x => decide (x ∉ ['\r', '\n'])),
      x ∉ ['\r', '\n'] := by
    intro x hx
    have := List.mem_takeWhile_imp hx
    simpa using this
  refine ⟨_, send_spec b out line hc hs hlen, by rw [hfun], ?_, ?_, ?_⟩
  · intro h
    exact hmem _ h (by simp)
  · intro h
    exact hmem _ h (by simp)
  · rintro ⟨h1, h2⟩
    apply List.takeWhile_eq_self_iff.mpr
    intro x hx
    simp only [List.mem_cons, List.mem_singleton, List.mem_nil_iff, or_false, not_or,
      decide_eq_true_eq]
    exact ⟨fun e => h1 (e ▸ hx), fun e => h2 (e ▸ hx)⟩

/-- C19 (as the code has it): on a connected bot `Bot::send` does not raise and
hands the server one line, the given line cut at its first CR or LF.  The line
sent holds no CR and no LF, a line without CR and LF is sent unchanged, and
what follows the first CR or LF of the given line is not sent. -/
theorem C19_send_cuts_at_line_end (b : Bot) (out : List Str) (line : Str)
    (hc : b._connected = true) (hs : b._server = some out) (hlen : line.length < npos) :
    ∃ sent, b.send line = some { b with _server := some (out ++ [sent]) }
      ∧ sent = line.takeWhile (fun x => decide (x ≠ '\r' ∧ x ≠ '\n'))
      ∧ '\r' ∉ sent ∧ '\n' ∉ sent
      ∧ ('\r' ∉ line ∧ '\n' ∉ line → sent = line) :=
  send_cuts b out line hc hs hlen

/-- Witness for C19: `WHO #a` followed by CR LF is sent as `WHO #a`. -/
theorem C19_send_cuts_at_line_end_witness :
    ∃ sent, (Bot.init "bot".toList [] false false false).send "WHO #a\r\n".toList
        = some { Bot.init "bot".toList [] false false false with
                 _server := some ([] ++ [sent]) }
      ∧ sent = "WHO #a\r\n".toList.takeWhile (fun x => decide (x ≠ '\r' ∧ x ≠ '\n'))
      ∧ '\r' ∉ sent ∧ '\n' ∉ sent
      ∧ ('\r' ∉ "WHO #a\r\n".toList ∧ '\n' ∉ "WHO #a\r\n".toList → sent = "WHO #a\r\n".toList) :=
  C19_send_cuts_at_line_end (Bot.init "bot".toList [] false false false) []
    "WHO #a\r\n".toList (by decide) (by decide) (by decide)

/-- Counterexample to C19 as stated: of `PRIVMSG #a :x`, LF, `y` the bot sends
`PRIVMSG #a :x` only; the `y`, which is neither CR nor LF, is not kept. -/
theorem C19_send_counterexample :
    ((Bot.init "bot".toList [] false false false).send "PRIVMSG #a :x\ny".toList).map
        (fun b => b._server) = some (some ["PRIVMSG #a :x".toList])
    ∧ "PRIVMSG #a :x\ny".toList.filter (fun x => decide (x ≠ '\r' ∧ x ≠ '\n'))
        = "PRIVMSG #a :xy".toList := by
  decide

/-! ## C18: the target of the reply and error callbacks -/

theorem parse_source (cl : List (Str × Nat)) (line : Str) (m : Message)
    (h : handle_message_parse cl line = some m) :
    m.source.destination.length ≤ line.length
    ∧ m.source.reply_func
        = (if find_first_of m.source.destination ['#', '&'] ≠ npos then m.source.destination
           else m.source.name)
    ∧ m.source.error_func = m.source.reply_func
    ∧ (if find m.source.raw '!' 0 ≠ npos
        then substr m.source.raw 0 (find m.source.raw '!' 0) = some m.source.name
          ∧ m.source.client = map_find cl m.source.name
        else m.source.name = m.source.raw ∧ m.source.client = none) := by
  unfold handle_message_parse at h
  simp only [Option.bind_eq_bind, Option.bind_eq_some] at h
  obtain ⟨l1, h1, l2, h2, c0, _, sraw, _, name, hn, cmd, _, d0, hd0, dc, _, dest, hd, args, _,
    hm⟩ := h
  simp only [Option.some.injEq] at hm
  subst hm
  simp only
  have e1 := strip_last_length _ _ _ h1
  have e2 := strip_last_length _ _ _ h2
  refine ⟨?_, trivial, trivial, ?_⟩
  · split at hd
    · have := substr_length _ _ _ _ hd
      omega
    · simp only [Option.some.injEq] at hd
      subst hd
      have := substr_length _ _ _ _ hd0
      omega
  · split
    · rename_i hb
      rw [if_pos hb] at hn
      exact ⟨hn, rfl⟩
    · rename_i hb
      rw [if_neg hb] at hn
      simp only [Option.some.injEq] at hn
      exact ⟨hn.symm, rfl⟩

/-- C18: for every parsed inbound line and every text `t`, calling the reply
callback of the event is `Bot::send` of the line `NOTICE <destination> :t` when
the parsed destination holds a `#` or a `&`, and of `NOTICE <source nick> :t`
otherwise; the error callback is bound to the same target. -/
theorem C18_reply_target (cl : List (Str × Nat)) (line : Str) (m : Message)
    (hp : handle_message_parse cl line = some m) (hlen : line.length < npos)
    (b : Bot) (t : Str) :
    notice_to b m.source.reply_func t
      = b.send ("NOTICE ".toList
          ++ (if '#' ∈ m.source.destination ∨ '&' ∈ m.source.destination
              then m.source.destination else m.source.name)
          ++ " :".toList ++ t)
    ∧ notice_to b m.source.error_func t = notice_to b m.source.reply_func t := by
  obtain ⟨hl, hr, he, _⟩ := parse_source cl line m hp
  have hiff := find_first_of_ne_npos m.source.destination ['#', '&'] (by omega)
  refine ⟨?_, by rw [he]⟩
  unfold notice_to
  rw [hr]
  by_cases hc : '#' ∈ m.source.destination ∨ '&' ∈ m.source.destination
  · have : find_first_of m.source.destination ['#', '&'] ≠ npos := by
      apply hiff.mpr
      rcases hc with hc | hc
      · exact ⟨_, hc, by simp⟩
      · exact ⟨_, hc, by simp⟩
    rw [if_pos this, if_pos hc]
  · have : ¬ (find_first_of m.source.destination ['#', '&'] ≠ npos) := by
      intro hf
      obtain ⟨x, hx, hm⟩ := hiff.mp hf
      simp only [List.mem_cons, List.mem_singleton, List.mem_nil_iff, or_false] at hm
      rcases hm with hm | hm
      · exact hc (Or.inl (hm ▸ hx))
      · exact hc (Or.inr (hm ▸ hx))
    rw [if_neg this, if_neg hc]

/-- Witness for C18: a message of `n` to `#chan` is answered in `#chan`. -/
theorem C18_reply_target_witness :
    notice_to (Bot.init "bot".toList [] false false false) "#chan".toList "hi".toList
      = (Bot.init "bot".toList [] false false false).send ("NOTICE ".toList
          ++ (if '#' ∈ "#chan".toList ∨ '&' ∈ "#chan".toList
              then "#chan".toList else "n".toList)
          ++ " :".toList ++ "hi".toList)
    ∧ notice_to (Bot.init "bot".toList [] false false false) "#chan".toList "hi".toList
      = notice_to (Bot.init "bot".toList [] false false false) "#chan".toList "hi".toList :=
  C18_reply_target [] ":n!u@h PRIVMSG #chan :hello".toList
    { raw := ":n!u@h PRIVMSG #chan :hello".toList
      source := { raw := "n!u@h".toList, name := "n".toList, client := none
                  destination := "#chan".toList, reply_func := "#chan".toList
                  error_func := "#chan".toList }
      command := "PRIVMSG".toList
      args := ["hello".toList] }
    (by decide) (by decide) (Bot.init "bot".toList [] false false false) "hi".toList

/-! ## C17: the identity query sent on the bot's own JOIN -/

theorem SameLink_refl (b : Bot) : b.SameLink b := ⟨rfl, rfl, rfl, rfl, rfl, rfl⟩

theorem SameLink_trans (a b c : Bot) (h1 : a.SameLink b) (h2 : b.SameLink c) : a.SameLink c := by
  unfold Bot.SameLink at h1 h2 ⊢
  refine ⟨?_, ?_, ?_, ?_, ?_, ?_⟩
  · rw [h2.1, h1.1]
  · rw [h2.2.1, h1.2.1]
  · rw [h2.2.2.1, h1.2.2.1]
  · rw [h2.2.2.2.1, h1.2.2.2.1]
  · rw [h2.2.2.2.2.1, h1.2.2.2.2.1]
  · rw [h2.2.2.2.2.2, h1.2.2.2.2.2]

theorem SameLink_tracking (b b1 : Bot) (h : b.SameLink b1) :
    b1.use_account_tracking = b.use_account_tracking := by
  obtain ⟨_, _, _, h4, h5, h6⟩ := h
  unfold Bot.use_account_tracking
  rw [h4, h5, h6]

theorem find_or_create_client_nuh_link (b b1 : Bot) (name nuh : Str) (c : Nat)
    (h : find_or_create_client_nuh b name nuh = some (b1, c)) : b.SameLink b1 := by
  unfold find_or_create_client_nuh at h
  split at h
  · simp only [Option.some.injEq, Prod.mk.injEq] at h
    rw [← h.1]
    exact SameLink_refl b
  · simp only [Option.bind_eq_some] at h
    obtain ⟨nick, _, user, _, host, _, h⟩ := h
    simp only [Option.some.injEq, Prod.mk.injEq] at h
    rw [← h.1]
    exact ⟨rfl, rfl, rfl, rfl, rfl, rfl⟩

theorem find_or_create_client_msg_link (b b1 : Bot) (m : Message) (c : Nat)
    (h : find_or_create_client_msg b m = some (b1, c)) : b.SameLink b1 := by
  unfold find_or_create_client_msg at h
  split at h
  · simp only [Option.some.injEq, Prod.mk.injEq] at h
    rw [← h.1]
    exact SameLink_refl b
  · exact find_or_create_client_nuh_link b b1 _ _ c h

theorem find_or_create_client_link (b : Bot) (nick user host : Str) :
    b.SameLink (find_or_create_client b nick user host).1 := by
  unfold find_or_create_client
  split
  · exact SameLink_refl b
  · exact ⟨rfl, rfl, rfl, rfl, rfl, rfl⟩

theorem find_or_create_channel_link (b : Bot) (name : Str) :
    b.SameLink (find_or_create_channel b name).1 := by
  unfold find_or_create_channel
  split
  · exact SameLink_refl b
  · exact ⟨rfl, rfl, rfl, rfl, rfl, rfl⟩

theorem join_chan_link (b : Bot) (c ch : Nat) : b.SameLink (b.join_chan c ch).1 := by
  unfold Bot.join_chan
  split
  · exact SameLink_refl b
  · exact ⟨rfl, rfl, rfl, rfl, rfl, rfl⟩

theorem handle_join_steps (b b1 b2 b3 b4 : Bot) (m : Message) (c ch p : Nat)
    (h1 : find_or_create_client_msg b m = some (b1, c))
    (h2 : find_or_create_channel b1 m.source.destination = (b2, ch))
    (h3 : (if b2.use_account_tracking && decide (m.args.length > 0)
            then b2.set_account c (m.args.getD 0 []) else b2) = b3)
    (h4 : b3.join_chan c ch = (b4, p)) :
    handle_join b m
      = if m.source.name = b4._nick then
          b4.send (if b4.use_account_tracking
            then "WHO ".toList ++ m.source.destination ++ " %cnuhaft,524".toList
            else "WHO ".toList ++ m.source.destination)
        else some b4 := by
  unfold handle_join
  simp only [Option.bind_eq_bind, h1, Option.some_bind, h2, h3, h4, Option.pure_def]

theorem handle_join_link (b b1 b2 b3 b4 : Bot) (m : Message) (c ch p : Nat)
    (h1 : find_or_create_client_msg b m = some (b1, c))
    (h2 : find_or_create_channel b1 m.source.destination = (b2, ch))
    (h3 : (if b2.use_account_tracking && decide (m.args.length > 0)
            then b2.set_account c (m.args.getD 0 []) else b2) = b3)
    (h4 : b3.join_chan c ch = (b4, p)) : b.SameLink b4 := by
  have l1 := find_or_create_client_msg_link b b1 m c h1
  have l2 : b1.SameLink b2 := by
    have := find_or_create_channel_link b1 m.source.destination
    rw [h2] at this
    exact this
  have l3 : b2.SameLink b3 := by
    rw [← h3]
    split
    · exact ⟨rfl, rfl, rfl, rfl, rfl, rfl⟩
    · exact SameLink_refl b2
  have l4 : b3.SameLink b4 := by
    have := join_chan_link b3 c ch
    rw [h4] at this
    exact this
  exact SameLink_trans _ _ _ (SameLink_trans _ _ _ (SameLink_trans _ _ _ l1 l2) l3) l4

/-- C17 (as the code has it): on a connected bot `handle_join` returns, and it
sends something if and only if the source nick of the JOIN is the bot's own
current nick; it then sends exactly one line, `WHO <destination>` cut at the
first CR or LF, which is `WHO <destination>` when the destination holds none.
The line is suffixed with ` %cnuhaft,524` exactly when identity tracking is
enabled, that is when WHOX, account-notify and extended-join are all three on,
and is unsuffixed otherwise. -/
theorem C17_who_request (b : Bot) (m : Message) (out : List Str)
    (hc : b._connected = true) (hs : b._server = some out)
    (hraw : m.source.raw.length < npos) (hdest : m.source.destination.length + 17 < npos) :
    ∃ b1, handle_join b m = some b1
      ∧ (m.source.name ≠ b._nick → b1._server = some out)
      ∧ (m.source.name = b._nick →
          b1._server = some (out ++
            [("WHO ".toList ++ m.source.destination
              ++ (if b.use_account_tracking then " %cnuhaft,524".toList else [])).takeWhile
                (fun x => decide (x ≠ '\r' ∧ x ≠ '\n'))])
          ∧ ('\r' ∉ m.source.destination → '\n' ∉ m.source.destination →
              b1._server = some (out ++
                [if b.have_whox && b.have_account_notify && b.have_extended_join
                  then "WHO ".toList ++ m.source.destination ++ " %cnuhaft,524".toList
                  else "WHO ".toList ++ m.source.destination]))) := by
  have hnpos : npos = 18446744073709551615 := rfl
  have hconn : b.Connected := ⟨hc, by rw [hs]; rfl⟩
  obtain ⟨b1, c, h1⟩ : ∃ b1 c, find_or_create_client_msg b m = some (b1, c) := by
    unfold find_or_create_client_msg
    cases m.source.client with
    | some c => exact ⟨b, c, rfl⟩
    | none =>
      obtain ⟨b1, c, h, _⟩ := find_or_create_client_nuh_total b m.source.name m.source.raw hraw hconn
      exact ⟨b1, c, h⟩
  obtain ⟨b2, ch, h2⟩ : ∃ b2 ch, find_or_create_channel b1 m.source.destination = (b2, ch) :=
    ⟨_, _, rfl⟩
  obtain ⟨b3, h3⟩ : ∃ b3, (if b2.use_account_tracking && decide (m.args.length > 0)
      then b2.set_account c (m.args.getD 0 []) else b2) = b3 := ⟨_, rfl⟩
  obtain ⟨b4, p, h4⟩ : ∃ b4 p, b3.join_chan c ch = (b4, p) := ⟨_, _, rfl⟩
  have hl := handle_join_link b b1 b2 b3 b4 m c ch p h1 h2 h3 h4
  have hj := handle_join_steps b b1 b2 b3 b4 m c ch p h1 h2 h3 h4
  have ht := SameLink_tracking b b4 hl
  obtain ⟨l1, l2, l3, _, _, _⟩ := hl
  rw [l1, ht] at hj
  by_cases hn : m.source.name = b._nick
  · rw [if_pos hn] at hj
    have hlen : (if b.use_account_tracking
        then "WHO ".toList ++ m.source.destination ++ " %cnuhaft,524".toList
        else "WHO ".toList ++ m.source.destination).length < npos := by
      split
      · have e1 : "WHO ".toList.length = 4 := by decide
        have e2 : " %cnuhaft,524".toList.length = 13 := by decide
        simp only [List.length_append, e1, e2]
        omega
      · have e1 : "WHO ".toList.length = 4 := by decide
        simp only [List.length_append, e1]
        omega
    obtain ⟨sent, hsend, hsent, _, _, hclean⟩ :=
      send_cuts b4 out _ (l3.trans hc) (l2.trans hs) hlen
    refine ⟨_, hj.trans hsend, fun h => absurd hn h, fun _ => ⟨?_, ?_⟩⟩
    · simp only
      rw [hsent]
      by_cases htr : b.use_account_tracking = true
      · rw [if_pos htr, if_pos htr]
      · rw [if_neg htr, if_neg htr, List.append_nil]
    · intro hr hnl
      simp only
      rw [hclean ?_]
      · rfl
      · have e1 : '\r' ∉ "WHO ".toList ∧ '\n' ∉ "WHO ".toList := by decide
        have e2 : '\r' ∉ " %cnuhaft,524".toList ∧ '\n' ∉ " %cnuhaft,524".toList := by decide
        split
        · simp only [List.mem_append, not_or]
          exact ⟨⟨⟨e1.1, hr⟩, e2.1⟩, ⟨⟨e1.2, hnl⟩, e2.2⟩⟩
        · simp only [List.mem_append, not_or]
          exact ⟨⟨e1.1, hr⟩, ⟨e1.2, hnl⟩⟩
  · rw [if_neg hn] at hj
    exact ⟨_, hj, fun _ => l2.trans hs, fun h => absurd h hn⟩

/-- Witness for C17: with all three features on, the bot's own JOIN to `#a`
sends `WHO #a %cnuhaft,524`. -/
theorem C17_who_request_witness :
    ∃ b1, handle_join (Bot.init "bot".toList [] true true true)
        { raw := ":bot!u@h JOIN #a".toList, command := "JOIN".toList
          source := { raw := "bot!u@h".toList, name := "bot".toList, client := none
                      destination := "#a".toList, reply_func := "#a".toList
                      error_func := "#a".toList }
          args := [] } = some b1
      ∧ b1._server = some ["WHO #a %cnuhaft,524".toList] := by
  obtain ⟨b1, h, _, h2⟩ := C17_who_request (Bot.init "bot".toList [] true true true)
    { raw := ":bot!u@h JOIN #a".toList, command := "JOIN".toList
      source := { raw := "bot!u@h".toList, name := "bot".toList, client := none
                  destination := "#a".toList, reply_func := "#a".toList
                  error_func := "#a".toList }
      args := [] } [] rfl rfl (by decide) (by decide)
  exact ⟨b1, h, (h2 rfl).2 (by decide) (by decide)⟩

/-- Counterexample to C17 as stated: the server has advertised WHOX, but
account-notify and extended-join are not enabled; the bot's own JOIN to `#a`
sends the unsuffixed `WHO #a`. -/
theorem C17_who_counterexample :
    ((Bot.init "bot".toList [] false false false).run
        [Event.isupport_enabled ["WHOX".toList], Event.line ":bot!u@h JOIN #a".toList]).map
      (fun b => (b.have_whox, b._server)) = some (true, some ["WHO #a".toList]) := by
  decide

/-! ## C20: the bot's own client and the prune of `client_leaving_channel` -/

/-- C20 (evaluation of the failing input): after its JOIN to `#a` the bot's
nick resolves to its own client, which is `me()`.  After the bot's PART from
`#a`, and likewise after a KICK of the bot from `#a` by another client, the
bot's nick no longer resolves, while `me()` still points to the removed client;
after a further JOIN the nick resolves to a new client that is not `me()`. -/
theorem C20_own_client_pruned :
    ((Bot.init "bot".toList [] false false false).run
        [Event.line ":bot!u@h JOIN #a".toList]).map
      (fun b => (b.find_client "bot".toList, b._me)) = some (some 0, some 0)
    ∧ ((Bot.init "bot".toList [] false false false).run
        [Event.line ":bot!u@h JOIN #a".toList, Event.line ":bot!u@h PART #a".toList]).map
      (fun b => (b.find_client "bot".toList, b._me)) = some (none, some 0)
    ∧ ((Bot.init "bot".toList [] false false false).run
        [Event.line ":bot!u@h JOIN #a".toList, Event.line ":op!u@h KICK #a bot :bye".toList]).map
      (fun b => (b.find_client "bot".toList, b._me)) = some (none, some 0)
    ∧ ((Bot.init "bot".toList [] false false false).run
        [Event.line ":bot!u@h JOIN #a".toList, Event.line ":bot!u@h PART #a".toList,
         Event.line ":bot!u@h JOIN #a".toList]).map
      (fun b => (b.find_client "bot".toList, b._me)) = some (some 1, some 0) := by
  refine ⟨?_, ?_, ?_, ?_⟩ <;> decide

/-! ## C13: QUIT -/

theorem Reachable_WF (b : Bot) (h : b.Reachable) : b.WF := by
  obtain ⟨nick, supported, w, n, e, es, hr⟩ := h
  exact WF_run es _ b (WF_init nick supported w n e) hr

theorem quit_loop_spec (c : Nat) (ps : List Nat) : ∀ b : Bot,
    ((ps.foldl (fun acc p => acc.leave_chan_membership c p) b).client c).channels
        = (b.client c).channels.filter (fun q => decide (q ∉ ps))
    ∧ (ps.foldl (fun acc p => acc.leave_chan_membership c p) b)._clients = b._clients
    ∧ (ps.foldl (fun acc p => acc.leave_chan_membership c p) b)._channels = b._channels
    ∧ (ps.foldl (fun acc p => acc.leave_chan_membership c p) b).membershipObjs
        = b.membershipObjs
    ∧ (∀ c1, ((ps.foldl (fun acc p => acc.leave_chan_membership c p) b).client c1).nick
        = (b.client c1).nick) := by
  induction ps with
  | nil =>
    intro b
    refine ⟨?_, rfl, rfl, rfl, fun _ => rfl⟩
    simp
  | cons p ps ih =>
    intro b
    obtain ⟨s1, _, s3, s4, s5, _, _, _, _, s10⟩ := leave_chan_membership_spec b c p
    obtain ⟨i1, i2, i3, i4, i5⟩ := ih (b.leave_chan_membership c p)
    simp only [List.foldl_cons]
    refine ⟨?_, i2.trans s4, i3.trans s5, i4.trans s3, fun c1 => (i5 c1).trans (s10 c1)⟩
    rw [i1, s1 c, if_pos rfl, List.filter_filter]
    congr 1
    funext q
    simp only [List.mem_cons, not_or, bne_iff_ne, ne_eq, Bool.and_eq_true, decide_eq_true_eq,
      Bool.decide_and, Bool.decide_eq_true]
    by_cases hq : q = p <;> simp [hq]

/-- C13: after a QUIT whose source is resolved to a client C, in any state
reached by the bot: C holds no Membership, no channel lists a Membership of C,
`find_client` of C's nick returns nothing, and the channel registry is the one
from before the event.  A QUIT whose source client is not resolved leaves the
whole state unchanged. -/
theorem C13_quit (b : Bot) (m : Message) (hb : b.Reachable) :
    (∀ c, m.source.client = some c →
      ((handle_quit b m).client c).channels = []
      ∧ (∀ h p, p ∈ ((handle_quit b m).channel h).members →
          ((handle_quit b m).membership p).client ≠ c)
      ∧ (handle_quit b m).find_client (b.client c).nick = none
      ∧ (handle_quit b m)._channels = b._channels)
    ∧ (m.source.client = none → handle_quit b m = b) := by
  have hwf := WF_handle_quit b m (Reachable_WF b hb)
  refine ⟨fun c hc => ?_, fun hc => ?_⟩
  · obtain ⟨q1, q2, q3, q4, q5⟩ := quit_loop_spec c (b.client c).channels b
    have hq : handle_quit b m
        = ((b.client c).channels.foldl (fun acc p => acc.leave_chan_membership c p) b).remove_client
            c := by
      unfold handle_quit
      rw [hc]
    have hch : ((handle_quit b m).client c).channels = [] := by
      rw [hq]
      show (((b.client c).channels.foldl (fun acc p => acc.leave_chan_membership c p) b).client
        c).channels = []
      rw [q1]
      apply List.filter_eq_nil_iff.mpr
      intro x hx
      simp [hx]
    refine ⟨hch, ?_, ?_, ?_⟩
    · intro h p hp hcl
      have := (hwf.1.2 h p hp).2.2
      rw [hcl, hch] at this
      exact absurd this (by simp)
    · rw [hq]
      unfold Bot.remove_client Bot.find_client
      simp only
      rw [map_find_erase, q5 c, cistring_is_equal_refl, if_pos rfl]
    · rw [hq]
      exact q3
  · unfold handle_quit
    rw [hc]

/-- Witness for C13: `x`, who joined `#a` and `#b`, quits. -/
theorem C13_quit_witness :
    (((handle_quit ((Bot.init "bot".toList [] false false false).after
          [Event.line ":x!u@h JOIN #a".toList, Event.line ":x!u@h JOIN #b".toList])
        { raw := ":x!u@h QUIT :bye".toList, command := "QUIT".toList
          source := { raw := "x!u@h".toList, name := "x".toList, client := some 0
                      destination := "bye".toList, reply_func := "x".toList
                      error_func := "x".toList }
          args := [] }).client 0).channels = []) :=
  ((C13_quit ((Bot.init "bot".toList [] false false false).after
          [Event.line ":x!u@h JOIN #a".toList, Event.line ":x!u@h JOIN #b".toList])
        { raw := ":x!u@h QUIT :bye".toList, command := "QUIT".toList
          source := { raw := "x!u@h".toList, name := "x".toList, client := some 0
                      destination := "bye".toList, reply_func := "x".toList
                      error_func := "x".toList }
          args := [] }
        ⟨"bot".toList, [], false, false, false,
          [Event.line ":x!u@h JOIN #a".toList, Event.line ":x!u@h JOIN #b".toList],
          by decide⟩).1 0 rfl).1

/-! ## A client holds at most one Membership per channel -/

theorem Uniq_of_same (b b1 : Bot)
    (h1 : ∀ c, (b1.client c).channels = (b.client c).channels)
    (h3 : ∀ p, (b1.membership p).channel = (b.membership p).channel) (hb : b.Uniq) :
    b1.Uniq := by
  intro c p q hp hq he
  rw [h1] at hp hq
  rw [h3, h3] at he
  exact hb c p q hp hq he

theorem Uniq_of_objs (b b1 : Bot) (h1 : b1.clientObjs = b.clientObjs)
    (h3 : b1.membershipObjs = b.membershipObjs) (hb : b.Uniq) : b1.Uniq :=
  Uniq_of_same b b1 (fun c => by simp [Bot.client, h1]) (fun p => by simp [Bot.membership, h3]) hb

theorem Uniq_new_client (b : Bot) (nick user host : Str) (h : b.Uniq) :
    (Bot.add_client { b with clientObjs := b.clientObjs ++ [Client.new nick user host] }
      b.clientObjs.length).Uniq :=
  Uniq_of_same b _ (client_channels_new b nick user host) (fun _ => rfl) h

theorem Uniq_find_or_create_client (b : Bot) (nick user host : Str) (h : b.Uniq) :
    (find_or_create_client b nick user host).1.Uniq := by
  unfold find_or_create_client
  split
  · exact h
  · exact Uniq_new_client b nick user host h

theorem Uniq_find_or_create_client_nuh (b b1 : Bot) (name nuh : Str) (c : Nat) (h : b.Uniq)
    (hr : find_or_create_client_nuh b name nuh = some (b1, c)) : b1.Uniq := by
  unfold find_or_create_client_nuh at hr
  cases hf : b.find_client name with
  | some c0 =>
    rw [hf] at hr
    simp only [Option.some.injEq, Prod.mk.injEq] at hr
    obtain ⟨rfl, rfl⟩ := hr
    exact h
  | none =>
    rw [hf] at hr
    simp only [Option.bind_eq_some] at hr
    obtain ⟨nick, _, user, _, host, _, hr2⟩ := hr
    simp only [Option.some.injEq, Prod.mk.injEq] at hr2
    obtain ⟨rfl, rfl⟩ := hr2
    exact Uniq_new_client b nick user host h

theorem Uniq_find_or_create_client_msg (b b1 : Bot) (m : Message) (c : Nat) (h : b.Uniq)
    (hr : find_or_create_client_msg b m = some (b1, c)) : b1.Uniq := by
  unfold find_or_create_client_msg at hr
  cases hc : m.source.client with
  | some c0 =>
    rw [hc] at hr
    simp only [Option.some.injEq, Prod.mk.injEq] at hr
    obtain ⟨rfl, rfl⟩ := hr
    exact h
  | none =>
    rw [hc] at hr
    exact Uniq_find_or_create_client_nuh b b1 _ _ c h hr

theorem Uniq_find_or_create_channel (b : Bot) (name : Str) (h : b.Uniq) :
    (find_or_create_channel b name).1.Uniq := by
  unfold find_or_create_channel
  split
  · exact h
  · exact Uniq_of_objs b _ rfl rfl h

theorem Uniq_set_account (b : Bot) (c : Nat) (account : Str) (h : b.Uniq) :
    (b.set_account c account).Uniq :=
  Uniq_of_same b _ (client_channels_set b c _ rfl) (fun _ => rfl) h

theorem Uniq_join_chan (b : Bot) (c ch : Nat) (hwf : b.WF) (hc : c < b.clientObjs.length)
    (h : b.Uniq) : (b.join_chan c ch).1.Uniq := by
  cases hfm : b.find_membership c ch with
  | some p => simp [Bot.join_chan, hfm, h]
  | none =>
    obtain ⟨j1, j2, j3, j4, j5, j6, _, _, _⟩ := join_chan_fresh b c ch hfm
    generalize (b.join_chan c ch).1 = b1 at *
    have hcc : ∀ c1, (b1.client c1).channels
        = if c1 = c then (b.client c).channels ++ [b.membershipObjs.length]
          else (b.client c1).channels := by
      intro c1
      simp only [Bot.client, j3, getD_set]
      by_cases e : c1 = c
      · subst e; simp [hc]
      · have : ¬ (c = c1 ∧ c < b.clientObjs.length) := fun x => e x.1.symm
        simp [e, this]
    have hmm : ∀ p, b1.membership p
        = if p = b.membershipObjs.length then Membership.mk c ch [] else b.membership p := by
      intro p
      simp only [Bot.membership, j2, getD_append_one]
    have hno : ∀ q ∈ (b.client c).channels, (b.membership q).channel ≠ ch := by
      intro q hq he
      unfold Bot.find_membership at hfm
      have := List.find?_eq_none.mp hfm q hq
      simp [he] at this
    intro c1 p q hp hq he
    rw [hcc] at hp hq
    rw [hmm p, hmm q] at he
    by_cases e : c1 = c
    · subst e
      rw [if_pos rfl] at hp hq
      rcases List.mem_append.mp hp with hp | hp
      · have hpl := (hwf.1.1 c1 p hp).1
        rw [if_neg (by omega)] at he
        rcases List.mem_append.mp hq with hq | hq
        · have hql := (hwf.1.1 c1 q hq).1
          rw [if_neg (by omega)] at he
          exact h c1 p q hp hq he
        · have hq2 : q = b.membershipObjs.length := by simpa using hq
          rw [if_pos hq2] at he
          exact absurd he (hno p hp)
      · have hp2 : p = b.membershipObjs.length := by simpa using hp
        rcases List.mem_append.mp hq with hq | hq
        · have hql := (hwf.1.1 c1 q hq).1
          rw [if_pos hp2, if_neg (by omega)] at he
          exact absurd he.symm (hno q hq)
        · have hq2 : q = b.membershipObjs.length := by simpa using hq
          rw [hp2, hq2]
    · rw [if_neg e] at hp hq
      have hpl := (hwf.1.1 c1 p hp).1
      have hql := (hwf.1.1 c1 q hq).1
      rw [if_neg (by omega), if_neg (by omega)] at he
      exact h c1 p q hp hq he

theorem Uniq_leave_chan_membership (b : Bot) (c p : Nat) (h : b.Uniq) :
    (b.leave_chan_membership c p).Uniq := by
  obtain ⟨s1, _, s3, _⟩ := leave_chan_membership_spec b c p
  intro c1 x y hx hy he
  rw [s1] at hx hy
  have hm : ∀ z, (b.leave_chan_membership c p).membership z = b.membership z := by
    intro z
    simp [Bot.membership, s3]
  rw [hm, hm] at he
  by_cases e : c1 = c
  · subst e
    rw [if_pos rfl] at hx hy
    exact h c1 x y (List.mem_of_mem_filter hx) (List.mem_of_mem_filter hy) he
  · rw [if_neg e] at hx hy
    exact h c1 x y hx hy he

theorem Uniq_leave_chan (b : Bot) (c ch : Nat) (h : b.Uniq) : (b.leave_chan c ch).Uniq := by
  unfold Bot.leave_chan
  split
  · exact Uniq_leave_chan_membership b c _ h
  · exact h

theorem Uniq_unwind (ps : List Nat) :
    ∀ b : Bot, b.Uniq →
      (ps.foldl (fun acc p => acc.leave_chan_membership (acc.membership p).client p) b).Uniq := by
  induction ps with
  | nil => intro b h; exact h
  | cons p ps ih =>
    intro b h
    exact ih _ (Uniq_leave_chan_membership b _ p h)

theorem Uniq_quit_loop (c : Nat) (ps : List Nat) :
    ∀ b : Bot, b.Uniq → (ps.foldl (fun acc p => acc.leave_chan_membership c p) b).Uniq := by
  induction ps with
  | nil => intro b h; exact h
  | cons p ps ih =>
    intro b h
    exact ih _ (Uniq_leave_chan_membership b c p h)

theorem Uniq_client_leaving_channel (b : Bot) (c ch : Option Nat) (h : b.Uniq) :
    (client_leaving_channel b c ch).Uniq := by
  unfold client_leaving_channel
  cases c with
  | none => exact h
  | some c =>
    cases ch with
    | none => exact h
    | some ch =>
      have h1 := Uniq_leave_chan b c ch h
      have h2 : (if ((b.leave_chan c ch).client c).channels.isEmpty
          then (b.leave_chan c ch).remove_client c else b.leave_chan c ch).Uniq := by
        split
        · exact Uniq_of_objs _ _ rfl rfl h1
        · exact h1
      simp only
      generalize (if ((b.leave_chan c ch).client c).channels.isEmpty
          then (b.leave_chan c ch).remove_client c else b.leave_chan c ch) = b2 at h2 ⊢
      split
      · exact h2
      · exact Uniq_of_objs _ _ rfl rfl (Uniq_unwind _ _ h2)

theorem Uniq_handle_quit (b : Bot) (m : Message) (h : b.Uniq) : (handle_quit b m).Uniq := by
  unfold handle_quit
  cases hc : m.source.client with
  | none => exact h
  | some c => exact Uniq_of_objs _ _ rfl rfl (Uniq_quit_loop c _ b h)

theorem Uniq_change_nick (b : Bot) (c : Nat) (newnick : Str) (h : b.Uniq) :
    (b.change_nick c newnick).Uniq := by
  unfold Bot.change_nick
  have h1 : (b.remove_client c).Uniq := Uniq_of_objs _ _ rfl rfl h
  have h2 : ((b.remove_client c).setClient c
      { (b.remove_client c).client c with nick := newnick }).Uniq :=
    Uniq_of_same (b.remove_client c) _ (client_channels_set _ c _ rfl) (fun _ => rfl) h1
  exact Uniq_of_objs _ _ rfl rfl h2

theorem Uniq_who_flags (p : Nat) (flags : Str) :
    ∀ b : Bot, b.Uniq → (who_flags b p flags).Uniq := by
  induction flags with
  | nil => intro b h; exact h
  | cons f fs ih =>
    intro b h
    have hstep : who_flags b p (f :: fs)
        = who_flags (if (b.get_prefix_mode f ≠ Char.ofNat 0
            && !(b.membership p).has_mode (b.get_prefix_mode f)) = true
          then b.setMembership p { b.membership p with
              modes := (b.membership p).modes ++ [b.get_prefix_mode f] }
          else b) p fs := by
      simp only [who_flags, List.foldl_cons]
    rw [hstep]
    apply ih
    split
    · exact Uniq_of_same b _ (fun _ => rfl)
        (fun q => (membership_set_same b p { b.membership p with
          modes := (b.membership p).modes ++ [b.get_prefix_mode f] } rfl rfl q).2) h
    · exact h

theorem Uniq_who_reply_common (b : Bot) (chname nick user hostname flags account : Str)
    (hwf : b.WF) (h : b.Uniq) :
    (who_reply_common b chname nick user hostname flags account).Uniq := by
  obtain ⟨a1, a2, _⟩ := WF_find_or_create_client b nick user hostname hwf
  have u1 := Uniq_find_or_create_client b nick user hostname h
  obtain ⟨b1, c, e1⟩ : ∃ b1 c, find_or_create_client b nick user hostname = (b1, c) :=
    ⟨_, _, rfl⟩
  rw [e1] at a1 a2 u1
  simp only at a1 a2 u1
  obtain ⟨b2, e2⟩ : ∃ b2, (if b1.use_account_tracking && !account.isEmpty
      then b1.set_account c account else b1) = b2 := ⟨_, rfl⟩
  have h2 : b2.WF ∧ c < b2.clientObjs.length ∧ b2.Uniq := by
    rw [← e2]
    split
    · obtain ⟨w1, w2, _⟩ := WF_set_account b1 c account a1
      exact ⟨w1, by rw [w2]; exact a2, Uniq_set_account b1 c account u1⟩
    · exact ⟨a1, a2, u1⟩
  obtain ⟨c1, c2, c3, _⟩ := WF_find_or_create_channel b2 chname h2.1
  have u3 := Uniq_find_or_create_channel b2 chname h2.2.2
  obtain ⟨b3, ch, e3⟩ : ∃ b3 ch, find_or_create_channel b2 chname = (b3, ch) := ⟨_, _, rfl⟩
  rw [e3] at c1 c2 c3 u3
  simp only at c1 c2 c3 u3
  have e : who_reply_common b chname nick user hostname flags account
      = who_flags (b3.join_chan c ch).1 (b3.join_chan c ch).2 flags := by
    unfold who_reply_common
    simp only [e1, e2, e3]
  rw [e]
  exact Uniq_who_flags _ _ _ (Uniq_join_chan b3 c ch c1 (by rw [c3]; exact h2.2.1) u3)

theorem Uniq_handle_join (b b1 : Bot) (m : Message) (hwf : b.WF) (hm : m.ValidFor b)
    (h : b.Uniq) (hj : handle_join b m = some b1) : b1.Uniq := by
  unfold handle_join at hj
  simp only [Option.bind_eq_bind, Option.bind_eq_some] at hj
  obtain ⟨⟨b2, c⟩, hfc, hj⟩ := hj
  obtain ⟨a1, a2, _⟩ := WF_find_or_create_client_msg b b2 m c hwf hm hfc
  have u2 := Uniq_find_or_create_client_msg b b2 m c h hfc
  obtain ⟨c1, c2, c3, _⟩ := WF_find_or_create_channel b2 m.source.destination a1
  have u3 := Uniq_find_or_create_channel b2 m.source.destination u2
  simp only at hj
  generalize (find_or_create_channel b2 m.source.destination).1 = b3 at *
  generalize (find_or_create_channel b2 m.source.destination).2 = ch at *
  have h3 : (if b3.use_account_tracking && decide (m.args.length > 0)
      then b3.set_account c (m.args.getD 0 []) else b3).WF
      ∧ c < (if b3.use_account_tracking && decide (m.args.length > 0)
        then b3.set_account c (m.args.getD 0 []) else b3).clientObjs.length
      ∧ (if b3.use_account_tracking && decide (m.args.length > 0)
        then b3.set_account c (m.args.getD 0 []) else b3).Uniq := by
    split
    · obtain ⟨w1, w2, w3⟩ := WF_set_account b3 c (m.args.getD 0 []) c1
      exact ⟨w1, by rw [w2, c3]; exact a2, Uniq_set_account b3 c _ u3⟩
    · exact ⟨c1, by rw [c3]; exact a2, u3⟩
  generalize (if b3.use_account_tracking && decide (m.args.length > 0)
      then b3.set_account c (m.args.getD 0 []) else b3) = b4 at *
  have h5 := Uniq_join_chan b4 c ch h3.1 h3.2.1 h3.2.2
  split at hj
  · unfold Bot.send at hj
    split at hj
    · simp only [Option.some.injEq] at hj
      subst hj
      exact Uniq_of_objs _ _ rfl rfl h5
    · exact absurd hj (by simp)
  · simp only [Option.some.injEq] at hj
    subst hj
    exact h5

theorem Uniq_dispatch (b b1 : Bot) (m : Message) (hwf : b.WF) (hm : m.ValidFor b)
    (h : b.Uniq) (hd : dispatch b m = some b1) : b1.Uniq := by
  unfold dispatch at hd
  split at hd
  · simp only [Option.some.injEq] at hd; subst hd
    exact Uniq_of_objs b _ rfl rfl h
  split at hd
  · simp only [Option.some.injEq] at hd; subst hd
    have h1 : (b.handle_nick m).Uniq := by
      unfold Bot.handle_nick
      split
      · exact Uniq_of_objs b _ rfl rfl h
      · exact h
    unfold handle_nick
    cases m.source.client with
    | none => exact h1
    | some c => exact Uniq_change_nick _ c _ h1
  split at hd
  · split at hd
    · unfold Bot.handle_433 at hd
      split at hd
      · exact absurd hd (by simp)
      · simp only [Option.some.injEq] at hd; subst hd
        exact Uniq_of_objs b _ rfl rfl h
    · simp only [Option.some.injEq] at hd; subst hd; exact h
  split at hd
  · exact Uniq_handle_join b b1 m hwf hm h hd
  split at hd
  · simp only [Option.some.injEq] at hd; subst hd
    exact Uniq_client_leaving_channel b _ _ h
  split at hd
  · simp only [Option.some.injEq] at hd; subst hd; exact Uniq_handle_quit b m h
  split at hd
  · simp only [Option.some.injEq] at hd; subst hd
    unfold handle_account
    cases m.source.client with
    | none => exact h
    | some c => exact Uniq_set_account b c _ h
  split at hd
  · simp only [Option.some.injEq] at hd; subst hd
    unfold handle_who_reply
    split
    · exact h
    · exact Uniq_who_reply_common _ _ _ _ _ _ _ hwf h
  split at hd
  · simp only [Option.some.injEq] at hd; subst hd
    unfold handle_whox_reply
    split
    · exact h
    · split
      · exact h
      · exact Uniq_who_reply_common _ _ _ _ _ _ _ hwf h
  split at hd
  · simp only [Option.some.injEq] at hd; subst hd
    unfold handle_kick
    split
    · exact h
    · exact Uniq_client_leaving_channel b _ _ h
  · simp only [Option.some.injEq] at hd; subst hd; exact h

theorem Uniq_step (b b1 : Bot) (e : Event) (hwf : b.WF) (h : b.Uniq)
    (hs : b.step e = some b1) : b1.Uniq := by
  cases e with
  | line l =>
    simp only [Bot.step] at hs
    unfold handle_message at hs
    simp only [Option.bind_eq_bind, Option.bind_eq_some] at hs
    obtain ⟨m, hp, hd⟩ := hs
    exact Uniq_dispatch b b1 m hwf (parse_valid b l m hwf hp) h hd
  | cap_enabled args =>
    simp only [Bot.step, Option.some.injEq] at hs
    subst hs
    unfold Bot.cap_enabled
    cases args with
    | nil => exact h
    | cons a as =>
      simp only
      split <;> split <;> exact Uniq_of_objs b _ rfl rfl h
  | isupport_enabled args =>
    simp only [Bot.step, Option.some.injEq] at hs
    subst hs
    unfold Bot.isupport_enabled
    cases args with
    | nil => exact h
    | cons a as =>
      simp only
      split
      · exact Uniq_of_objs b _ rfl rfl h
      · exact h

theorem Uniq_run (es : List Event) :
    ∀ (b b1 : Bot), b.WF → b.Uniq → b.run es = some b1 → b1.Uniq := by
  induction es with
  | nil =>
    intro b b1 _ h hr
    simp only [Bot.run, Option.some.injEq] at hr
    exact hr ▸ h
  | cons e es ih =>
    intro b b1 hwf h hr
    simp only [Bot.run, Option.bind_eq_some] at hr
    obtain ⟨b2, hs, hr2⟩ := hr
    exact ih b2 b1 (WF_step b b2 e hwf hs) (Uniq_step b b2 e hwf h hs) hr2

theorem Reachable_Uniq (b : Bot) (h : b.Reachable) : b.Uniq := by
  obtain ⟨nick, supported, w, n, e, es, hr⟩ := h
  refine Uniq_run es _ b (WF_init nick supported w n e) ?_ hr
  intro c p q hp
  have : ((Bot.init nick supported w n e).client c).channels = [] := by
    simp [Bot.init, Bot.client]
    rfl
  rw [this] at hp
  exact absurd hp (by simp)

/-! ## C12: PART and KICK of a client other than the bot -/

theorem client_leaving_other (b : Bot) (c h : Nat) (hwf : b.WF) (hu : b.Uniq)
    (hin : ∃ p ∈ (b.client c).channels, (b.membership p).channel = h)
    (hme : b._me ≠ some c) :
    ((client_leaving_channel b (some c) (some h)).client c).channels
        = (b.client c).channels.filter (fun q => decide ((b.membership q).channel ≠ h))
    ∧ (∀ q, q ∈ ((client_leaving_channel b (some c) (some h)).channel h).members
        ↔ q ∈ (b.channel h).members ∧ (b.membership q).client ≠ c)
    ∧ (client_leaving_channel b (some c) (some h))._clients
        = (if ((client_leaving_channel b (some c) (some h)).client c).channels = []
            then map_erase b._clients (b.client c).nick else b._clients)
    ∧ (client_leaving_channel b (some c) (some h))._channels = b._channels
    ∧ (client_leaving_channel b (some c) (some h)).membershipObjs = b.membershipObjs
    ∧ (∀ c1, c1 ≠ c → ((client_leaving_channel b (some c) (some h)).client c1).channels
        = (b.client c1).channels)
    ∧ (∀ h1, h1 ≠ h → ((client_leaving_channel b (some c) (some h)).channel h1).members
        = (b.channel h1).members) := by
  obtain ⟨p0, hfm⟩ : ∃ p0, b.find_membership c h = some p0 := by
    cases hf : b.find_membership c h with
    | some p0 => exact ⟨p0, rfl⟩
    | none =>
      obtain ⟨p, hp, hph⟩ := hin
      unfold Bot.find_membership at hf
      have := List.find?_eq_none.mp hf p hp
      simp [hph] at this
  obtain ⟨hp0, hh0⟩ := find_membership_mem b c h p0 hfm
  obtain ⟨s1, s2, s3, s4, s5, s6, _, _, _, s10⟩ := leave_chan_membership_spec b c p0
  rw [hh0] at s2
  have e : client_leaving_channel b (some c) (some h)
      = (if ((b.leave_chan_membership c p0).client c).channels.isEmpty
          then (b.leave_chan_membership c p0).remove_client c
          else b.leave_chan_membership c p0) := by
    have hne : ∀ b2 : Bot, b2._me = b._me → (some c ≠ b2._me) := by
      intro b2 h2 h3
      exact hme (h2 ▸ h3.symm)
    simp only [client_leaving_channel, Bot.leave_chan, hfm]
    split
    · exact if_pos (hne ((b.leave_chan_membership c p0).remove_client c) s6)
    · exact if_pos (hne (b.leave_chan_membership c p0) s6)
  have hcl : ∀ x, (client_leaving_channel b (some c) (some h)).client x
      = (b.leave_chan_membership c p0).client x := by
    intro x
    rw [e]
    split <;> rfl
  have hchn : ∀ x, (client_leaving_channel b (some c) (some h)).channel x
      = (b.leave_chan_membership c p0).channel x := by
    intro x
    rw [e]
    split <;> rfl
  have hfil : (b.client c).channels.filter (fun q => q != p0)
      = (b.client c).channels.filter (fun q => decide ((b.membership q).channel ≠ h)) := by
    apply List.filter_congr
    intro q hq
    by_cases hqp : q = p0
    · subst hqp
      simp [hh0]
    · have : (b.membership q).channel ≠ h := by
        intro hq2
        exact hqp (hu c q p0 hq hp0 (hq2.trans hh0.symm))
      simp [hqp, this]
  have hcc : ((client_leaving_channel b (some c) (some h)).client c).channels
      = (b.client c).channels.filter (fun q => decide ((b.membership q).channel ≠ h)) := by
    rw [hcl, s1 c, if_pos rfl, hfil]
  refine ⟨hcc, ?_, ?_, ?_, ?_, ?_, ?_⟩
  · intro q
    rw [hchn, s2 h, if_pos rfl, List.mem_filter]
    constructor
    · rintro ⟨hq, hne⟩
      refine ⟨hq, fun hc => ?_⟩
      obtain ⟨_, g2, g3⟩ := hwf.1.2 h q hq
      rw [hc] at g3
      have := hu c q p0 g3 hp0 (g2.trans hh0.symm)
      simp [this] at hne
    · rintro ⟨hq, hne⟩
      refine ⟨hq, ?_⟩
      have : q ≠ p0 := by
        intro hqp
        rw [hqp] at hne
        exact hne (hwf.1.1 c p0 hp0).2.1
      simp [this]
  · have hcc2 := hcl c
    rw [e]
    by_cases hem : ((b.leave_chan_membership c p0).client c).channels.isEmpty = true
    · have : ((b.leave_chan_membership c p0).client c).channels = [] :=
        List.isEmpty_iff.mp hem
      rw [if_pos hem, if_pos (by show ((b.leave_chan_membership c p0).client c).channels = []
                                 exact this)]
      show map_erase (b.leave_chan_membership c p0)._clients
        ((b.leave_chan_membership c p0).client c).nick = _
      rw [s4, s10]
    · have : ((b.leave_chan_membership c p0).client c).channels ≠ [] :=
        fun hx => hem (List.isEmpty_iff.mpr hx)
      rw [if_neg hem, if_neg this]
      exact s4
  · rw [e]
    split
    · exact s5
    · exact s5
  · rw [e]
    split
    · exact s3
    · exact s3
  · intro c1 hc1
    rw [hcl, s1 c1, if_neg hc1]
  · intro h1 hh1
    rw [hchn, s2 h1, if_neg hh1]

/-- C12: in a state reached by the bot, let C be a registered client other than
the bot's own (`me()`), H a registered channel, and C hold a Membership in H.
After a PART with source C and destination H, and after a KICK in H whose
first argument is C's nick: C has no Membership in H and H lists none of C,
while C keeps its Memberships in the other channels; C's nick no longer
resolves if and only if C has no Membership left, and still resolves to C
otherwise; H is still registered and the channel registry unchanged; every
Membership object is unchanged, every other client holds the Memberships it
held, every other channel lists the members it listed, and H lists exactly
its former members that are not C's.  Nicks other than C's resolve as before. -/
theorem C12_part_kick_frame (b b1 : Bot) (m : Message) (c h : Nat) (hb : b.Reachable)
    (hknown : b.find_client (b.client c).nick = some c)
    (hchan : b.find_channel m.source.destination = some h)
    (hin : ∃ p ∈ (b.client c).channels, (b.membership p).channel = h)
    (hme : b._me ≠ some c)
    (hev : (m.source.client = some c ∧ b1 = handle_part b m)
      ∨ (m.args ≠ [] ∧ b.find_client (m.args.getD 0 []) = some c ∧ b1 = handle_kick b m)) :
    (∀ q ∈ (b1.client c).channels, (b1.membership q).channel ≠ h)
    ∧ (∀ q ∈ (b1.channel h).members, (b1.membership q).client ≠ c)
    ∧ (b1.client c).channels
        = (b.client c).channels.filter (fun q => decide ((b.membership q).channel ≠ h))
    ∧ (b1.find_client (b.client c).nick = none ↔ (b1.client c).channels = [])
    ∧ ((b1.client c).channels ≠ [] → b1.find_client (b.client c).nick = some c)
    ∧ b1.find_channel m.source.destination = some h
    ∧ b1._channels = b._channels
    ∧ b1.membershipObjs = b.membershipObjs
    ∧ (∀ c1, c1 ≠ c → (b1.client c1).channels = (b.client c1).channels)
    ∧ (∀ h1, h1 ≠ h → (b1.channel h1).members = (b.channel h1).members)
    ∧ (∀ q, q ∈ (b1.channel h).members
        ↔ q ∈ (b.channel h).members ∧ (b.membership q).client ≠ c)
    ∧ (∀ k, cistring_is_equal k (b.client c).nick = false →
        b1.find_client k = b.find_client k) := by
  have hwf := Reachable_WF b hb
  have hu := Reachable_Uniq b hb
  have e : b1 = client_leaving_channel b (some c) (some h) := by
    rcases hev with ⟨h1, h2⟩ | ⟨h1, h2, h3⟩
    · rw [h2]
      unfold handle_part
      rw [h1, hchan]
    · rw [h3]
      unfold handle_kick
      rw [if_neg (by simpa using h1), h2, hchan]
  obtain ⟨f1, f2, f3, f4, f5, f6, f7⟩ := client_leaving_other b c h hwf hu hin hme
  rw [← e] at f1 f2 f3 f4 f5 f6 f7
  have hmem : ∀ q, b1.membership q = b.membership q := by
    intro q
    simp [Bot.membership, f5]
  refine ⟨?_, ?_, f1, ?_, ?_, ?_, f4, f5, f6, f7, f2, ?_⟩
  · intro q hq
    rw [f1] at hq
    rw [hmem]
    simpa using (List.mem_filter.mp hq).2
  · intro q hq
    rw [hmem]
    exact ((f2 q).mp hq).2
  · unfold Bot.find_client at hknown ⊢
    rw [f3]
    constructor
    · intro hn
      by_contra hne
      rw [if_neg hne, hknown] at hn
      exact absurd hn (by simp)
    · intro he
      rw [if_pos he, map_find_erase, cistring_is_equal_refl, if_pos rfl]
  · intro hne
    unfold Bot.find_client at hknown ⊢
    rw [f3, if_neg hne]
    exact hknown
  · unfold Bot.find_channel at hchan ⊢
    rw [f4]
    exact hchan
  · intro k hk
    unfold Bot.find_client
    rw [f3]
    split
    · rw [map_find_erase, hk]
      rfl
    · rfl

/-- Witness for C12: the bot and `x` are in `#a`, `x` is also in `#b`; `x`
parts `#a`. -/
theorem C12_part_kick_frame_witness :
    (handle_part ((Bot.init "bot".toList [] false false false).after
        [Event.line ":bot!u@h JOIN #a".toList, Event.line ":x!u@h JOIN #a".toList,
         Event.line ":x!u@h JOIN #b".toList])
      { raw := ":x!u@h PART #a".toList, command := "PART".toList
        source := { raw := "x!u@h".toList, name := "x".toList, client := some 1
                    destination := "#a".toList, reply_func := "#a".toList
                    error_func := "#a".toList }
        args := [] }).find_channel "#a".toList = some 0 :=
  (C12_part_kick_frame ((Bot.init "bot".toList [] false false false).after
        [Event.line ":bot!u@h JOIN #a".toList, Event.line ":x!u@h JOIN #a".toList,
         Event.line ":x!u@h JOIN #b".toList]) _
      { raw := ":x!u@h PART #a".toList, command := "PART".toList
        source := { raw := "x!u@h".toList, name := "x".toList, client := some 1
                    destination := "#a".toList, reply_func := "#a".toList
                    error_func := "#a".toList }
        args := [] } 1 0
      ⟨"bot".toList, [], false, false, false,
        [Event.line ":bot!u@h JOIN #a".toList, Event.line ":x!u@h JOIN #a".toList,
         Event.line ":x!u@h JOIN #b".toList], by decide⟩
      (by decide) (by decide) ⟨1, by decide, by decide⟩ (by decide)
      (Or.inl ⟨rfl, rfl⟩)).2.2.2.2.2.1

/-! ## C15: the account taken from an extended reply -/

theorem client_set (b : Bot) (c : Nat) (cl : Client) (c1 : Nat) :
    (b.setClient c cl).client c1
      = if c = c1 ∧ c < b.clientObjs.length then cl else b.client c1 := by
  simp only [Bot.client, Bot.setClient, getD_set]

theorem join_chan_frame (b : Bot) (c ch : Nat) :
    (b.join_chan c ch).1._clients = b._clients
    ∧ (b.join_chan c ch).1._channels = b._channels
    ∧ (b.join_chan c ch).1.clientObjs.length = b.clientObjs.length
    ∧ (b.join_chan c ch).1.channelObjs.length = b.channelObjs.length
    ∧ (∀ c1, ((b.join_chan c ch).1.client c1).account = (b.client c1).account)
    ∧ (∀ c1, ((b.join_chan c ch).1.client c1).nick = (b.client c1).nick) := by
  unfold Bot.join_chan
  split
  · exact ⟨rfl, rfl, rfl, rfl, fun _ => rfl, fun _ => rfl⟩
  · refine ⟨rfl, rfl, by simp [Bot.setClient, Bot.setChannel],
      by simp [Bot.setClient, Bot.setChannel], ?_, ?_⟩
    · intro c1
      simp only [Bot.setChannel, Bot.setClient, Bot.client, getD_set]
      split
      · next e => rw [← e.1]
      · rfl
    · intro c1
      simp only [Bot.setChannel, Bot.setClient, Bot.client, getD_set]
      split
      · next e => rw [← e.1]
      · rfl

theorem who_flags_frame (p : Nat) (flags : Str) : ∀ b : Bot,
    (who_flags b p flags).clientObjs = b.clientObjs
    ∧ (who_flags b p flags).channelObjs = b.channelObjs
    ∧ (who_flags b p flags)._clients = b._clients
    ∧ (who_flags b p flags)._channels = b._channels := by
  induction flags with
  | nil => intro b; exact ⟨rfl, rfl, rfl, rfl⟩
  | cons f fs ih =>
    intro b
    have hstep : who_flags b p (f :: fs)
        = who_flags (if (b.get_prefix_mode f ≠ Char.ofNat 0
            && !(b.membership p).has_mode (b.get_prefix_mode f)) = true
          then b.setMembership p { b.membership p with
              modes := (b.membership p).modes ++ [b.get_prefix_mode f] }
          else b) p fs := by
      simp only [who_flags, List.foldl_cons]
    rw [hstep]
    obtain ⟨i1, i2, i3, i4⟩ := ih (if (b.get_prefix_mode f ≠ Char.ofNat 0
            && !(b.membership p).has_mode (b.get_prefix_mode f)) = true
          then b.setMembership p { b.membership p with
              modes := (b.membership p).modes ++ [b.get_prefix_mode f] }
          else b)
    rw [i1, i2, i3, i4]
    split
    · exact ⟨rfl, rfl, rfl, rfl⟩
    · exact ⟨rfl, rfl, rfl, rfl⟩

theorem find_or_create_client_known (b : Bot) (nick user host : Str) (hwf : b.WF) :
    (find_or_create_client b nick user host).1.find_client nick
        = some (find_or_create_client b nick user host).2
    ∧ (find_or_create_client b nick user host).2
        < (find_or_create_client b nick user host).1.clientObjs.length
    ∧ ((find_or_create_client b nick user host).1.client
          (find_or_create_client b nick user host).2).account
        = (match b.find_client nick with
           | some c0 => (b.client c0).account
           | none => [])
    ∧ (∀ c0, b.find_client nick = some c0 → (find_or_create_client b nick user host).2 = c0) := by
  unfold find_or_create_client
  cases hf : b.find_client nick with
  | some c0 =>
    obtain ⟨e, he, hv⟩ := map_find_mem _ _ _ hf
    exact ⟨hf, hv ▸ hwf.2.1 e he, rfl, fun c1 h1 => by simpa using h1⟩
  | none =>
    have h2 : map_find b._clients nick = none := hf
    refine ⟨?_, by simp [Bot.add_client], ?_, fun c1 h1 => by simp at h1⟩
    · simp [Bot.add_client, Bot.find_client, Bot.client, getD_append_one, Client.new,
        map_find_insert_self, h2]
    · simp [Bot.add_client, Bot.client, getD_append_one, Client.new]

theorem who_reply_common_account (b : Bot) (chname nick user hostname flags account : Str)
    (hwf : b.WF) :
    ∃ c, (who_reply_common b chname nick user hostname flags account).find_client nick = some c
      ∧ (∀ c0, b.find_client nick = some c0 → c = c0)
      ∧ ((who_reply_common b chname nick user hostname flags account).client c).account
        = (if b.use_account_tracking = true ∧ account ≠ [] then account
           else match b.find_client nick with
             | some c0 => (b.client c0).account
             | none => []) := by
  obtain ⟨k1, k2, k3, k4⟩ := find_or_create_client_known b nick user hostname hwf
  have l1 := find_or_create_client_link b nick user hostname
  obtain ⟨b1, c, e1⟩ : ∃ b1 c, find_or_create_client b nick user hostname = (b1, c) :=
    ⟨_, _, rfl⟩
  rw [e1] at k1 k2 k3 k4 l1
  simp only at k1 k2 k3 k4 l1
  have ht := SameLink_tracking b b1 l1
  obtain ⟨b2, e2⟩ : ∃ b2, (if b1.use_account_tracking && !account.isEmpty
      then b1.set_account c account else b1) = b2 := ⟨_, rfl⟩
  have h2 : b2._clients = b1._clients
      ∧ (b2.client c).account = (if b.use_account_tracking = true ∧ account ≠ [] then account
           else match b.find_client nick with
             | some c0 => (b.client c0).account
             | none => []) := by
    rw [← e2, ht]
    by_cases hc : (b.use_account_tracking && !account.isEmpty) = true
    · rw [if_pos hc]
      have hc2 : b.use_account_tracking = true ∧ account ≠ [] := by
        simpa [List.isEmpty_iff] using hc
      rw [if_pos hc2]
      refine ⟨rfl, ?_⟩
      unfold Bot.set_account
      rw [client_set, if_pos ⟨rfl, k2⟩]
    · rw [if_neg hc]
      have hc2 : ¬ (b.use_account_tracking = true ∧ account ≠ []) := by
        simpa [List.isEmpty_iff] using hc
      rw [if_neg hc2]
      exact ⟨rfl, k3⟩
  obtain ⟨f1, _, f3, _⟩ := find_or_create_channel_spec b2 chname
  obtain ⟨b3, ch, e3⟩ : ∃ b3 ch, find_or_create_channel b2 chname = (b3, ch) := ⟨_, _, rfl⟩
  rw [e3] at f1 f3
  simp only at f1 f3
  obtain ⟨j1, _, _, _, j5, _⟩ := join_chan_frame b3 c ch
  obtain ⟨w1, _, w3, _⟩ := who_flags_frame (b3.join_chan c ch).2 flags (b3.join_chan c ch).1
  have e : who_reply_common b chname nick user hostname flags account
      = who_flags (b3.join_chan c ch).1 (b3.join_chan c ch).2 flags := by
    unfold who_reply_common
    simp only [e1, e2, e3]
  rw [e]
  refine ⟨c, ?_, k4, ?_⟩
  · unfold Bot.find_client at k1 ⊢
    rw [w3, j1, f3, h2.1]
    exact k1
  · have : (who_flags (b3.join_chan c ch).1 (b3.join_chan c ch).2 flags).client c
        = (b3.join_chan c ch).1.client c := by
      simp only [Bot.client, w1]
    rw [this, j5 c]
    have : b3.client c = b2.client c := by
      simp only [Bot.client, f1]
    rw [this]
    exact h2.2

/-- C15 (as the code has it): with identity tracking enabled, in any state
reached by the bot, after an extended reply with seven fields and the token
`524` for nick N, N resolves to a client (the one it resolved to before, if
any), and the account of that client is the account field of the reply when
the field is neither `0` nor empty.  When the field is `0` (or empty) the
account is left as it was: empty for a client the reply created, and the
former account for a client already known. -/
theorem C15_whox_account (b : Bot) (m : Message) (chan user host N flags acct : Str)
    (hb : b.Reachable) (ht : b.use_account_tracking = true)
    (hargs : m.args = ["524".toList, chan, user, host, N, flags, acct]) :
    ∃ c, (handle_whox_reply b m).find_client N = some c
      ∧ (∀ c0, b.find_client N = some c0 → c = c0)
      ∧ ((handle_whox_reply b m).client c).account
        = (if acct ≠ "0".toList ∧ acct ≠ [] then acct
           else match b.find_client N with
             | some c0 => (b.client c0).account
             | none => []) := by
  have e0 : handle_whox_reply b m
      = who_reply_common b chan N user host flags (if acct = "0".toList then [] else acct) := by
    unfold handle_whox_reply
    rw [if_neg (by simp [hargs]), if_neg (by simp [hargs])]
    simp [hargs]
  obtain ⟨c, h1, h2, h3⟩ := who_reply_common_account b chan N user host flags
    (if acct = "0".toList then [] else acct) (Reachable_WF b hb)
  rw [← e0] at h1 h3
  refine ⟨c, h1, h2, ?_⟩
  rw [h3]
  by_cases hz : acct = "0".toList
  · rw [if_pos hz, if_neg (fun x => x.2 rfl), if_neg (fun x => x.1 hz)]
  · rw [if_neg hz]
    by_cases he : acct = []
    · rw [if_neg (fun x => x.2 he), if_neg (fun x => x.2 he)]
    · rw [if_pos ⟨ht, he⟩, if_pos ⟨hz, he⟩]

/-- Witness for C15: `x` joined with account `alice`; an extended reply with
account field `bob` follows. -/
theorem C15_whox_account_witness :
    ∃ c, (handle_whox_reply ((Bot.init "bot".toList [] true true true).after
          [Event.line ":x!u@h JOIN #a alice :Real".toList])
        { raw := [], command := "354".toList
          source := { raw := "srv".toList, name := "srv".toList, client := none
                      destination := "bot".toList, reply_func := "srv".toList
                      error_func := "srv".toList }
          args := ["524".toList, "#a".toList, "u".toList, "h".toList, "x".toList, "H".toList,
                   "bob".toList] }).find_client "x".toList = some c
      ∧ ((handle_whox_reply ((Bot.init "bot".toList [] true true true).after
          [Event.line ":x!u@h JOIN #a alice :Real".toList])
        { raw := [], command := "354".toList
          source := { raw := "srv".toList, name := "srv".toList, client := none
                      destination := "bot".toList, reply_func := "srv".toList
                      error_func := "srv".toList }
          args := ["524".toList, "#a".toList, "u".toList, "h".toList, "x".toList, "H".toList,
                   "bob".toList] }).client c).account = "bob".toList := by
  obtain ⟨c, h1, _, h3⟩ := C15_whox_account
    ((Bot.init "bot".toList [] true true true).after
      [Event.line ":x!u@h JOIN #a alice :Real".toList])
    { raw := [], command := "354".toList
      source := { raw := "srv".toList, name := "srv".toList, client := none
                  destination := "bot".toList, reply_func := "srv".toList
                  error_func := "srv".toList }
      args := ["524".toList, "#a".toList, "u".toList, "h".toList, "x".toList, "H".toList,
               "bob".toList] }
    "#a".toList "u".toList "h".toList "x".toList "H".toList "bob".toList
    ⟨"bot".toList, [], true, true, true, [Event.line ":x!u@h JOIN #a alice :Real".toList],
      by decide⟩
    (by decide) rfl
  exact ⟨c, h1, h3.trans (if_pos ⟨by decide, by decide⟩)⟩

/-- Counterexample to C15 as stated: `x` joined with account `alice`; after an
extended reply for `x` with the account field `0`, the account of `x` is still
`alice`, not empty. -/
theorem C15_whox_counterexample :
    ((Bot.init "bot".toList [] true true true).run
        [Event.line ":x!u@h JOIN #a alice :Real".toList,
         Event.line ":srv 354 bot 524 #a u h x H 0".toList]).map
      (fun b => (b.find_client "x".toList, (b.client 0).account))
    = some (some 0, "alice".toList) := by
  decide

/-! ## C16: JOIN -/

theorem find_or_create_channel_known (b : Bot) (name : Str) :
    (∀ h0, b.find_channel name = some h0 →
      (find_or_create_channel b name).2 = h0 ∧ (find_or_create_channel b name).1 = b)
    ∧ (b.find_channel name = none →
      (find_or_create_channel b name).2 = b.channelObjs.length
      ∧ (find_or_create_channel b name).1._channels
          = b._channels ++ [(name, b.channelObjs.length)]) := by
  unfold find_or_create_channel
  cases hf : b.find_channel name with
  | some ch => exact ⟨fun h0 h => ⟨by simpa using h, rfl⟩, fun h => by simp at h⟩
  | none =>
    have h2 : map_find b._channels name = none := hf
    refine ⟨fun h0 h => by simp at h, fun _ => ⟨rfl, ?_⟩⟩
    simp [Bot.add_channel, Bot.channel, getD_append_one, map_insert_of_none _ _ _ h2]

theorem find_or_create_client_msg_known (b : Bot) (m : Message) (hwf : b.WF)
    (hconn : b.Connected) (hraw : m.source.raw.length < npos)
    (hsrc : if find m.source.raw '!' 0 ≠ npos
        then substr m.source.raw 0 (find m.source.raw '!' 0) = some m.source.name
          ∧ m.source.client = map_find b._clients m.source.name
        else m.source.name = m.source.raw ∧ m.source.client = none) :
    ∃ b1 c, find_or_create_client_msg b m = some (b1, c)
      ∧ b1.find_client m.source.name = some c
      ∧ c < b1.clientObjs.length
      ∧ (b1.client c).account
          = (match b.find_client m.source.name with
             | some c0 => (b.client c0).account
             | none => [])
      ∧ (∀ c0, b.find_client m.source.name = some c0 → c = c0 ∧ b1._clients = b._clients)
      ∧ (b.find_client m.source.name = none →
          c = b.clientObjs.length ∧ b1._clients = b._clients ++ [(m.source.name, c)]
          ∧ (b1.client c).nick = m.source.name ∧ (b1.client c).channels = []) := by
  have known : ∀ c0, b.find_client m.source.name = some c0 →
      b.find_client m.source.name = some c0
      ∧ c0 < b.clientObjs.length
      ∧ (b.client c0).account
          = (match b.find_client m.source.name with
             | some c0 => (b.client c0).account
             | none => [])
      ∧ (∀ c1, b.find_client m.source.name = some c1 → c0 = c1 ∧ b._clients = b._clients)
      ∧ (b.find_client m.source.name = none →
          c0 = b.clientObjs.length ∧ b._clients = b._clients ++ [(m.source.name, c0)]
          ∧ (b.client c0).nick = m.source.name ∧ (b.client c0).channels = []) := by
    intro c0 hf
    obtain ⟨e, he, hv2⟩ := map_find_mem _ _ _ hf
    refine ⟨hf, hv2 ▸ hwf.2.1 e he, by rw [hf], fun c1 h1 => ?_, fun h => ?_⟩
    · rw [hf] at h1
      exact ⟨by simpa using h1, rfl⟩
    · rw [hf] at h
      exact absurd h (by simp)
  cases hcl : m.source.client with
  | some c0 =>
    have hf : b.find_client m.source.name = some c0 := by
      split at hsrc
      · rw [hsrc.2] at hcl
        exact hcl
      · rw [hsrc.2] at hcl
        exact absurd hcl (by simp)
    refine ⟨b, c0, ?_, known c0 hf⟩
    unfold find_or_create_client_msg
    rw [hcl]
  | none =>
    have e1 : find_or_create_client_msg b m
        = find_or_create_client_nuh b m.source.name m.source.raw := by
      unfold find_or_create_client_msg
      rw [hcl]
    rw [e1]
    cases hf : b.find_client m.source.name with
    | some c0 =>
      refine ⟨b, c0, ?_, hf ▸ known c0 hf⟩
      unfold find_or_create_client_nuh
      rw [hf]
    | none =>
      obtain ⟨b1, c, hr, _⟩ :=
        find_or_create_client_nuh_total b m.source.name m.source.raw hraw hconn
      refine ⟨b1, c, hr, ?_⟩
      unfold find_or_create_client_nuh at hr
      rw [hf] at hr
      simp only [Option.bind_eq_some] at hr
      obtain ⟨nick, hnick, user, _, host, _, hr2⟩ := hr
      simp only [Option.some.injEq, Prod.mk.injEq] at hr2
      obtain ⟨rfl, rfl⟩ := hr2
      have hn : nick = m.source.name := by
        by_cases hb : find m.source.raw '!' 0 = npos
        · rw [if_pos hb] at hnick
          rw [if_neg (by simpa using hb)] at hsrc
          simp only [Option.some.injEq] at hnick
          rw [← hnick, hsrc.1]
        · rw [if_neg hb] at hnick
          rw [if_pos hb] at hsrc
          rw [hsrc.1] at hnick
          simpa using hnick.symm
      subst hn
      have h2 : map_find b._clients m.source.name = none := hf
      refine ⟨?_, by simp [Bot.add_client], ?_, fun c1 h1 => by simp at h1, fun _ => ⟨rfl, ?_, ?_, ?_⟩⟩
      · simp [Bot.add_client, Bot.find_client, Bot.client, getD_append_one, Client.new,
          map_find_insert_self, h2]
      · simp [Bot.add_client, Bot.client, getD_append_one, Client.new]
      · simp [Bot.add_client, Bot.client, getD_append_one, Client.new,
          map_insert_of_none _ _ _ h2]
      · simp [Bot.add_client, Bot.client, getD_append_one, Client.new]
      · simp [Bot.add_client, Bot.client, getD_append_one, Client.new]

theorem join_chan_member (b : Bot) (c ch : Nat) (hwf : b.WF) (hc : c < b.clientObjs.length)
    (hch : ch < b.channelObjs.length) :
    (b.join_chan c ch).2 ∈ ((b.join_chan c ch).1.client c).channels
    ∧ ((b.join_chan c ch).1.membership (b.join_chan c ch).2).channel = ch
    ∧ ((b.join_chan c ch).1.membership (b.join_chan c ch).2).client = c
    ∧ (b.join_chan c ch).2 ∈ ((b.join_chan c ch).1.channel ch).members
    ∧ (b.find_membership c ch = none →
        ((b.join_chan c ch).1.client c).channels
          = (b.client c).channels ++ [(b.join_chan c ch).2]) := by
  have hw := (WF_join_chan b c ch hwf hc hch).1
  have key : (b.join_chan c ch).2 ∈ ((b.join_chan c ch).1.client c).channels
      ∧ ((b.join_chan c ch).1.membership (b.join_chan c ch).2).channel = ch
      ∧ (b.find_membership c ch = none →
        ((b.join_chan c ch).1.client c).channels
          = (b.client c).channels ++ [(b.join_chan c ch).2]) := by
    cases hfm : b.find_membership c ch with
    | some p =>
      have e : b.join_chan c ch = (b, p) := by
        unfold Bot.join_chan
        rw [hfm]
      rw [e]
      obtain ⟨m1, m2⟩ := find_membership_mem b c ch p hfm
      exact ⟨m1, m2, fun h => by simp at h⟩
    | none =>
      obtain ⟨j1, j2, j3, _⟩ := join_chan_fresh b c ch hfm
      have hcc : ((b.join_chan c ch).1.client c).channels
          = (b.client c).channels ++ [b.membershipObjs.length] := by
        simp only [Bot.client, j3, getD_set]
        simp [hc]
      refine ⟨?_, ?_, fun _ => ?_⟩
      · rw [hcc, j1]
        simp
      · simp only [Bot.membership, j2, j1, getD_append_one]
        simp
      · rw [hcc, j1]
  obtain ⟨k1, k2, k3⟩ := key
  obtain ⟨_, g2, g3⟩ := hw.1.1 c _ k1
  rw [k2] at g3
  exact ⟨k1, k2, g2, g3, k3⟩

theorem send_frame (b b1 : Bot) (line : Str) (h : b.send line = some b1) :
    b1.clientObjs = b.clientObjs ∧ b1.channelObjs = b.channelObjs
    ∧ b1.membershipObjs = b.membershipObjs ∧ b1._clients = b._clients
    ∧ b1._channels = b._channels := by
  unfold Bot.send at h
  split at h
  · simp only [Option.some.injEq] at h
    subst h
    exact ⟨rfl, rfl, rfl, rfl, rfl⟩
  · exact absurd h (by simp)

theorem handle_join_spec (b : Bot) (m : Message) (hwf : b.WF) (hconn : b.Connected)
    (hv : m.ValidFor b) (hraw : m.source.raw.length < npos)
    (hsrc : if find m.source.raw '!' 0 ≠ npos
        then substr m.source.raw 0 (find m.source.raw '!' 0) = some m.source.name
          ∧ m.source.client = map_find b._clients m.source.name
        else m.source.name = m.source.raw ∧ m.source.client = none) :
    ∃ b1 c h, handle_join b m = some b1
      ∧ b1.find_client m.source.name = some c
      ∧ b1.find_channel m.source.destination = some h
      ∧ (∀ c0, b.find_client m.source.name = some c0 → c = c0 ∧ b1._clients = b._clients)
      ∧ (b.find_client m.source.name = none →
          c = b.clientObjs.length ∧ b1._clients = b._clients ++ [(m.source.name, c)]
          ∧ (b1.client c).nick = m.source.name)
      ∧ (∀ h0, b.find_channel m.source.destination = some h0 →
          h = h0 ∧ b1._channels = b._channels)
      ∧ (b.find_channel m.source.destination = none →
          h = b.channelObjs.length
          ∧ b1._channels = b._channels ++ [(m.source.destination, h)])
      ∧ (∃ p ∈ (b1.client c).channels, (b1.membership p).channel = h
          ∧ (b1.membership p).client = c ∧ p ∈ (b1.channel h).members)
      ∧ (b1.client c).account
          = (if b.use_account_tracking = true ∧ m.args ≠ [] then m.args.getD 0 []
             else match b.find_client m.source.name with
               | some c0 => (b.client c0).account
               | none => []) := by
  obtain ⟨b1, c, h1, k1, k2, k3, k4, k5⟩ :=
    find_or_create_client_msg_known b m hwf hconn hraw hsrc
  obtain ⟨w1, _, _⟩ := WF_find_or_create_client_msg b b1 m c hwf hv h1
  have l1 := find_or_create_client_msg_link b b1 m c h1
  obtain ⟨f1, _, f3, _, _, _, f7⟩ := find_or_create_channel_spec b1 m.source.destination
  obtain ⟨n1, n2⟩ := find_or_create_channel_known b1 m.source.destination
  obtain ⟨c1, c2, _, _⟩ := WF_find_or_create_channel b1 m.source.destination w1
  have l2 := find_or_create_channel_link b1 m.source.destination
  obtain ⟨b2, ch, h2⟩ : ∃ b2 ch, find_or_create_channel b1 m.source.destination = (b2, ch) :=
    ⟨_, _, rfl⟩
  rw [h2] at f1 f3 f7 n1 n2 c1 c2 l2
  simp only at f1 f3 f7 n1 n2 c1 c2 l2
  have hch1 : b1._channels = b._channels := by
    unfold find_or_create_client_msg at h1
    split at h1
    · simp only [Option.some.injEq, Prod.mk.injEq] at h1
      rw [← h1.1]
    · unfold find_or_create_client_nuh at h1
      split at h1
      · simp only [Option.some.injEq, Prod.mk.injEq] at h1
        rw [← h1.1]
      · simp only [Option.bind_eq_some] at h1
        obtain ⟨_, _, _, _, _, _, h1⟩ := h1
        simp only [Option.some.injEq, Prod.mk.injEq] at h1
        rw [← h1.1]
        rfl
  have hco1 : b1.channelObjs = b.channelObjs := by
    unfold find_or_create_client_msg at h1
    split at h1
    · simp only [Option.some.injEq, Prod.mk.injEq] at h1
      rw [← h1.1]
    · unfold find_or_create_client_nuh at h1
      split at h1
      · simp only [Option.some.injEq, Prod.mk.injEq] at h1
        rw [← h1.1]
      · simp only [Option.bind_eq_some] at h1
        obtain ⟨_, _, _, _, _, _, h1⟩ := h1
        simp only [Option.some.injEq, Prod.mk.injEq] at h1
        rw [← h1.1]
        rfl
  have ht2 : b2.use_account_tracking = b.use_account_tracking :=
    SameLink_tracking b b2 (SameLink_trans _ _ _ l1 l2)
  obtain ⟨b3, h3⟩ : ∃ b3, (if b2.use_account_tracking && decide (m.args.length > 0)
      then b2.set_account c (m.args.getD 0 []) else b2) = b3 := ⟨_, rfl⟩
  have hc2 : c < b2.clientObjs.length := by rw [f1]; exact k2
  have h3s : b3.WF ∧ b3._clients = b2._clients ∧ b3._channels = b2._channels
      ∧ b3.clientObjs.length = b2.clientObjs.length
      ∧ b3.channelObjs = b2.channelObjs
      ∧ (b3.client c).account
        = (if b.use_account_tracking = true ∧ m.args ≠ [] then m.args.getD 0 []
           else match b.find_client m.source.name with
             | some c0 => (b.client c0).account
             | none => []) := by
    have hold : (b2.client c).account = (b1.client c).account := by
      simp only [Bot.client, f1]
    rw [← h3, ht2]
    by_cases hc : (b.use_account_tracking && decide (m.args.length > 0)) = true
    · have hc3 : b.use_account_tracking = true ∧ m.args ≠ [] := by
        simp only [Bool.and_eq_true, decide_eq_true_eq] at hc
        exact ⟨hc.1, fun e => by rw [e] at hc; simp at hc⟩
      rw [if_pos hc, if_pos hc3]
      obtain ⟨s1, s2, s3⟩ := WF_set_account b2 c (m.args.getD 0 []) c1
      refine ⟨s1, rfl, rfl, s2, s3, ?_⟩
      unfold Bot.set_account
      rw [client_set, if_pos ⟨rfl, hc2⟩]
    · have hc3 : ¬ (b.use_account_tracking = true ∧ m.args ≠ []) := by
        intro x
        apply hc
        simp only [Bool.and_eq_true, decide_eq_true_eq]
        exact ⟨x.1, List.length_pos.mpr x.2⟩
      rw [if_neg hc, if_neg hc3]
      exact ⟨c1, rfl, rfl, rfl, rfl, hold.trans k3⟩
  obtain ⟨t1, t2, t3, t4, t5, t6⟩ := h3s
  obtain ⟨j1, j2, _, _, j5, j6⟩ := join_chan_frame b3 c ch
  obtain ⟨q1, q2, q3, q4, _⟩ := join_chan_member b3 c ch t1 (by rw [t4]; exact hc2)
    (by rw [t5]; exact c2)
  have l4 := handle_join_link b b1 b2 b3 (b3.join_chan c ch).1 m c ch (b3.join_chan c ch).2
    h1 h2 h3 rfl
  have hj := handle_join_steps b b1 b2 b3 (b3.join_chan c ch).1 m c ch (b3.join_chan c ch).2
    h1 h2 h3 rfl
  generalize (b3.join_chan c ch).1 = b4 at j1 j2 j5 j6 q1 q2 q3 q4 l4 hj
  generalize (b3.join_chan c ch).2 = p at q1 q2 q3 q4 hj
  have hconn4 : b4.Connected := Connected_of_eq b b4 l4.2.2.1 l4.2.1 hconn
  obtain ⟨b5, h5, z1, z2, z3, z4, z5⟩ : ∃ b5, handle_join b m = some b5
      ∧ b5.clientObjs = b4.clientObjs ∧ b5.channelObjs = b4.channelObjs
      ∧ b5.membershipObjs = b4.membershipObjs ∧ b5._clients = b4._clients
      ∧ b5._channels = b4._channels := by
    by_cases hn : m.source.name = b4._nick
    · rw [if_pos hn] at hj
      obtain ⟨b5, hs, _⟩ := send_total b4 _ hconn4
      exact ⟨b5, hj.trans hs, send_frame b4 b5 _ hs⟩
    · rw [if_neg hn] at hj
      exact ⟨b4, hj, rfl, rfl, rfl, rfl, rfl⟩
  have hcl5 : ∀ x, b5.client x = b4.client x := by
    intro x
    simp only [Bot.client, z1]
  have hch5 : ∀ x, b5.channel x = b4.channel x := by
    intro x
    simp only [Bot.channel, z2]
  have hm5 : ∀ x, b5.membership x = b4.membership x := by
    intro x
    simp only [Bot.membership, z3]
  have hclients : b5._clients = b1._clients := by
    rw [z4, j1, t2, f3]
  have hchannels : b5._channels = b2._channels := by
    rw [z5, j2, t3]
  refine ⟨b5, c, ch, h5, ?_, ?_, ?_, ?_, ?_, ?_, ⟨p, ?_, ?_, ?_, ?_⟩, ?_⟩
  · unfold Bot.find_client at k1 ⊢
    rw [hclients]
    exact k1
  · unfold Bot.find_channel at f7 ⊢
    rw [hchannels]
    exact f7
  · intro c0 h0
    exact ⟨(k4 c0 h0).1, hclients.trans (k4 c0 h0).2⟩
  · intro h0
    obtain ⟨a1, a2, a3, _⟩ := k5 h0
    refine ⟨a1, hclients.trans a2, ?_⟩
    rw [hcl5, j6 c]
    have e3 : (b3.client c).nick = (b2.client c).nick := by
      rw [← h3]
      split
      · unfold Bot.set_account
        rw [client_set, if_pos ⟨rfl, hc2⟩]
      · rfl
    have e2 : b2.client c = b1.client c := by
      simp only [Bot.client, f1]
    rw [e3, e2]
    exact a3
  · intro h0 hh0
    have hh1 : b1.find_channel m.source.destination = some h0 := by
      unfold Bot.find_channel at hh0 ⊢
      rw [hch1]
      exact hh0
    obtain ⟨a1, a2⟩ := n1 h0 hh1
    exact ⟨a1, by rw [hchannels, a2, hch1]⟩
  · intro hh0
    have hh1 : b1.find_channel m.source.destination = none := by
      unfold Bot.find_channel at hh0 ⊢
      rw [hch1]
      exact hh0
    obtain ⟨a1, a2⟩ := n2 hh1
    exact ⟨by rw [a1, hco1], by rw [hchannels, a2, hch1, hco1, a1, hco1]⟩
  · rw [hcl5]
    exact q1
  · rw [hm5]
    exact q2
  · rw [hm5]
    exact q3
  · rw [hch5]
    exact q4
  · rw [hcl5, j5 c]
    exact t6

/-- C16: on a connected bot in a state it has reached, let a JOIN event be
parsed from a line, with source nick N and destination H.  `handle_join`
returns, and afterwards `find_client(N)` and `find_channel(H)` resolve.  If N
resolved before, it resolves to the same client and the client registry is
unchanged; if not, the registry gains the one entry for a new client of nick N.
Likewise H resolves to the channel it resolved to, the channel registry being
unchanged, or the registry gains the one entry for a new channel.  The client
holds a Membership in the channel, which the channel lists, and the client's
account is the first argument of the event when identity tracking is enabled
and the event has an argument, and otherwise is what it was (empty for a new
client). -/
theorem C16_join (b : Bot) (line : Str) (m : Message) (hb : b.Reachable) (hconn : b.Connected)
    (hp : handle_message_parse b._clients line = some m) (hlen : line.length < npos) :
    ∃ b1 c h, handle_join b m = some b1
      ∧ b1.find_client m.source.name = some c
      ∧ b1.find_channel m.source.destination = some h
      ∧ (∀ c0, b.find_client m.source.name = some c0 → c = c0 ∧ b1._clients = b._clients)
      ∧ (b.find_client m.source.name = none →
          c = b.clientObjs.length ∧ b1._clients = b._clients ++ [(m.source.name, c)]
          ∧ (b1.client c).nick = m.source.name)
      ∧ (∀ h0, b.find_channel m.source.destination = some h0 →
          h = h0 ∧ b1._channels = b._channels)
      ∧ (b.find_channel m.source.destination = none →
          h = b.channelObjs.length
          ∧ b1._channels = b._channels ++ [(m.source.destination, h)])
      ∧ (∃ p ∈ (b1.client c).channels, (b1.membership p).channel = h
          ∧ (b1.membership p).client = c ∧ p ∈ (b1.channel h).members)
      ∧ (b1.client c).account
          = (if b.use_account_tracking = true ∧ m.args ≠ [] then m.args.getD 0 []
             else match b.find_client m.source.name with
               | some c0 => (b.client c0).account
               | none => []) := by
  have hwf := Reachable_WF b hb
  have hraw := parse_raw_length _ _ _ hp
  exact handle_join_spec b m hwf hconn (parse_valid b line m hwf hp) (by omega)
    (parse_source _ _ _ hp).2.2.2

/-- Witness for C16: with identity tracking enabled, `x` joins `#a` with the
account `alice` on a bot that knows neither. -/
theorem C16_join_witness :
    ∃ b1 c, handle_join (Bot.init "bot".toList [] true true true)
        { raw := ":x!u@h JOIN #a alice :Real".toList, command := "JOIN".toList
          source := { raw := "x!u@h".toList, name := "x".toList, client := none
                      destination := "#a".toList, reply_func := "#a".toList
                      error_func := "#a".toList }
          args := ["alice".toList, "Real".toList] } = some b1
      ∧ b1.find_client "x".toList = some c
      ∧ (b1.client c).account = "alice".toList := by
  obtain ⟨b1, c, _, e1, e2, _, _, _, _, _, _, e9⟩ :=
    C16_join (Bot.init "bot".toList [] true true true) ":x!u@h JOIN #a alice :Real".toList
      { raw := ":x!u@h JOIN #a alice :Real".toList, command := "JOIN".toList
        source := { raw := "x!u@h".toList, name := "x".toList, client := none
                    destination := "#a".toList, reply_func := "#a".toList
                    error_func := "#a".toList }
        args := ["alice".toList, "Real".toList] }
      ⟨"bot".toList, [], true, true, true, [], rfl⟩ ⟨rfl, rfl⟩ (by decide) (by decide)
  exact ⟨b1, c, e1, e2, e9.trans (if_pos ⟨by decide, by decide⟩)⟩

/-! ## C24: the key comparator is the lexicographic order -/

theorem char_toNat_inj (x y : Char) (e : x.toNat = y.toNat) : x = y :=
  Char.ext (UInt32.ext (by simpa [Char.toNat, UInt32.toNat] using e))

theorem IrcStringCmp_lex (a : Str) : ∀ b : Str, a ≠ [] → b ≠ [] →
    IrcStringCmp a b = some (lex_lt a b) := by
  induction a with
  | nil => intro b ha; exact absurd rfl ha
  | cons x xs ih =>
    intro b _ hb
    cases b with
    | nil => exact absurd rfl hb
    | cons y ys =>
      unfold IrcStringCmp lex_lt
      by_cases h1 : x.toNat < y.toNat
      · have e1 : ((x.toNat : Int) - (y.toNat : Int)) ≠ 0 := by omega
        have e2 : ((x.toNat : Int) - (y.toNat : Int)) < 0 := by omega
        simp only [e1, e2, h1, ne_eq, not_false_eq_true, if_true, decide_True]
      · by_cases h2 : y.toNat < x.toNat
        · have e1 : ((x.toNat : Int) - (y.toNat : Int)) ≠ 0 := by omega
          have e2 : ¬ ((x.toNat : Int) - (y.toNat : Int)) < 0 := by omega
          simp only [e1, e2, h1, h2, ne_eq, not_false_eq_true, if_true, if_false, decide_False]
        · have e1 : ¬ (((x.toNat : Int) - (y.toNat : Int)) ≠ 0) := by omega
          rw [if_neg e1, if_neg h1, if_neg h2]
          cases xs with
          | nil =>
            rw [if_pos rfl]
            cases ys with
            | nil => rfl
            | cons z zs => rfl
          | cons w ws =>
            rw [if_neg (by simp)]
            cases ys with
            | nil => rfl
            | cons z zs =>
              rw [if_neg (by simp)]
              exact ih (z :: zs) (by simp) (by simp)

theorem lex_lt_iff (a : Str) : ∀ b : Str,
    lex_lt a b = true ↔ List.Lex (fun x y : Char => x.toNat < y.toNat) a b := by
  induction a with
  | nil =>
    intro b
    cases b with
    | nil =>
      constructor
      · intro h; exact absurd h (by simp [lex_lt])
      · intro h; cases h
    | cons y ys =>
      constructor
      · intro _; exact List.Lex.nil
      · intro _; rfl
  | cons x xs ih =>
    intro b
    cases b with
    | nil =>
      constructor
      · intro h; exact absurd h (by simp [lex_lt])
      · intro h; cases h
    | cons y ys =>
      unfold lex_lt
      by_cases h1 : x.toNat < y.toNat
      · rw [if_pos h1]
        exact ⟨fun _ => List.Lex.rel h1, fun _ => rfl⟩
      · rw [if_neg h1]
        by_cases h2 : y.toNat < x.toNat
        · rw [if_pos h2]
          constructor
          · intro h; exact absurd h (by simp)
          · intro h
            cases h with
            | cons h3 => omega
            | rel h3 => exact absurd h3 h1
        · rw [if_neg h2]
          have hxy : x = y := char_toNat_inj x y (by omega)
          subst hxy
          constructor
          · intro h; exact List.Lex.cons ((ih ys).mp h)
          · intro h
            cases h with
            | cons h3 => exact (ih ys).mpr h3
            | rel h3 => exact absurd h3 h1

theorem lex_lt_irrefl (a : Str) : lex_lt a a = false := by
  induction a with
  | nil => rfl
  | cons x xs ih => simp [lex_lt, ih]

theorem lex_lt_asymm (a : Str) : ∀ b : Str, lex_lt a b = true → lex_lt b a = false := by
  induction a with
  | nil =>
    intro b h
    cases b with
    | nil => rfl
    | cons y ys => rfl
  | cons x xs ih =>
    intro b h
    cases b with
    | nil => exact absurd h (by simp [lex_lt])
    | cons y ys =>
      unfold lex_lt at h ⊢
      by_cases h1 : x.toNat < y.toNat
      · rw [if_neg (by omega), if_pos h1]
      · rw [if_neg h1] at h
        by_cases h2 : y.toNat < x.toNat
        · rw [if_pos h2] at h
          exact absurd h (by simp)
        · rw [if_neg h2] at h
          rw [if_neg h2, if_neg h1]
          exact ih ys h

theorem lex_lt_trans (a : Str) : ∀ b c : Str, lex_lt a b = true → lex_lt b c = true →
    lex_lt a c = true := by
  induction a with
  | nil =>
    intro b c h1 h2
    cases c with
    | nil =>
      cases b with
      | nil => exact h1
      | cons y ys => exact absurd h2 (by simp [lex_lt])
    | cons z zs => rfl
  | cons x xs ih =>
    intro b c h1 h2
    cases b with
    | nil => exact absurd h1 (by simp [lex_lt])
    | cons y ys =>
      cases c with
      | nil => exact absurd h2 (by simp [lex_lt])
      | cons z zs =>
        unfold lex_lt at h1 h2 ⊢
        by_cases a1 : x.toNat < y.toNat
        · by_cases b1 : y.toNat < z.toNat
          · rw [if_pos (by omega)]
          · rw [if_neg b1] at h2
            by_cases b2 : z.toNat < y.toNat
            · rw [if_pos b2] at h2
              exact absurd h2 (by simp)
            · rw [if_pos (by omega)]
        · rw [if_neg a1] at h1
          by_cases a2 : y.toNat < x.toNat
          · rw [if_pos a2] at h1
            exact absurd h1 (by simp)
          · rw [if_neg a2] at h1
            by_cases b1 : y.toNat < z.toNat
            · rw [if_pos (by omega)]
            · rw [if_neg b1] at h2
              by_cases b2 : z.toNat < y.toNat
              · rw [if_pos b2] at h2
                exact absurd h2 (by simp)
              · rw [if_neg b2] at h2
                rw [if_neg (by omega), if_neg (by omega)]
                exact ih ys zs h1 h2

theorem lex_lt_total (a : Str) : ∀ b : Str, a ≠ b → lex_lt a b = true ∨ lex_lt b a = true := by
  induction a with
  | nil =>
    intro b h
    cases b with
    | nil => exact absurd rfl h
    | cons y ys => exact Or.inl rfl
  | cons x xs ih =>
    intro b h
    cases b with
    | nil => exact Or.inr rfl
    | cons y ys =>
      unfold lex_lt
      by_cases h1 : x.toNat < y.toNat
      · exact Or.inl (if_pos h1)
      · by_cases h2 : y.toNat < x.toNat
        · exact Or.inr (if_pos h2)
        · have hxy : x = y := char_toNat_inj x y (by omega)
          subst hxy
          simp only [if_neg h1]
          exact ih ys (fun e => h (by rw [e]))

/-- C24: for non-empty strings `IrcStringCmp(s1, s2)` returns, and returns true
if and only if `s1` is strictly smaller than `s2` in the lexicographic order of
their character values, a proper prefix being smaller than its extension (the
order `lex_lt`, which is the relation `List.Lex` on character values).  On
non-empty strings the comparator is therefore irreflexive, asymmetric and
transitive, and it orders any two different strings. -/
theorem C24_comparator_is_lexicographic (s1 s2 s3 : Str) (h1 : s1 ≠ []) (h2 : s2 ≠ [])
    (h3 : s3 ≠ []) :
    IrcStringCmp s1 s2 = some (lex_lt s1 s2)
    ∧ (IrcStringCmp s1 s2 = some true
        ↔ List.Lex (fun x y : Char => x.toNat < y.toNat) s1 s2)
    ∧ IrcStringCmp s1 s1 = some false
    ∧ (IrcStringCmp s1 s2 = some true → IrcStringCmp s2 s1 = some false)
    ∧ (IrcStringCmp s1 s2 = some true → IrcStringCmp s2 s3 = some true →
        IrcStringCmp s1 s3 = some true)
    ∧ (s1 ≠ s2 → IrcStringCmp s1 s2 = some true ∨ IrcStringCmp s2 s1 = some true) := by
  have e12 := IrcStringCmp_lex s1 s2 h1 h2
  have e21 := IrcStringCmp_lex s2 s1 h2 h1
  have e23 := IrcStringCmp_lex s2 s3 h2 h3
  have e13 := IrcStringCmp_lex s1 s3 h1 h3
  have e11 := IrcStringCmp_lex s1 s1 h1 h1
  refine ⟨e12, ?_, ?_, ?_, ?_, ?_⟩
  · rw [e12, ← lex_lt_iff]
    simp
  · rw [e11, lex_lt_irrefl]
  · intro h
    rw [e12] at h
    rw [e21, lex_lt_asymm s1 s2 (by simpa using h)]
  · intro ha hb
    rw [e12] at ha
    rw [e23] at hb
    rw [e13, lex_lt_trans s1 s2 s3 (by simpa using ha) (by simpa using hb)]
  · intro hne
    rw [e12, e21]
    rcases lex_lt_total s1 s2 hne with h | h
    · exact Or.inl (by rw [h])
    · exact Or.inr (by rw [h])

/-- Witness for C24: `JOI` is a proper prefix of `JOIN`, and `JOIN` comes
before `KICK`. -/
theorem C24_comparator_is_lexicographic_witness :
    IrcStringCmp "JOI".toList "JOIN".toList = some true
    ∧ IrcStringCmp "JOIN".toList "JOI".toList = some false
    ∧ IrcStringCmp "JOI".toList "KICK".toList = some true := by
  have h := C24_comparator_is_lexicographic "JOI".toList "JOIN".toList "KICK".toList
    (by decide) (by decide) (by decide)
  have a : IrcStringCmp "JOI".toList "JOIN".toList = some true := h.1.trans (by decide)
  exact ⟨a, h.2.2.2.1 a, h.2.2.2.2.1 a (by decide)⟩

/-! ## C21: letter case of command keys in the dispatcher -/

/-- C21 (evaluation of the failing input): a handler added under `JOIN` on an
empty dispatcher is stored under that key and is invoked by the dispatch of the
command `JOIN`, but the dispatch of the command `join` invokes nothing: the
comparator orders `JOIN` before `join` (and `join` not before `JOIN`), so the
two keys are different keys of the handler map. -/
theorem C21_keys_are_case_sensitive :
    Dispatcher.add_handler ([] : List (Str × List Nat)) "JOIN".toList 7
      = some [("JOIN".toList, [7])]
    ∧ Dispatcher.dispatch [("JOIN".toList, [7])] "JOIN".toList = some [7]
    ∧ Dispatcher.dispatch [("JOIN".toList, [7])] "join".toList = some []
    ∧ IrcStringCmp "JOIN".toList "join".toList = some true
    ∧ IrcStringCmp "join".toList "JOIN".toList = some false := by
  decide

/-! ## C22: the capability flags -/

theorem cap_enabled_notify (b : Bot) (a : Str) (r : List Str) :
    (b.cap_enabled (a :: r)).have_account_notify
      = (decide (a = "account-notify".toList) || b.have_account_notify) := by
  unfold Bot.cap_enabled
  by_cases e1 : a = "account-notify".toList <;> by_cases e2 : a = "extended-join".toList <;>
    simp_all

theorem cap_enabled_extjoin (b : Bot) (a : Str) (r : List Str) :
    (b.cap_enabled (a :: r)).have_extended_join
      = (decide (a = "extended-join".toList) || b.have_extended_join) := by
  unfold Bot.cap_enabled
  by_cases e1 : a = "account-notify".toList <;> by_cases e2 : a = "extended-join".toList <;>
    simp_all

theorem cap_enabled_whox (b : Bot) (args : List Str) :
    (b.cap_enabled args).have_whox = b.have_whox := by
  unfold Bot.cap_enabled
  cases args with
  | nil => rfl
  | cons a r => simp only; split <;> split <;> rfl

theorem isupport_enabled_whox (b : Bot) (a : Str) (r : List Str) :
    (b.isupport_enabled (a :: r)).have_whox = (decide (a = "WHOX".toList) || b.have_whox) := by
  unfold Bot.isupport_enabled
  by_cases e1 : a = "WHOX".toList <;> simp_all

theorem isupport_enabled_caps (b : Bot) (args : List Str) :
    (b.isupport_enabled args).have_account_notify = b.have_account_notify
    ∧ (b.isupport_enabled args).have_extended_join = b.have_extended_join := by
  unfold Bot.isupport_enabled
  cases args with
  | nil => exact ⟨rfl, rfl⟩
  | cons a r => simp only; split <;> exact ⟨rfl, rfl⟩
theorem cap_enabled_notify_iff (b : Bot) (args : List Str) :
    (b.cap_enabled args).have_account_notify = true
      ↔ (b.have_account_notify = true ∨ ∃ r, args = "account-notify".toList :: r) := by
  cases args with
  | nil => simp [Bot.cap_enabled]
  | cons a r =>
    rw [cap_enabled_notify, Bool.or_eq_true, decide_eq_true_eq]
    constructor
    · rintro (h | h)
      · exact Or.inr ⟨r, by rw [h]⟩
      · exact Or.inl h
    · rintro (h | ⟨r1, h⟩)
      · exact Or.inr h
      · exact Or.inl (List.cons.inj h).1

theorem cap_enabled_extjoin_iff (b : Bot) (args : List Str) :
    (b.cap_enabled args).have_extended_join = true
      ↔ (b.have_extended_join = true ∨ ∃ r, args = "extended-join".toList :: r) := by
  cases args with
  | nil => simp [Bot.cap_enabled]
  | cons a r =>
    rw [cap_enabled_extjoin, Bool.or_eq_true, decide_eq_true_eq]
    constructor
    · rintro (h | h)
      · exact Or.inr ⟨r, by rw [h]⟩
      · exact Or.inl h
    · rintro (h | ⟨r1, h⟩)
      · exact Or.inr h
      · exact Or.inl (List.cons.inj h).1

theorem isupport_enabled_whox_iff (b : Bot) (args : List Str) :
    (b.isupport_enabled args).have_whox = true
      ↔ (b.have_whox = true ∨ ∃ r, args = "WHOX".toList :: r) := by
  cases args with
  | nil => simp [Bot.isupport_enabled]
  | cons a r =>
    rw [isupport_enabled_whox, Bool.or_eq_true, decide_eq_true_eq]
    constructor
    · rintro (h | h)
      · exact Or.inr ⟨r, by rw [h]⟩
      · exact Or.inl h
    · rintro (h | ⟨r1, h⟩)
      · exact Or.inr h
      · exact Or.inl (List.cons.inj h).1

theorem flags_after_events (es : List Event) : ∀ b : Bot,
    (∀ ev ∈ es, ∀ l, ev ≠ Event.line l) →
    ∃ b1, b.run es = some b1
      ∧ (b1.have_whox = true ↔ (b.have_whox = true
          ∨ ∃ r, Event.isupport_enabled ("WHOX".toList :: r) ∈ es))
      ∧ (b1.have_account_notify = true ↔ (b.have_account_notify = true
          ∨ ∃ r, Event.cap_enabled ("account-notify".toList :: r) ∈ es))
      ∧ (b1.have_extended_join = true ↔ (b.have_extended_join = true
          ∨ ∃ r, Event.cap_enabled ("extended-join".toList :: r) ∈ es)) := by
  induction es with
  | nil =>
    intro b _
    exact ⟨b, rfl, by simp, by simp, by simp⟩
  | cons ev es ih =>
    intro b hes
    have hrest : ∀ x ∈ es, ∀ l, x ≠ Event.line l := fun x hx => hes x (by simp [hx])
    cases ev with
    | line l => exact absurd rfl (hes (Event.line l) (by simp) l)
    | cap_enabled args =>
      obtain ⟨b1, h1, h2, h3, h4⟩ := ih (b.cap_enabled args) hrest
      refine ⟨b1, by simp [Bot.run, Bot.step, h1], ?_, ?_, ?_⟩
      · rw [h2, cap_enabled_whox]
        simp
      · rw [h3, cap_enabled_notify_iff]
        constructor
        · rintro ((h | ⟨r, h⟩) | ⟨r, h⟩)
          · exact Or.inl h
          · exact Or.inr ⟨r, by rw [h]; exact List.mem_cons_self _ _⟩
          · exact Or.inr ⟨r, List.mem_cons_of_mem _ h⟩
        · rintro (h | ⟨r, h⟩)
          · exact Or.inl (Or.inl h)
          · simp only [List.mem_cons, Event.cap_enabled.injEq] at h
            rcases h with h | h
            · exact Or.inl (Or.inr ⟨r, h.symm⟩)
            · exact Or.inr ⟨r, h⟩
      · rw [h4, cap_enabled_extjoin_iff]
        constructor
        · rintro ((h | ⟨r, h⟩) | ⟨r, h⟩)
          · exact Or.inl h
          · exact Or.inr ⟨r, by rw [h]; exact List.mem_cons_self _ _⟩
          · exact Or.inr ⟨r, List.mem_cons_of_mem _ h⟩
        · rintro (h | ⟨r, h⟩)
          · exact Or.inl (Or.inl h)
          · simp only [List.mem_cons, Event.cap_enabled.injEq] at h
            rcases h with h | h
            · exact Or.inl (Or.inr ⟨r, h.symm⟩)
            · exact Or.inr ⟨r, h⟩
    | isupport_enabled args =>
      obtain ⟨b1, h1, h2, h3, h4⟩ := ih (b.isupport_enabled args) hrest
      refine ⟨b1, by simp [Bot.run, Bot.step, h1], ?_, ?_, ?_⟩
      · rw [h2, isupport_enabled_whox_iff]
        constructor
        · rintro ((h | ⟨r, h⟩) | ⟨r, h⟩)
          · exact Or.inl h
          · exact Or.inr ⟨r, by rw [h]; exact List.mem_cons_self _ _⟩
          · exact Or.inr ⟨r, List.mem_cons_of_mem _ h⟩
        · rintro (h | ⟨r, h⟩)
          · exact Or.inl (Or.inl h)
          · simp only [List.mem_cons, Event.isupport_enabled.injEq] at h
            rcases h with h | h
            · exact Or.inl (Or.inr ⟨r, h.symm⟩)
            · exact Or.inr ⟨r, h⟩
      · rw [h3, (isupport_enabled_caps b args).1]
        simp
      · rw [h4, (isupport_enabled_caps b args).2]
        simp

/-- Identity tracking after a sequence of `cap_enabled` and `isupport_enabled`
events on a bot whose three flags started as `w`, `n`, `e`: it is enabled if
and only if each flag either started true or was named by the first argument of
one of the events. -/
theorem tracking_after_events (nick : Str) (supported : List (Char × Char)) (w n e : Bool)
    (es : List Event) (hes : ∀ ev ∈ es, ∀ l, ev ≠ Event.line l) :
    ∃ b, (Bot.init nick supported w n e).run es = some b
      ∧ (b.use_account_tracking = true ↔
          (w = true ∨ ∃ r, Event.isupport_enabled ("WHOX".toList :: r) ∈ es)
          ∧ (n = true ∨ ∃ r, Event.cap_enabled ("account-notify".toList :: r) ∈ es)
          ∧ (e = true ∨ ∃ r, Event.cap_enabled ("extended-join".toList :: r) ∈ es)) := by
  obtain ⟨b, h1, h2, h3, h4⟩ := flags_after_events es (Bot.init nick supported w n e) hes
  refine ⟨b, h1, ?_⟩
  unfold Bot.use_account_tracking
  simp only [Bool.and_eq_true, h2, h3, h4, and_assoc]
  rfl

/-- C22 (evaluation of the failing input): the constructor gives no initial
value to `have_whox`, `have_account_notify` and `have_extended_join`.  On a
newly constructed bot whose three members hold true, identity tracking is on
after the empty sequence of events, and after a sequence that names none of
the three features; on one whose members hold false, it is off after the
empty sequence. -/
theorem C22_flags_start_undetermined :
    ((Bot.init "bot".toList [] true true true).run []).map
        (fun b => b.use_account_tracking) = some true
    ∧ ((Bot.init "bot".toList [] true true true).run
        [Event.cap_enabled ["multi-prefix".toList]]).map
        (fun b => b.use_account_tracking) = some true
    ∧ ((Bot.init "bot".toList [] false false false).run []).map
        (fun b => b.use_account_tracking) = some false := by
  decide

/-! ## C23: lines without parameters -/

theorem size_add_npos_one : size_add npos 1 = 0 := by decide

theorem parse_command_only (cl : List (Str × Nat)) (c : Char) (C : Str)
    (hc : c ≠ ':') (hsp : ' ' ∉ c :: C) (hlf : '\n' ∉ c :: C) (hcr : '\r' ∉ c :: C)
    (hlen : (c :: C).length < npos) :
    handle_message_parse cl (c :: C) =
      some { raw := c :: C
             source := { raw := [], name := [], client := none
                         destination := c :: C
                         reply_func := if find_first_of (c :: C) ['#', '&'] ≠ npos then c :: C
                           else []
                         error_func := if find_first_of (c :: C) ['#', '&'] ≠ npos then c :: C
                           else [] }
             command := c :: C
             args := [] } := by
  have hnpos : npos = 18446744073709551615 := rfl
  have hs1 : strip_last (c :: C) '\n' = some (c :: C) :=
    strip_last_stable (c :: C) '\n' (by simp) hlf
  have hs2 : strip_last (c :: C) '\r' = some (c :: C) :=
    strip_last_stable (c :: C) '\r' (by simp) hcr
  have h0 : str_at (c :: C) 0 = some c := str_at_tok [] C c 0 rfl
  have hf0 : find (c :: C) ' ' 0 = npos := by
    have := find_end [] (c :: C) ' ' 0 rfl hsp
    simpa using this
  have hsub : size_sub npos 0 = npos := by decide
  have hw : substr (c :: C) 0 npos = some (c :: C) := by
    have := substr_end [] (c :: C) 0 npos rfl (by omega)
    simpa using this
  have hfe : find ([] : Str) '!' 0 = npos := find_empty '!' 0
  have hres := handle_message_parse_steps cl (c :: C) (c :: C) (c :: C) c c [] [] (c :: C)
    (c :: C) (c :: C) [] 0 0 hs1 hs2 h0
    (by rw [if_neg hc])
    (by rw [if_neg hc])
    (by rw [hfe, if_neg (by simp)])
    (by rw [hf0, hsub, hw])
    (by rw [hf0, size_add_npos_one])
    (by rw [hf0, hsub, hw])
    h0
    (by rw [if_neg hc])
    (by rw [if_neg hc, hf0]; exact args_loop_npos _ _ _)
  rw [hres, hfe]
  simp

theorem parse_prefix_command_only (cl : List (Str × Nat)) (raw C : Str)
    (hraw : ' ' ∉ raw) (hC : ' ' ∉ C) (hCne : C ≠ []) (hlf : '\n' ∉ C) (hcr : '\r' ∉ C)
    (hlen : (':' :: (raw ++ ' ' :: C)).length < npos) :
    ∃ m, handle_message_parse cl (':' :: (raw ++ ' ' :: C)) = some m
      ∧ m.source.raw = raw ∧ m.command = C
      ∧ m.source.destination = raw ++ ' ' :: C ∧ m.args = [] := by
  have hnpos : npos = 18446744073709551615 := rfl
  simp only [List.length_cons, List.length_append] at hlen
  have hs1 : strip_last (':' :: (raw ++ ' ' :: C)) '\n' = some (':' :: (raw ++ ' ' :: C)) := by
    have := strip_last_append_ne (':' :: (raw ++ [' '])) C '\n' hCne hlf
    simpa using this
  have hs2 : strip_last (':' :: (raw ++ ' ' :: C)) '\r' = some (':' :: (raw ++ ' ' :: C)) := by
    have := strip_last_append_ne (':' :: (raw ++ [' '])) C '\r' hCne hcr
    simpa using this
  have h0 : str_at (':' :: (raw ++ ' ' :: C)) 0 = some ':' := str_at_tok [] _ ':' 0 rfl
  have hf0 : find (':' :: (raw ++ ' ' :: C)) ' ' 0 = raw.length + 1 := by
    have := find_tok [] (':' :: raw) C ' ' 0 rfl (by simp [hraw])
    simpa using this
  have hsub1 : size_sub (raw.length + 1) 1 = raw.length := by
    rw [size_sub_small _ _ (by omega) (by omega)]; omega
  have hr : substr (':' :: (raw ++ ' ' :: C)) 1 raw.length = some raw :=
    substr_tok [':'] raw (' ' :: C) 1 _ rfl rfl
  have ha1 : size_add (raw.length + 1) 1 = raw.length + 2 := by
    rw [size_add_small _ _ (by omega)]
  have hf1 : find (':' :: (raw ++ ' ' :: C)) ' ' (raw.length + 2) = npos := by
    have := find_end (':' :: (raw ++ [' '])) C ' ' (raw.length + 2) (by simp) hC
    simpa using this
  have hc : substr (':' :: (raw ++ ' ' :: C)) (raw.length + 2)
      (size_sub npos (raw.length + 2)) = some C := by
    have := substr_end (':' :: (raw ++ [' '])) C (raw.length + 2)
      (size_sub npos (raw.length + 2)) (by simp)
      (by rw [size_sub_small _ _ (by omega) (by omega)]; omega)
    simpa using this
  have hsub0 : size_sub (raw.length + 1) 0 = raw.length + 1 := by
    rw [size_sub_small _ _ (by omega) (by omega)]; omega
  have hd0 : substr (':' :: (raw ++ ' ' :: C)) 0 (raw.length + 1) = some (':' :: raw) := by
    have := substr_tok [] (':' :: raw) (' ' :: C) 0 (raw.length + 1) rfl (by simp)
    simpa using this
  have ha0 : size_add 0 1 = 1 := by decide
  have hd1 : substr (':' :: (raw ++ ' ' :: C)) 1 npos = some (raw ++ ' ' :: C) := by
    have := substr_end [':'] (raw ++ ' ' :: C) 1 npos rfl
      (by simp only [List.length_append, List.length_cons]; omega)
    simpa using this
  have hb : substr raw 0 (find raw '!' 0) = some (raw.take (find raw '!' 0)) := by
    simp [substr]
  have hres := handle_message_parse_steps cl _ _ (':' :: (raw ++ ' ' :: C))
    ':' ':' raw (if find raw '!' 0 ≠ npos then raw.take (find raw '!' 0) else raw) C
    (':' :: raw) (raw ++ ' ' :: C) [] (raw.length + 2) 0 hs1 hs2 h0
    (by rw [if_pos rfl, hf0, hsub1, hr])
    (by rw [if_pos rfl, hf0, ha1])
    (by by_cases hbang : find raw '!' 0 = npos
        · simp [hbang]
        · simp [hbang, hb])
    (by rw [hf1, hc])
    (by rw [hf1, size_add_npos_one])
    (by rw [hf0, hsub0, hd0])
    (str_at_tok [] raw ':' 0 rfl)
    (by rw [if_pos rfl, ha0, hd1])
    (by rw [if_pos rfl]; exact args_loop_npos _ _ _)
  exact ⟨_, hres, rfl, rfl, rfl, rfl⟩

/-- C23 (evaluation of the failing inputs): the line `PING` is parsed with
the command `PING`, no argument, and the destination `PING`, the text of the
command; the line `:nick!user@host QUIT` is parsed with the command `QUIT`, no
argument, and the destination `nick!user@host QUIT`, the text of the prefix
and the command.  In neither case is the destination empty. -/
theorem C23_destination_without_parameters :
    (handle_message_parse [] "PING".toList).map
        (fun m => (m.command, m.source.destination, m.args))
      = some ("PING".toList, "PING".toList, [])
    ∧ (handle_message_parse [] ":nick!user@host QUIT".toList).map
        (fun m => (m.command, m.source.destination, m.args))
      = some ("QUIT".toList, "nick!user@host QUIT".toList, []) := by
  refine ⟨?_, ?_⟩ <;> decide

/-! ## C25: a source token with `!` and without `@` -/

theorem nuh_without_at (b : Bot) (name N U : Str) (hN : '!' ∉ N) (hU : '@' ∉ U)
    (hfc : b.find_client name = none) (hlen : (N ++ '!' :: U).length < npos) :
    find_or_create_client_nuh b name (N ++ '!' :: U)
      = some (Bot.add_client
          { b with clientObjs := b.clientObjs ++ [Client.new N U (N ++ '!' :: U)] }
          b.clientObjs.length, b.clientObjs.length) := by
  have hnpos : npos = 18446744073709551615 := rfl
  simp only [List.length_cons, List.length_append] at hlen
  have hbang : find (N ++ '!' :: U) '!' 0 = N.length := by
    have := find_tok [] N U '!' 0 rfl hN
    simpa using this
  have hbn : N.length ≠ npos := by omega
  have ha1 : size_add N.length 1 = N.length + 1 := by
    rw [size_add_small _ _ (by omega)]
  have hat : find (N ++ '!' :: U) '@' (N.length + 1) = npos := by
    have := find_end (N ++ ['!']) U '@' (N.length + 1) (by simp) hU
    simpa using this
  have hs1 : size_sub (size_sub npos N.length) 1 = npos - N.length - 1 := by
    rw [size_sub_small npos N.length (by omega) (by omega),
      size_sub_small _ 1 (by omega) (by omega)]
  have hn : substr (N ++ '!' :: U) 0 N.length = some N := by
    have := substr_tok [] N ('!' :: U) 0 _ rfl rfl
    simpa using this
  have hu : substr (N ++ '!' :: U) (N.length + 1) (npos - N.length - 1) = some U := by
    have := substr_end (N ++ ['!']) U (N.length + 1) (npos - N.length - 1) (by simp)
      (by omega)
    simpa using this
  have hh : substr (N ++ '!' :: U) 0 npos = some (N ++ '!' :: U) := by
    have := substr_end [] (N ++ '!' :: U) 0 npos rfl
      (by simp only [List.length_append, List.length_cons]; omega)
    simpa using this
  simp only [find_or_create_client_nuh, hfc, hbang, hbn, if_false, ha1, hat, hs1, hn, hu,
    size_add_npos_one, hh, Option.some_bind]

/-- C25 (evaluation of the failing input): the JOIN of `nick!user` to `#a` on
a bot with an empty graph creates a client with nick `nick` and user `user`,
whose host is the whole source token `nick!user`, not the empty string. -/
theorem C25_host_without_at :
    ((Bot.init "bot".toList [] false false false).run
        [Event.line ":nick!user JOIN #a".toList]).map
      (fun b => ((b.client 0).nick, (b.client 0).user, (b.client 0).host))
    = some ("nick".toList, "user".toList, "nick!user".toList) := by
  decide

end Eir
